import Mathlib

/-!
unishim: UTF-8 / UTF-16 / UTF-32 conversion routines.

A shallow embedding of the four conversion routines of `unishim.h`
(`utf16_to_utf8`, `utf8_to_utf16`, `utf32_to_utf8`, `utf8_to_utf32`) and
theorems about them.

Conventions of the embedding:

* A null-terminated C array is a `List Nat`: the list `s` stands for the memory
  `s ++ [0]`, so reading one unit past the end of the list reads the terminator.
  A list may contain a `0` itself; the routines then stop there, as in C. A
  materializing pass that reads or moves further than the end of the list
  (which the measuring pass excludes) reads zeros and stops.
* `malloc` is a parameter `malloc : Nat → Option (List Nat)`: given the byte
  count it returns `none` (allocation failure) or the fresh block, as the list
  of destination units it holds. The contents of the block are whatever the
  allocator returns; the routines only change the cells they store to.
* A store `buf[i] = v` is `buf.set i v`.
* Every routine returns the pair `(returned pointer, *status)`, the pointer
  being `none` for a null return.
* Typed C variables are truncated with `u8`, `u16`, `u32` where they are
  assigned. The byte count `len` (a `size_t`) is an unbounded `Nat`.
-/

namespace Unishim

/-! ## Machine integers -/

/-- Conversion to `uint8_t`. -/
def u8 (x : Nat) : Nat := x % 256

/-- Conversion to `uint16_t`. -/
def u16 (x : Nat) : Nat := x % 65536

/-- Conversion to `uint32_t`. -/
def u32 (x : Nat) : Nat := x % 4294967296

/-! ## utf16_to_utf8 (unishim.h lines 37-156) -/

/-- Measuring pass of `utf16_to_utf8` (lines 44-83): the byte length of the
UTF-8 string, or the error status. The second argument is `len`. -/
def utf16_to_utf8_len : List Nat → Nat → Except Nat Nat
  | [], len => .ok len
  | c0 :: r0, len =>
    if c0 = 0 then .ok len
    else if c0 < 0xD800 ∨ c0 ≥ 0xE000 then
      if c0 < 0x80 then utf16_to_utf8_len r0 (len + 1)
      else if c0 < 0x800 then utf16_to_utf8_len r0 (len + 2)
      else utf16_to_utf8_len r0 (len + 3)
    else
      if c0 ≥ 0xDC00 then .error 1
      else
        match r0 with
        | [] => .error 2
        | c1 :: r1 =>
          if c1 = 0 then .error 2
          else if c1 < 0xDC00 ∨ c0 ≥ 0xE000 then .error 3
          else utf16_to_utf8_len r1 (len + 4)

/-- The two bytes `(high, low)` stored for a unit below 0x800 (lines 106-109). -/
def utf16_bytes2 (c0 : Nat) : Nat × Nat :=
  let low := u8 (c0 &&& 0x3F)
  let high := u8 ((c0 >>> 6) &&& 0x1F)
  let low := u8 (low ||| 0x80)
  let high := u8 (high ||| 0xC0)
  (high, low)

/-- The three bytes `(high, mid, low)` stored for any other non-surrogate unit
(lines 115-120). -/
def utf16_bytes3 (c0 : Nat) : Nat × Nat × Nat :=
  let low := u8 (c0 &&& 0x3F)
  let mid := u8 ((c0 >>> 6) &&& 0x3F)
  let high := u8 ((c0 >>> 12) &&& 0x0F)
  let low := u8 (low ||| 0x80)
  let mid := u8 (mid ||| 0x80)
  let high := u8 (high ||| 0xE0)
  (high, mid, low)

/-- The codepoint rebuilt from the units `counter[0]`, `counter[1]` in the
surrogate branch (lines 130-133). -/
def utf16_pair_codepoint (c0 c1 : Nat) : Nat :=
  let in_low := u32 (c1 &&& 0x03FF)
  let in_high := u32 (c0 &&& 0x03FF)
  let codepoint := u32 ((in_high <<< 10) ||| in_low)
  u32 (codepoint + 0x10000)

/-- The four bytes `(top, high, mid, low)` stored for a codepoint
(lines 135-142). -/
def utf16_bytes4 (codepoint : Nat) : Nat × Nat × Nat × Nat :=
  let low := u8 (codepoint &&& 0x3F)
  let mid := u8 ((codepoint >>> 6) &&& 0x3F)
  let high := u8 ((codepoint >>> 12) &&& 0x3F)
  let top := u8 ((codepoint >>> 18) &&& 0x07)
  let low := u8 (low ||| 0x80)
  let mid := u8 (mid ||| 0x80)
  let high := u8 (high ||| 0x80)
  let top := u8 (top ||| 0xF0)
  (top, high, mid, low)

/-- Materializing pass of `utf16_to_utf8` (lines 96-151): the buffer and the
index `i` after the loop. In the surrogate branch `counter[1]` is read without
a check; when the list ends there it reads the terminator and the scan ends
after the four stores (the measuring pass excludes this case). The bytes are
stored in the order of the source: `utf8[i++] = ...` for each component. -/
def utf16_to_utf8_fill : List Nat → List Nat → Nat → List Nat × Nat
  | [], utf8, i => (utf8, i)
  | c0 :: r0, utf8, i =>
    if c0 = 0 then (utf8, i)
    else if c0 < 0xD800 ∨ c0 ≥ 0xE000 then
      if c0 < 0x80 then
        utf16_to_utf8_fill r0 (utf8.set i (u8 c0)) (i + 1)
      else if c0 < 0x800 then
        let b := utf16_bytes2 c0
        utf16_to_utf8_fill r0 ((utf8.set i b.1).set (i + 1) b.2) (i + 2)
      else
        let b := utf16_bytes3 c0
        utf16_to_utf8_fill r0
          (((utf8.set i b.1).set (i + 1) b.2.1).set (i + 2) b.2.2) (i + 3)
    else
      match r0 with
      | [] =>
        let b := utf16_bytes4 (utf16_pair_codepoint c0 0)
        (((((utf8.set i b.1).set (i + 1) b.2.1).set (i + 2) b.2.2.1).set (i + 3)
          b.2.2.2), i + 4)
      | c1 :: r1 =>
        let b := utf16_bytes4 (utf16_pair_codepoint c0 c1)
        utf16_to_utf8_fill r1
          ((((utf8.set i b.1).set (i + 1) b.2.1).set (i + 2) b.2.2.1).set (i + 3)
            b.2.2.2)
          (i + 4)

/-- The routine `utf16_to_utf8`: measuring pass, `malloc(len+1)`, materializing
pass, then the store `utf8[i] = 0` (line 153). -/
def utf16_to_utf8 (malloc : Nat → Option (List Nat)) (utf16 : List Nat) :
    Option (List Nat) × Nat :=
  match utf16_to_utf8_len utf16 0 with
  | .error status => (none, status)
  | .ok len =>
    match malloc (len + 1) with
    | none => (none, 4)
    | some utf8 =>
      let r := utf16_to_utf8_fill utf16 utf8 0
      (some (r.1.set r.2 0), 0)

/-! ## The UTF-8 scanner shared by utf8_to_utf16 and utf8_to_utf32

The measuring passes of `utf8_to_utf16` (lines 181-263) and `utf8_to_utf32`
(lines 490-572) are the same text up to the amounts added to `len`, and so are
the computations of the codepoint in their materializing passes (lines
285-287, 301-305, 326-331 and 594-596, 610-614, 635-640). They are embedded
once. -/

/-- Measuring pass over UTF-8 input. The parameters `w1 w2 w3 w4` are the
amounts added to `len` for a 1-, 2-, 3- and 4-byte sequence. Each `for` loop
over the continuation bytes is unrolled: `counter[index]` is tested for the
terminator (status 2) and then for the range 0x80..0xBF (status 3), for
`index = 1, 2, 3` in this order. -/
def utf8_len (w1 w2 w3 w4 : Nat) : List Nat → Nat → Except Nat Nat
  | [], len => .ok len
  | c0 :: r0, len =>
    if c0 = 0 then .ok len
    else if c0 < 0x80 then utf8_len w1 w2 w3 w4 r0 (len + w1)
    else if c0 < 0xC0 then .error 1
    else if c0 < 0xE0 then
      match r0 with
      | [] => .error 2
      | c1 :: r1 =>
        if c1 = 0 then .error 2
        else if c1 < 0x80 ∨ c1 ≥ 0xC0 then .error 3
        else utf8_len w1 w2 w3 w4 r1 (len + w2)
    else if c0 < 0xF0 then
      match r0 with
      | [] => .error 2
      | c1 :: r1 =>
        if c1 = 0 then .error 2
        else if c1 < 0x80 ∨ c1 ≥ 0xC0 then .error 3
        else
          match r1 with
          | [] => .error 2
          | c2 :: r2 =>
            if c2 = 0 then .error 2
            else if c2 < 0x80 ∨ c2 ≥ 0xC0 then .error 3
            else utf8_len w1 w2 w3 w4 r2 (len + w3)
    else if c0 < 0xF8 then
      match r0 with
      | [] => .error 2
      | c1 :: r1 =>
        if c1 = 0 then .error 2
        else if c1 < 0x80 ∨ c1 ≥ 0xC0 then .error 3
        else
          match r1 with
          | [] => .error 2
          | c2 :: r2 =>
            if c2 = 0 then .error 2
            else if c2 < 0x80 ∨ c2 ≥ 0xC0 then .error 3
            else
              match r2 with
              | [] => .error 2
              | c3 :: r3 =>
                if c3 = 0 then .error 2
                else if c3 < 0x80 ∨ c3 ≥ 0xC0 then .error 3
                else utf8_len w1 w2 w3 w4 r3 (len + w4)
    else .error 1

/-- Measuring pass of `utf8_to_utf16`: `len += 2, 2, 2, 4`. -/
def utf8_to_utf16_len : List Nat → Nat → Except Nat Nat := utf8_len 2 2 2 4

/-- Measuring pass of `utf8_to_utf32`: `len += 4` for every sequence. -/
def utf8_to_utf32_len : List Nat → Nat → Except Nat Nat := utf8_len 4 4 4 4

/-- The codepoint of a two-byte sequence (lines 285-287, 594-596). -/
def utf8_codepoint2 (c0 c1 : Nat) : Nat :=
  let high := u16 (c0 &&& 0x1F)
  let low := u16 (c1 &&& 0x3F)
  u16 ((high <<< 6) ||| low)

/-- The codepoint of a three-byte sequence (lines 301-305, 610-614). -/
def utf8_codepoint3 (c0 c1 c2 : Nat) : Nat :=
  let high := u16 (c0 &&& 0x0F)
  let mid := u16 (c1 &&& 0x3F)
  let low := u16 (c2 &&& 0x3F)
  u16 ((high <<< 12) ||| (mid <<< 6) ||| low)

/-- The codepoint of a four-byte sequence (lines 326-331, 635-640). -/
def utf8_codepoint4 (c0 c1 c2 c3 : Nat) : Nat :=
  let top := u32 (c0 &&& 0x07)
  let high := u32 (c1 &&& 0x3F)
  let mid := u32 (c2 &&& 0x3F)
  let low := u32 (c3 &&& 0x3F)
  u32 ((top <<< 18) ||| (high <<< 12) ||| (mid <<< 6) ||| low)

/-! ## utf8_to_utf16 (unishim.h lines 174-365) -/

/-- The pair `(upper, lower)` stored for a codepoint of 0x10000 or more
(lines 348-352). The subtraction is that of `uint32_t`, modulo 2^32. -/
def utf16_surrogates (codepoint : Nat) : Nat × Nat :=
  let codepoint := u32 (codepoint + 4294967296 - 0x10000)
  let upper := u16 (codepoint >>> 10)
  let lower := u16 (codepoint &&& 0x3FF)
  let upper := u16 (upper + 0xD800)
  let lower := u16 (lower + 0xDC00)
  (upper, lower)

/-- Materializing pass of `utf8_to_utf16` (lines 275-364): the buffer after the
loop, or the error status (the buffer is then released or, in the last branch,
dropped; it is not returned). The first argument is the input from `counter`
on, the second the number of units still to be passed over before the next
loop test: `counter[k]` is `r0.getD (k-1) 0`, and `counter += k` continues on
`r0` after passing over `k-1` units. The continuation bytes are read without a
check. -/
def utf8_to_utf16_fill : List Nat → Nat → List Nat → Nat → Except Nat (List Nat)
  | [], _, utf16, _ => .ok utf16
  | _ :: r0, skip + 1, utf16, i => utf8_to_utf16_fill r0 skip utf16 i
  | c0 :: r0, 0, utf16, i =>
    if c0 = 0 then .ok utf16
    else if c0 < 0x80 then utf8_to_utf16_fill r0 0 (utf16.set i (u16 c0)) (i + 1)
    else if c0 < 0xE0 then
      let codepoint := utf8_codepoint2 c0 (r0.getD 0 0)
      if codepoint < 0x80 then .error 6
      else utf8_to_utf16_fill r0 1 (utf16.set i codepoint) (i + 1)
    else if c0 < 0xF0 then
      let codepoint := utf8_codepoint3 c0 (r0.getD 0 0) (r0.getD 1 0)
      if codepoint < 0x800 then .error 6
      else if codepoint ≥ 0xD800 ∧ codepoint < 0xE000 then .error 4
      else utf8_to_utf16_fill r0 2 (utf16.set i codepoint) (i + 1)
    else if c0 < 0xF8 then
      let codepoint := utf8_codepoint4 c0 (r0.getD 0 0) (r0.getD 1 0) (r0.getD 2 0)
      if codepoint < 0x10000 then .error 6
      else if codepoint ≥ 0x110000 then .error 5
      else
        let p := utf16_surrogates codepoint
        utf8_to_utf16_fill r0 3 ((utf16.set i p.1).set (i + 1) p.2) (i + 2)
    else .error 1

/-- The routine `utf8_to_utf16`: measuring pass, `malloc(len+2)`, materializing
pass, `return utf16` (line 364). No store follows the loop. -/
def utf8_to_utf16 (malloc : Nat → Option (List Nat)) (utf8 : List Nat) :
    Option (List Nat) × Nat :=
  match utf8_to_utf16_len utf8 0 with
  | .error status => (none, status)
  | .ok len =>
    match malloc (len + 2) with
    | none => (none, 7)
    | some utf16 =>
      match utf8_to_utf16_fill utf8 0 utf16 0 with
      | .error status => (none, status)
      | .ok utf16 => (some utf16, 0)

/-! ## utf32_to_utf8 (unishim.h lines 377-465) -/

/-- Measuring pass of `utf32_to_utf8` (lines 384-409). -/
def utf32_to_utf8_len : List Nat → Nat → Except Nat Nat
  | [], len => .ok len
  | c0 :: r0, len =>
    if c0 = 0 then .ok len
    else if c0 < 0x80 then utf32_to_utf8_len r0 (len + 1)
    else if c0 < 0x800 then utf32_to_utf8_len r0 (len + 2)
    else if c0 < 0x10000 then
      if c0 ≥ 0xD800 ∧ c0 < 0xE000 then .error 1
      else utf32_to_utf8_len r0 (len + 3)
    else if c0 < 0x110000 then utf32_to_utf8_len r0 (len + 4)
    else .error 2

/-- The two bytes `(high, low)` stored for a unit below 0x800 (lines 428-431). -/
def utf32_bytes2 (c0 : Nat) : Nat × Nat :=
  let high := u8 (c0 >>> 6)
  let low := u8 (c0 &&& 0x3F)
  let high := u8 (high ||| 0xC0)
  let low := u8 (low ||| 0x80)
  (high, low)

/-- The three bytes `(high, mid, low)` stored for a unit below 0x10000
(lines 437-442). -/
def utf32_bytes3 (c0 : Nat) : Nat × Nat × Nat :=
  let high := u8 (c0 >>> 12)
  let mid := u8 ((c0 >>> 6) &&& 0x3F)
  let low := u8 (c0 &&& 0x3F)
  let high := u8 (high ||| 0xE0)
  let mid := u8 (mid ||| 0x80)
  let low := u8 (low ||| 0x80)
  (high, mid, low)

/-- The four bytes `(top, high, mid, low)` stored for any other unit
(lines 449-456). -/
def utf32_bytes4 (c0 : Nat) : Nat × Nat × Nat × Nat :=
  let top := u8 (c0 >>> 18)
  let high := u8 ((c0 >>> 12) &&& 0x3F)
  let mid := u8 ((c0 >>> 6) &&& 0x3F)
  let low := u8 (c0 &&& 0x3F)
  let top := u8 (top ||| 0xF0)
  let high := u8 (high ||| 0x80)
  let mid := u8 (mid ||| 0x80)
  let low := u8 (low ||| 0x80)
  (top, high, mid, low)

/-- Materializing pass of `utf32_to_utf8` (lines 421-463): the buffer after the
loop. -/
def utf32_to_utf8_fill : List Nat → List Nat → Nat → List Nat
  | [], utf8, _ => utf8
  | c0 :: r0, utf8, i =>
    if c0 = 0 then utf8
    else if c0 < 0x80 then utf32_to_utf8_fill r0 (utf8.set i (u8 c0)) (i + 1)
    else if c0 < 0x800 then
      let b := utf32_bytes2 c0
      utf32_to_utf8_fill r0 ((utf8.set i b.1).set (i + 1) b.2) (i + 2)
    else if c0 < 0x10000 then
      let b := utf32_bytes3 c0
      utf32_to_utf8_fill r0
        (((utf8.set i b.1).set (i + 1) b.2.1).set (i + 2) b.2.2) (i + 3)
    else
      let b := utf32_bytes4 c0
      utf32_to_utf8_fill r0
        ((((utf8.set i b.1).set (i + 1) b.2.1).set (i + 2) b.2.2.1).set (i + 3)
          b.2.2.2)
        (i + 4)

/-- The routine `utf32_to_utf8`: measuring pass, `malloc(len+1)`, materializing
pass, `return utf8` (line 464). No store follows the loop. -/
def utf32_to_utf8 (malloc : Nat → Option (List Nat)) (utf32 : List Nat) :
    Option (List Nat) × Nat :=
  match utf32_to_utf8_len utf32 0 with
  | .error status => (none, status)
  | .ok len =>
    match malloc (len + 1) with
    | none => (none, 3)
    | some utf8 => (some (utf32_to_utf8_fill utf32 utf8 0), 0)

/-! ## utf8_to_utf32 (unishim.h lines 483-668) -/

/-- Materializing pass of `utf8_to_utf32` (lines 584-667): the buffer after the
loop, or the error status (the buffer is then not returned). The arguments are
those of `utf8_to_utf16_fill`. -/
def utf8_to_utf32_fill : List Nat → Nat → List Nat → Nat → Except Nat (List Nat)
  | [], _, utf32, _ => .ok utf32
  | _ :: r0, skip + 1, utf32, i => utf8_to_utf32_fill r0 skip utf32 i
  | c0 :: r0, 0, utf32, i =>
    if c0 = 0 then .ok utf32
    else if c0 < 0x80 then utf8_to_utf32_fill r0 0 (utf32.set i (u32 c0)) (i + 1)
    else if c0 < 0xE0 then
      let codepoint := utf8_codepoint2 c0 (r0.getD 0 0)
      if codepoint < 0x80 then .error 6
      else utf8_to_utf32_fill r0 1 (utf32.set i codepoint) (i + 1)
    else if c0 < 0xF0 then
      let codepoint := utf8_codepoint3 c0 (r0.getD 0 0) (r0.getD 1 0)
      if codepoint < 0x800 then .error 6
      else if codepoint ≥ 0xD800 ∧ codepoint < 0xE000 then .error 4
      else utf8_to_utf32_fill r0 2 (utf32.set i codepoint) (i + 1)
    else if c0 < 0xF8 then
      let codepoint := utf8_codepoint4 c0 (r0.getD 0 0) (r0.getD 1 0) (r0.getD 2 0)
      if codepoint < 0x10000 then .error 6
      else if codepoint ≥ 0x110000 then .error 5
      else utf8_to_utf32_fill r0 3 (utf32.set i codepoint) (i + 1)
    else .error 1

/-- The routine `utf8_to_utf32`: measuring pass, `malloc(len+4)`, materializing
pass, `return utf32` (line 667). No store follows the loop. -/
def utf8_to_utf32 (malloc : Nat → Option (List Nat)) (utf8 : List Nat) :
    Option (List Nat) × Nat :=
  match utf8_to_utf32_len utf8 0 with
  | .error status => (none, status)
  | .ok len =>
    match malloc (len + 4) with
    | none => (none, 7)
    | some utf32 =>
      match utf8_to_utf32_fill utf8 0 utf32 0 with
      | .error status => (none, status)
      | .ok utf32 => (some utf32, 0)

/-! ## The two passes over UTF-8 input, as seen from the input

The definitions above give what the passes compute. The definitions below
follow the same loops and give how far each iteration moves `counter` and which
input bytes the materializing loop reads. -/

/-- The amounts added to `counter` by the iterations of the measuring pass of
`utf8_to_utf16` (lines 181-263) and of `utf8_to_utf32` (lines 490-572), in
order, or the status the pass returns. The branches are those of `utf8_len`,
with `counter += 1, 2, 3, 4` recorded where `utf8_len` records `len += ...`;
the second argument holds the amounts so far. -/
def utf8_len_widths : List Nat → List Nat → Except Nat (List Nat)
  | [], ws => .ok ws
  | c0 :: r0, ws =>
    if c0 = 0 then .ok ws
    else if c0 < 0x80 then utf8_len_widths r0 (ws ++ [1])
    else if c0 < 0xC0 then .error 1
    else if c0 < 0xE0 then
      match r0 with
      | [] => .error 2
      | c1 :: r1 =>
        if c1 = 0 then .error 2
        else if c1 < 0x80 ∨ c1 ≥ 0xC0 then .error 3
        else utf8_len_widths r1 (ws ++ [2])
    else if c0 < 0xF0 then
      match r0 with
      | [] => .error 2
      | c1 :: r1 =>
        if c1 = 0 then .error 2
        else if c1 < 0x80 ∨ c1 ≥ 0xC0 then .error 3
        else
          match r1 with
          | [] => .error 2
          | c2 :: r2 =>
            if c2 = 0 then .error 2
            else if c2 < 0x80 ∨ c2 ≥ 0xC0 then .error 3
            else utf8_len_widths r2 (ws ++ [3])
    else if c0 < 0xF8 then
      match r0 with
      | [] => .error 2
      | c1 :: r1 =>
        if c1 = 0 then .error 2
        else if c1 < 0x80 ∨ c1 ≥ 0xC0 then .error 3
        else
          match r1 with
          | [] => .error 2
          | c2 :: r2 =>
            if c2 = 0 then .error 2
            else if c2 < 0x80 ∨ c2 ≥ 0xC0 then .error 3
            else
              match r2 with
              | [] => .error 2
              | c3 :: r3 =>
                if c3 = 0 then .error 2
                else if c3 < 0x80 ∨ c3 ≥ 0xC0 then .error 3
                else utf8_len_widths r3 (ws ++ [4])
    else .error 1

/-- A run of a materializing loop over UTF-8 input, as seen from the input:
`widths` are the amounts added to `counter` by the iterations that reached
their `counter += ...`, in order; `reads` are the indices, counted from the
start of the input, of the bytes read, in order; `status` is the status when
the loop was left, 0 when the loop test read a zero. -/
structure FillTrace where
  widths : List Nat
  reads : List Nat
  status : Nat

/-- The run of the materializing loop of `utf8_to_utf16` (lines 275-363) and of
`utf8_to_utf32` (lines 584-666). The two loops have the same tests, read the
same bytes and move `counter` by the same amounts; they differ in what they
store, which is left out here. The first two arguments are those of
`utf8_to_utf16_fill`, `pos` is the index in the input of the head of the first
argument, `ws` and `rs` are the amounts and the reads so far. An iteration
reads `counter[0]` in the loop test and `counter[1]`, `counter[2]`,
`counter[3]` where its branch decodes them. -/
def utf8_fill_trace : List Nat → Nat → Nat → List Nat → List Nat → FillTrace
  | [], skip, pos, ws, rs => ⟨ws, rs ++ [pos + skip], 0⟩
  | _ :: r0, skip + 1, pos, ws, rs => utf8_fill_trace r0 skip (pos + 1) ws rs
  | c0 :: r0, 0, pos, ws, rs =>
    if c0 = 0 then ⟨ws, rs ++ [pos], 0⟩
    else if c0 < 0x80 then utf8_fill_trace r0 0 (pos + 1) (ws ++ [1]) (rs ++ [pos])
    else if c0 < 0xE0 then
      let codepoint := utf8_codepoint2 c0 (r0.getD 0 0)
      if codepoint < 0x80 then ⟨ws, rs ++ [pos, pos + 1], 6⟩
      else utf8_fill_trace r0 1 (pos + 1) (ws ++ [2]) (rs ++ [pos, pos + 1])
    else if c0 < 0xF0 then
      let codepoint := utf8_codepoint3 c0 (r0.getD 0 0) (r0.getD 1 0)
      if codepoint < 0x800 then ⟨ws, rs ++ [pos, pos + 1, pos + 2], 6⟩
      else if codepoint ≥ 0xD800 ∧ codepoint < 0xE000 then
        ⟨ws, rs ++ [pos, pos + 1, pos + 2], 4⟩
      else utf8_fill_trace r0 2 (pos + 1) (ws ++ [3]) (rs ++ [pos, pos + 1, pos + 2])
    else if c0 < 0xF8 then
      let codepoint := utf8_codepoint4 c0 (r0.getD 0 0) (r0.getD 1 0) (r0.getD 2 0)
      if codepoint < 0x10000 then ⟨ws, rs ++ [pos, pos + 1, pos + 2, pos + 3], 6⟩
      else if codepoint ≥ 0x110000 then ⟨ws, rs ++ [pos, pos + 1, pos + 2, pos + 3], 5⟩
      else
        utf8_fill_trace r0 3 (pos + 1) (ws ++ [4]) (rs ++ [pos, pos + 1, pos + 2, pos + 3])
    else ⟨ws, rs ++ [pos], 1⟩

/-- The run of the materializing loop from the start of the input. -/
def utf8_fill_run (b : List Nat) : FillTrace := utf8_fill_trace b 0 0 [] []

/-! ## Reference definitions

These follow the words of the specification, not the code: they are what the
routines are compared with. -/

/-- A scalar value that a non-empty text can hold: in [1, 0x10FFFF] and outside
the surrogate range [0xD800, 0xDFFF]. -/
def IsScalar (c : Nat) : Prop :=
  1 ≤ c ∧ c ≤ 0x10FFFF ∧ ¬ (0xD800 ≤ c ∧ c ≤ 0xDFFF)

instance (c : Nat) : Decidable (IsScalar c) := by
  unfold IsScalar; infer_instance

/-- The standard minimal UTF-8 encoding of a scalar value: 1 byte below 0x80,
2 bytes below 0x800, 3 bytes below 0x10000, 4 bytes otherwise. -/
def utf8_encode (c : Nat) : List Nat :=
  if c < 0x80 then [c]
  else if c < 0x800 then [0xC0 + c / 0x40, 0x80 + c % 0x40]
  else if c < 0x10000 then
    [0xE0 + c / 0x1000, 0x80 + c / 0x40 % 0x40, 0x80 + c % 0x40]
  else
    [0xF0 + c / 0x40000, 0x80 + c / 0x1000 % 0x40, 0x80 + c / 0x40 % 0x40,
      0x80 + c % 0x40]

/-- The concatenation, in order, of the UTF-8 encodings of a list of scalar
values. -/
def utf8_encode_all : List Nat → List Nat
  | [] => []
  | c :: cs => utf8_encode c ++ utf8_encode_all cs

/-- Well-formed UTF-8: a concatenation of minimal-length encodings of scalar
values. -/
def WellFormedUtf8 (b : List Nat) : Prop :=
  ∃ cs : List Nat, (∀ c ∈ cs, IsScalar c) ∧ b = utf8_encode_all cs

/-- The UTF-16 encoding of a scalar value: the unit itself below 0x10000, else
the surrogate pair `0xD800 + ((c-0x10000)>>10)`, `0xDC00 + ((c-0x10000)&0x3FF)`. -/
def utf16_encode (c : Nat) : List Nat :=
  if c < 0x10000 then [c]
  else [0xD800 + ((c - 0x10000) >>> 10), 0xDC00 + ((c - 0x10000) &&& 0x3FF)]

/-- The concatenation, in order, of the UTF-16 encodings of a list of scalar
values. -/
def utf16_encode_all : List Nat → List Nat
  | [] => []
  | c :: cs => utf16_encode c ++ utf16_encode_all cs

/-- Well-formed, zero-free UTF-16: every unit is non-zero and below 0x10000, and
every unit in [0xD800, 0xDFFF] is a high surrogate in [0xD800, 0xDBFF]
immediately followed by a low surrogate in [0xDC00, 0xDFFF], or is that low
surrogate. -/
def WellFormedUtf16 : List Nat → Prop
  | [] => True
  | c0 :: r0 =>
    if c0 < 0xD800 ∨ 0xDFFF < c0 then
      c0 ≠ 0 ∧ c0 < 0x10000 ∧ WellFormedUtf16 r0
    else
      match r0 with
      | [] => False
      | c1 :: r1 =>
        (0xD800 ≤ c0 ∧ c0 ≤ 0xDBFF) ∧ (0xDC00 ≤ c1 ∧ c1 ≤ 0xDFFF) ∧
          WellFormedUtf16 r1

/-- The scalar values of a UTF-16 sequence: a non-surrogate unit decodes to
itself, a high/low pair to `((high-0xD800)<<10 | (low-0xDC00)) + 0x10000`. -/
def utf16_decode : List Nat → List Nat
  | [] => []
  | c0 :: r0 =>
    if c0 < 0xD800 ∨ 0xDFFF < c0 then c0 :: utf16_decode r0
    else
      match r0 with
      | [] => []
      | c1 :: r1 =>
        ((((c0 - 0xD800) <<< 10) ||| (c1 - 0xDC00)) + 0x10000) :: utf16_decode r1

/-- The content of a null-terminated array: the units before the first zero. -/
def before_terminator : List Nat → List Nat
  | [] => []
  | c :: r => if c = 0 then [] else c :: before_terminator r

/-- The violations of a UTF-8 input in the order in which a left-to-right scan
meets them, one entry per offending sequence: malformed lead byte (1),
terminator inside a sequence (2), bad continuation byte (3), encoded
surrogate (4), value of 0x110000 or more (5), overlong encoding (6). A sequence
whose shape is wrong (1, 2, 3) ends the list, since the scan cannot tell where
the next sequence starts; after a sequence whose value is wrong (4, 5, 6) the
scan goes on with the next sequence. An overlong sequence counts as overlong
whatever its value. -/
def utf8_violations : List Nat → List Nat
  | [] => []
  | c0 :: r0 =>
    if c0 = 0 then []
    else if c0 < 0x80 then utf8_violations r0
    else if c0 < 0xC0 then [1]
    else if c0 < 0xE0 then
      match r0 with
      | [] => [2]
      | c1 :: r1 =>
        if c1 = 0 then [2]
        else if c1 < 0x80 ∨ 0xBF < c1 then [3]
        else if c0 % 0x20 * 0x40 + c1 % 0x40 < 0x80 then 6 :: utf8_violations r1
        else utf8_violations r1
    else if c0 < 0xF0 then
      match r0 with
      | [] => [2]
      | c1 :: r1 =>
        if c1 = 0 then [2]
        else if c1 < 0x80 ∨ 0xBF < c1 then [3]
        else
          match r1 with
          | [] => [2]
          | c2 :: r2 =>
            if c2 = 0 then [2]
            else if c2 < 0x80 ∨ 0xBF < c2 then [3]
            else if c0 % 0x10 * 0x1000 + c1 % 0x40 * 0x40 + c2 % 0x40 < 0x800 then
              6 :: utf8_violations r2
            else if 0xD800 ≤ c0 % 0x10 * 0x1000 + c1 % 0x40 * 0x40 + c2 % 0x40 ∧
                c0 % 0x10 * 0x1000 + c1 % 0x40 * 0x40 + c2 % 0x40 ≤ 0xDFFF then
              4 :: utf8_violations r2
            else utf8_violations r2
    else if c0 < 0xF8 then
      match r0 with
      | [] => [2]
      | c1 :: r1 =>
        if c1 = 0 then [2]
        else if c1 < 0x80 ∨ 0xBF < c1 then [3]
        else
          match r1 with
          | [] => [2]
          | c2 :: r2 =>
            if c2 = 0 then [2]
            else if c2 < 0x80 ∨ 0xBF < c2 then [3]
            else
              match r2 with
              | [] => [2]
              | c3 :: r3 =>
                if c3 = 0 then [2]
                else if c3 < 0x80 ∨ 0xBF < c3 then [3]
                else if c0 % 8 * 0x40000 + c1 % 0x40 * 0x1000 + c2 % 0x40 * 0x40
                    + c3 % 0x40 < 0x10000 then
                  6 :: utf8_violations r3
                else if 0x110000 ≤ c0 % 8 * 0x40000 + c1 % 0x40 * 0x1000
                    + c2 % 0x40 * 0x40 + c3 % 0x40 then
                  5 :: utf8_violations r3
                else utf8_violations r3
    else [1]

/-- The status the two-pass decoders report for a list of violations: that of
the leftmost violation of shape (1, 2, 3) when there is one, else that of the
leftmost violation, else 0. -/
def utf8_reported (vs : List Nat) : Nat :=
  match vs.find? (fun st => st ≤ 3) with
  | some st => st
  | none => vs.headD 0

/-- The first offending unit of a UTF-32 input: the first unit before the
terminator that lies in the surrogate range [0xD800, 0xDFFF] or is 0x110000 or
more, if there is one. -/
def utf32_first_offending : List Nat → Option Nat
  | [] => none
  | u :: r =>
    if u = 0 then none
    else if (0xD800 ≤ u ∧ u ≤ 0xDFFF) ∨ 0x110000 ≤ u then some u
    else utf32_first_offending r

/-- The decoded value of a two-byte UTF-8 sequence: the low five bits of the
lead byte and the low six bits of the continuation byte. -/
def utf8_value2 (c0 c1 : Nat) : Nat :=
  ((c0 &&& 0x1F) <<< 6) ||| (c1 &&& 0x3F)

/-- The decoded value of a three-byte UTF-8 sequence: the low four bits of the
lead byte and the low six bits of each continuation byte. -/
def utf8_value3 (c0 c1 c2 : Nat) : Nat :=
  ((c0 &&& 0x0F) <<< 12) ||| ((c1 &&& 0x3F) <<< 6) ||| (c2 &&& 0x3F)

/-- The decoded value of a four-byte UTF-8 sequence,
`(lead&7)<<18 | c1<<12 | c2<<6 | c3`, where `c1`, `c2`, `c3` are the low six
bits of the continuation bytes. -/
def utf8_value4 (c0 c1 c2 c3 : Nat) : Nat :=
  ((c0 &&& 0x07) <<< 18) ||| ((c1 &&& 0x3F) <<< 12) ||| ((c2 &&& 0x3F) <<< 6)
    ||| (c3 &&& 0x3F)

/-- A continuation byte: in the range 0x80..0xBF. -/
def IsContinuation (c : Nat) : Prop := 0x80 ≤ c ∧ c ≤ 0xBF

/-- An allocator that always succeeds and returns a block of the requested
size: `unit` is the size in bytes of a destination unit, and a request for `n`
bytes yields `n / unit` units (of arbitrary contents). -/
def Allocates (unit : Nat) (malloc : Nat → Option (List Nat)) : Prop :=
  ∀ n, ∃ blk, malloc n = some blk ∧ blk.length = n / unit

/-- An allocator that may fail, and whose blocks have the requested size: a
request for `n` bytes that succeeds yields `n / unit` units. -/
def SizedBlocks (unit : Nat) (malloc : Nat → Option (List Nat)) : Prop :=
  ∀ n blk, malloc n = some blk → blk.length = n / unit

/-- A concrete allocator: every cell of the fresh block holds `fill`. -/
def malloc_filled (unit fill : Nat) (n : Nat) : Option (List Nat) :=
  some (List.replicate (n / unit) fill)

/-! ## Bit-level facts -/

theorem and_3F (x : Nat) : x &&& 0x3F = x % 64 :=
  Nat.and_pow_two_sub_one_eq_mod x 6

theorem and_1F (x : Nat) : x &&& 0x1F = x % 32 :=
  Nat.and_pow_two_sub_one_eq_mod x 5

theorem and_0F (x : Nat) : x &&& 0x0F = x % 16 :=
  Nat.and_pow_two_sub_one_eq_mod x 4

theorem and_07 (x : Nat) : x &&& 0x07 = x % 8 :=
  Nat.and_pow_two_sub_one_eq_mod x 3

theorem and_3FF (x : Nat) : x &&& 0x3FF = x % 1024 :=
  Nat.and_pow_two_sub_one_eq_mod x 10

theorem shr_6 (x : Nat) : x >>> 6 = x / 64 := Nat.shiftRight_eq_div_pow x 6

theorem shr_10 (x : Nat) : x >>> 10 = x / 1024 := Nat.shiftRight_eq_div_pow x 10

theorem shr_12 (x : Nat) : x >>> 12 = x / 4096 := Nat.shiftRight_eq_div_pow x 12

theorem shr_18 (x : Nat) : x >>> 18 = x / 262144 := Nat.shiftRight_eq_div_pow x 18

theorem shl_or (a b i : Nat) (h : b < 2 ^ i) : a <<< i ||| b = a * 2 ^ i + b := by
  rw [Nat.shiftLeft_eq, Nat.mul_comm, ← Nat.mul_add_lt_is_or h]

theorem or_80 (x : Nat) (h : x < 64) : x ||| 0x80 = x + 0x80 := by
  revert x; decide

theorem or_C0 (x : Nat) (h : x < 32) : x ||| 0xC0 = x + 0xC0 := by
  revert x; decide

theorem or_E0 (x : Nat) (h : x < 16) : x ||| 0xE0 = x + 0xE0 := by
  revert x; decide

theorem or_F0 (x : Nat) (h : x < 8) : x ||| 0xF0 = x + 0xF0 := by
  revert x; decide

theorem utf16_bytes2_eq (c : Nat) (h : c < 0x800) :
    utf16_bytes2 c = (0xC0 + c / 64, 0x80 + c % 64) := by
  simp only [utf16_bytes2, u8, and_3F, and_1F, shr_6]
  rw [or_80 _ (by omega), or_C0 _ (by omega)]
  simp only [Prod.mk.injEq]
  omega

theorem utf16_bytes3_eq (c : Nat) (h : c < 0x10000) :
    utf16_bytes3 c = (0xE0 + c / 4096, 0x80 + c / 64 % 64, 0x80 + c % 64) := by
  simp only [utf16_bytes3, u8, and_3F, and_0F, shr_6, shr_12]
  rw [or_80 _ (by omega), or_80 _ (by omega), or_E0 _ (by omega)]
  simp only [Prod.mk.injEq]
  omega

theorem utf16_bytes4_eq (c : Nat) (h : c < 0x200000) :
    utf16_bytes4 c =
      (0xF0 + c / 262144, 0x80 + c / 4096 % 64, 0x80 + c / 64 % 64, 0x80 + c % 64) := by
  simp only [utf16_bytes4, u8, and_3F, and_07, shr_6, shr_12, shr_18]
  rw [or_80 _ (by omega), or_80 _ (by omega), or_80 _ (by omega), or_F0 _ (by omega)]
  simp only [Prod.mk.injEq]
  omega

theorem utf32_bytes2_eq (c : Nat) (h : c < 0x800) :
    utf32_bytes2 c = (0xC0 + c / 64, 0x80 + c % 64) := by
  simp only [utf32_bytes2, u8, and_3F, shr_6]
  rw [or_80 _ (by omega), or_C0 _ (by omega)]
  simp only [Prod.mk.injEq]
  omega

theorem utf32_bytes3_eq (c : Nat) (h : c < 0x10000) :
    utf32_bytes3 c = (0xE0 + c / 4096, 0x80 + c / 64 % 64, 0x80 + c % 64) := by
  simp only [utf32_bytes3, u8, and_3F, shr_6, shr_12]
  rw [or_80 _ (by omega), or_80 _ (by omega), or_E0 _ (by omega)]
  simp only [Prod.mk.injEq]
  omega

theorem utf32_bytes4_eq (c : Nat) (h : c < 0x200000) :
    utf32_bytes4 c =
      (0xF0 + c / 262144, 0x80 + c / 4096 % 64, 0x80 + c / 64 % 64, 0x80 + c % 64) := by
  simp only [utf32_bytes4, u8, and_3F, shr_6, shr_12, shr_18]
  rw [or_80 _ (by omega), or_80 _ (by omega), or_80 _ (by omega), or_F0 _ (by omega)]
  simp only [Prod.mk.injEq]
  omega

theorem utf16_pair_codepoint_eq (c0 c1 : Nat) :
    utf16_pair_codepoint c0 c1 = c0 % 1024 * 1024 + c1 % 1024 + 0x10000 := by
  simp only [utf16_pair_codepoint, u32, and_3FF]
  rw [Nat.mod_eq_of_lt (a := c1 % 1024) (by omega), Nat.mod_eq_of_lt (a := c0 % 1024) (by omega),
    shl_or _ _ 10 (by omega)]
  omega

theorem utf16_decode_pair_eq (c0 c1 : Nat) (h0 : 0xD800 ≤ c0) (h0' : c0 ≤ 0xDBFF)
    (h1 : 0xDC00 ≤ c1) (h1' : c1 ≤ 0xDFFF) :
    (((c0 - 0xD800) <<< 10) ||| (c1 - 0xDC00)) + 0x10000
      = c0 % 1024 * 1024 + c1 % 1024 + 0x10000 := by
  rw [shl_or _ _ 10 (by omega)]
  omega

theorem utf8_codepoint2_eq (c0 c1 : Nat) :
    utf8_codepoint2 c0 c1 = c0 % 32 * 64 + c1 % 64 := by
  simp only [utf8_codepoint2, u16, and_3F, and_1F]
  rw [Nat.mod_eq_of_lt (a := c0 % 32) (by omega), Nat.mod_eq_of_lt (a := c1 % 64) (by omega),
    shl_or _ _ 6 (by omega)]
  omega

theorem utf8_codepoint3_eq (c0 c1 c2 : Nat) :
    utf8_codepoint3 c0 c1 c2 = c0 % 16 * 4096 + c1 % 64 * 64 + c2 % 64 := by
  simp only [utf8_codepoint3, u16, and_3F, and_0F]
  rw [Nat.mod_eq_of_lt (a := c0 % 16) (by omega), Nat.mod_eq_of_lt (a := c1 % 64) (by omega),
    Nat.mod_eq_of_lt (a := c2 % 64) (by omega)]
  rw [Nat.shiftLeft_eq (c1 % 64) 6, shl_or _ _ 12 (by omega),
    show c0 % 16 * 2 ^ 12 + c1 % 64 * 2 ^ 6 = (c0 % 16 * 64 + c1 % 64) * 2 ^ 6 by omega,
    ← Nat.shiftLeft_eq, shl_or _ _ 6 (by omega)]
  omega

theorem utf8_codepoint4_eq (c0 c1 c2 c3 : Nat) :
    utf8_codepoint4 c0 c1 c2 c3
      = c0 % 8 * 262144 + c1 % 64 * 4096 + c2 % 64 * 64 + c3 % 64 := by
  simp only [utf8_codepoint4, u32, and_3F, and_07]
  rw [Nat.mod_eq_of_lt (a := c0 % 8) (by omega), Nat.mod_eq_of_lt (a := c1 % 64) (by omega),
    Nat.mod_eq_of_lt (a := c2 % 64) (by omega), Nat.mod_eq_of_lt (a := c3 % 64) (by omega)]
  rw [Nat.shiftLeft_eq (c1 % 64) 12, shl_or _ _ 18 (by omega),
    show c0 % 8 * 2 ^ 18 + c1 % 64 * 2 ^ 12 = (c0 % 8 * 64 + c1 % 64) * 2 ^ 12 by omega,
    ← Nat.shiftLeft_eq, Nat.shiftLeft_eq (c2 % 64) 6, shl_or _ _ 12 (by omega),
    show (c0 % 8 * 64 + c1 % 64) * 2 ^ 12 + c2 % 64 * 2 ^ 6
      = ((c0 % 8 * 64 + c1 % 64) * 64 + c2 % 64) * 2 ^ 6 by omega,
    ← Nat.shiftLeft_eq, shl_or _ _ 6 (by omega)]
  omega

theorem utf16_surrogates_eq (c : Nat) (h : 0x10000 ≤ c) (h2 : c < 0x110000) :
    utf16_surrogates c = (0xD800 + (c - 0x10000) / 1024, 0xDC00 + (c - 0x10000) % 1024) := by
  simp only [utf16_surrogates, u16, u32, and_3FF, shr_10, Prod.mk.injEq]
  omega

/-! ## Stores into the destination buffer -/

theorem store1 (pre post : List Nat) (x v i : Nat) (hi : i = pre.length) :
    (pre ++ x :: post).set i v = (pre ++ [v]) ++ post := by
  subst hi; simp

theorem store2 (pre post : List Nat) (x1 x2 v1 v2 i : Nat) (hi : i = pre.length) :
    ((pre ++ x1 :: x2 :: post).set i v1).set (i + 1) v2 = (pre ++ [v1, v2]) ++ post := by
  subst hi; simp [List.set_append]

theorem store3 (pre post : List Nat) (x1 x2 x3 v1 v2 v3 i : Nat) (hi : i = pre.length) :
    (((pre ++ x1 :: x2 :: x3 :: post).set i v1).set (i + 1) v2).set (i + 2) v3
      = (pre ++ [v1, v2, v3]) ++ post := by
  subst hi; simp [List.set_append]

theorem store4 (pre post : List Nat) (x1 x2 x3 x4 v1 v2 v3 v4 i : Nat) (hi : i = pre.length) :
    ((((pre ++ x1 :: x2 :: x3 :: x4 :: post).set i v1).set (i + 1) v2).set (i + 2) v3).set
        (i + 3) v4
      = (pre ++ [v1, v2, v3, v4]) ++ post := by
  subst hi; simp [List.set_append]

/-! ## utf16_to_utf8 on well-formed input -/

theorem utf8_encode_length (c : Nat) :
    (utf8_encode c).length =
      if c < 0x80 then 1 else if c < 0x800 then 2 else if c < 0x10000 then 3 else 4 := by
  unfold utf8_encode
  split_ifs <;> rfl

theorem utf16_to_utf8_len_stop (r : List Nat) (len : Nat) (h : r.headD 0 = 0) :
    utf16_to_utf8_len r len = .ok len := by
  cases r with
  | nil => rfl
  | cons c t =>
    simp only [List.headD_cons] at h
    subst h
    rw [utf16_to_utf8_len.eq_def]
    simp

theorem utf16_to_utf8_fill_stop (r buf : List Nat) (i : Nat) (h : r.headD 0 = 0) :
    utf16_to_utf8_fill r buf i = (buf, i) := by
  cases r with
  | nil => rfl
  | cons c t =>
    simp only [List.headD_cons] at h
    subst h
    rw [utf16_to_utf8_fill.eq_def]
    simp

theorem utf16_to_utf8_len_wf (s : List Nat) :
    ∀ (r : List Nat) (len : Nat), WellFormedUtf16 s → r.headD 0 = 0 →
      utf16_to_utf8_len (s ++ r) len
        = .ok (len + (utf8_encode_all (utf16_decode s)).length) := by
  induction s using utf16_decode.induct with
  | case1 =>
    intro r len _ hr
    simpa [utf16_decode, utf8_encode_all] using utf16_to_utf8_len_stop r len hr
  | case2 c t hc ih =>
    intro r len hw hr
    rw [WellFormedUtf16.eq_def] at hw
    simp only [hc, if_true] at hw
    obtain ⟨h0, hb, ht⟩ := hw
    have hc' : c < 0xD800 ∨ c ≥ 0xE000 := by omega
    rw [List.cons_append, utf16_to_utf8_len.eq_def, utf16_decode.eq_def]
    simp only [h0, if_false, hc', if_true, hc, utf8_encode_all,
      List.length_append, utf8_encode_length]
    have hlt : c < 0x10000 := hb
    split_ifs <;> first | omega | (rw [ih r _ ht hr]; congr 1; omega)
  | case3 c hc =>
    intro r len hw
    rw [WellFormedUtf16.eq_def] at hw
    simp [hc] at hw
  | case4 c0 hc c1 t ih =>
    intro r len hw hr
    rw [WellFormedUtf16.eq_def] at hw
    simp only [hc, if_false] at hw
    obtain ⟨⟨h0, h0'⟩, ⟨h1, h1'⟩, ht⟩ := hw
    have e1 : ¬ (c0 < 0xD800 ∨ c0 ≥ 0xE000) := by omega
    have e2 : ¬ (c0 ≥ 0xDC00) := by omega
    have e3 : ¬ (c1 < 0xDC00 ∨ c0 ≥ 0xE000) := by omega
    have e4 : c1 ≠ 0 := by omega
    have e5 : c0 ≠ 0 := by omega
    rw [List.cons_append, List.cons_append, utf16_to_utf8_len.eq_def, utf16_decode.eq_def]
    simp only [e1, e2, e3, e4, e5, if_false, hc, utf8_encode_all,
      List.length_append, utf8_encode_length]
    rw [ih r _ ht hr, utf16_decode_pair_eq c0 c1 h0 h0' h1 h1']
    have : ¬ (c0 % 1024 * 1024 + c1 % 1024 + 65536 < 128) := by omega
    have : ¬ (c0 % 1024 * 1024 + c1 % 1024 + 65536 < 2048) := by omega
    have : ¬ (c0 % 1024 * 1024 + c1 % 1024 + 65536 < 65536) := by omega
    simp only [*, if_false]
    congr 1; omega

theorem exists_cons_of_length (l : List Nat) (n : Nat) (h : l.length = n + 1) :
    ∃ x t, l = x :: t ∧ t.length = n := by
  cases l with
  | nil => simp at h
  | cons x t => exact ⟨x, t, rfl, by simpa using h⟩

theorem utf16_to_utf8_fill_wf (s : List Nat) :
    ∀ (r pre mid suf : List Nat) (i : Nat), WellFormedUtf16 s → r.headD 0 = 0 →
      i = pre.length → mid.length = (utf8_encode_all (utf16_decode s)).length →
      utf16_to_utf8_fill (s ++ r) (pre ++ (mid ++ suf)) i
        = (pre ++ (utf8_encode_all (utf16_decode s) ++ suf), i + mid.length) := by
  induction s using utf16_decode.induct with
  | case1 =>
    intro r pre mid suf i _ hr _ hm
    simp only [utf16_decode, utf8_encode_all, List.length_nil, List.length_eq_zero] at hm
    subst hm
    simpa [utf16_decode, utf8_encode_all] using utf16_to_utf8_fill_stop r _ i hr
  | case2 c t hc ih =>
    intro r pre mid suf i hw hr hi hm
    rw [WellFormedUtf16.eq_def] at hw
    simp only [hc, if_true] at hw
    obtain ⟨h0, hb, ht⟩ := hw
    have hc' : c < 0xD800 ∨ c ≥ 0xE000 := by omega
    have hlt : c < 0x10000 := hb
    rw [utf16_decode.eq_def] at hm ⊢
    simp only [hc, if_true, utf8_encode_all, List.length_append, utf8_encode_length] at hm ⊢
    rw [List.cons_append, utf16_to_utf8_fill.eq_def]
    simp only [h0, if_false, hc', if_true]
    obtain ⟨L, hL⟩ : ∃ L, L = (utf8_encode_all (utf16_decode t)).length := ⟨_, rfl⟩
    by_cases h1 : c < 0x80
    · simp only [h1, if_true] at hm ⊢
      obtain ⟨x1, m1, rfl, hm1⟩ := exists_cons_of_length mid L (by omega)
      rw [List.cons_append, store1 _ _ _ _ _ hi,
        ih r _ m1 suf (i + 1) ht hr (by simp [hi]) (by omega)]
      have : u8 c = c := by unfold u8; omega
      simp [utf8_encode, h1, this]; omega
    · by_cases h2 : c < 0x800
      · simp only [h1, h2, if_true, if_false] at hm ⊢
        obtain ⟨x1, m1, rfl, hm1⟩ := exists_cons_of_length mid (L + 1) (by omega)
        obtain ⟨x2, m2, rfl, hm2⟩ := exists_cons_of_length m1 L (by omega)
        rw [utf16_bytes2_eq c h2]
        simp only [List.cons_append]
        rw [store2 _ _ _ _ _ _ _ hi, ih r _ m2 suf (i + 2) ht hr (by simp [hi]) (by omega)]
        simp [utf8_encode, h1, h2]; omega
      · simp only [h1, h2, hlt, if_true, if_false] at hm ⊢
        obtain ⟨x1, m1, rfl, hm1⟩ := exists_cons_of_length mid (L + 2) (by omega)
        obtain ⟨x2, m2, rfl, hm2⟩ := exists_cons_of_length m1 (L + 1) (by omega)
        obtain ⟨x3, m3, rfl, hm3⟩ := exists_cons_of_length m2 L (by omega)
        rw [utf16_bytes3_eq c hlt]
        simp only [List.cons_append]
        rw [store3 _ _ _ _ _ _ _ _ _ hi, ih r _ m3 suf (i + 3) ht hr (by simp [hi]) (by omega)]
        simp [utf8_encode, h1, h2, hlt]; omega
  | case3 c hc =>
    intro r pre mid suf i hw
    rw [WellFormedUtf16.eq_def] at hw
    simp [hc] at hw
  | case4 c0 hc c1 t ih =>
    intro r pre mid suf i hw hr hi hm
    rw [WellFormedUtf16.eq_def] at hw
    simp only [hc, if_false] at hw
    obtain ⟨⟨h0, h0'⟩, ⟨h1, h1'⟩, ht⟩ := hw
    have e1 : ¬ (c0 < 0xD800 ∨ c0 ≥ 0xE000) := by omega
    have e5 : c0 ≠ 0 := by omega
    have k1 : ¬ (c0 % 1024 * 1024 + c1 % 1024 + 65536 < 128) := by omega
    have k2 : ¬ (c0 % 1024 * 1024 + c1 % 1024 + 65536 < 2048) := by omega
    have k3 : ¬ (c0 % 1024 * 1024 + c1 % 1024 + 65536 < 65536) := by omega
    rw [utf16_decode.eq_def] at hm ⊢
    simp only [hc, if_false, utf8_encode_all, List.length_append, utf8_encode_length,
      utf16_decode_pair_eq c0 c1 h0 h0' h1 h1', k1, k2, k3] at hm ⊢
    rw [List.cons_append, List.cons_append, utf16_to_utf8_fill.eq_def]
    simp only [e1, e5, if_false]
    obtain ⟨L, hL⟩ : ∃ L, L = (utf8_encode_all (utf16_decode t)).length := ⟨_, rfl⟩
    obtain ⟨x1, m1, rfl, hm1⟩ := exists_cons_of_length mid (L + 3) (by omega)
    obtain ⟨x2, m2, rfl, hm2⟩ := exists_cons_of_length m1 (L + 2) (by omega)
    obtain ⟨x3, m3, rfl, hm3⟩ := exists_cons_of_length m2 (L + 1) (by omega)
    obtain ⟨x4, m4, rfl, hm4⟩ := exists_cons_of_length m3 L (by omega)
    rw [utf16_pair_codepoint_eq, utf16_bytes4_eq _ (by omega)]
    simp only [List.cons_append]
    rw [store4 _ _ _ _ _ _ _ _ _ _ _ hi, ih r _ m4 suf (i + 4) ht hr (by simp [hi]) (by omega)]
    simp [utf8_encode, k1, k2, k3]; omega

theorem split_block (blk : List Nat) (L k : Nat) (h : blk.length = L + k) :
    ∃ mid suf, blk = mid ++ suf ∧ mid.length = L ∧ suf.length = k :=
  ⟨blk.take L, blk.drop L, (List.take_append_drop L blk).symm, by simp; omega, by simp; omega⟩

theorem utf16_to_utf8_wf (malloc : Nat → Option (List Nat)) (hm : Allocates 1 malloc)
    (s r : List Nat) (hw : WellFormedUtf16 s) (hr : r.headD 0 = 0) :
    utf16_to_utf8 malloc (s ++ r) = (some (utf8_encode_all (utf16_decode s) ++ [0]), 0) := by
  obtain ⟨blk, hblk, hlen⟩ := hm (0 + (utf8_encode_all (utf16_decode s)).length + 1)
  rw [Nat.div_one] at hlen
  obtain ⟨mid, suf, rfl, hmid, hsuf⟩ :=
    split_block blk (utf8_encode_all (utf16_decode s)).length 1 (by omega)
  obtain ⟨x, t, rfl, ht⟩ := exists_cons_of_length suf 0 hsuf
  have ht' : t = [] := List.length_eq_zero.mp ht
  subst ht'
  have hf := utf16_to_utf8_fill_wf s r [] mid [x] 0 hw hr rfl (by omega)
  simp only [List.nil_append] at hf
  simp only [utf16_to_utf8, utf16_to_utf8_len_wf s r 0 hw hr, hblk, hf]
  have : 0 + mid.length = (utf8_encode_all (utf16_decode s)).length + 0 := by omega
  rw [this, List.set_append_right _ _ (by omega)]
  simp

/-! ## utf32_to_utf8 on scalar values -/

theorem utf32_to_utf8_len_stop (r : List Nat) (len : Nat) (h : r.headD 0 = 0) :
    utf32_to_utf8_len r len = .ok len := by
  cases r with
  | nil => rfl
  | cons c t =>
    simp only [List.headD_cons] at h
    subst h
    simp [utf32_to_utf8_len]

theorem utf32_to_utf8_fill_stop (r buf : List Nat) (i : Nat) (h : r.headD 0 = 0) :
    utf32_to_utf8_fill r buf i = buf := by
  cases r with
  | nil => rfl
  | cons c t =>
    simp only [List.headD_cons] at h
    subst h
    simp [utf32_to_utf8_fill]

theorem utf32_to_utf8_len_scalars (cs : List Nat) :
    ∀ (r : List Nat) (len : Nat), (∀ c ∈ cs, IsScalar c) → r.headD 0 = 0 →
      utf32_to_utf8_len (cs ++ r) len = .ok (len + (utf8_encode_all cs).length) := by
  induction cs with
  | nil =>
    intro r len _ hr
    simpa [utf8_encode_all] using utf32_to_utf8_len_stop r len hr
  | cons c t ih =>
    intro r len h hr
    have hc : IsScalar c := h c (List.mem_cons_self _ _)
    have ht : ∀ x ∈ t, IsScalar x := fun x hx => h x (List.mem_cons_of_mem _ hx)
    unfold IsScalar at hc
    have h0 : c ≠ 0 := by omega
    rw [List.cons_append]
    simp only [utf32_to_utf8_len, h0, if_false, utf8_encode_all,
      List.length_append, utf8_encode_length]
    split_ifs <;> first | omega | (rw [ih r _ ht hr]; congr 1; omega)

theorem utf32_to_utf8_fill_scalars (cs : List Nat) :
    ∀ (r pre mid suf : List Nat) (i : Nat), (∀ c ∈ cs, IsScalar c) → r.headD 0 = 0 →
      i = pre.length → mid.length = (utf8_encode_all cs).length →
      utf32_to_utf8_fill (cs ++ r) (pre ++ (mid ++ suf)) i
        = pre ++ (utf8_encode_all cs ++ suf) := by
  induction cs with
  | nil =>
    intro r pre mid suf i _ hr _ hm
    simp only [utf8_encode_all, List.length_nil, List.length_eq_zero] at hm
    subst hm
    simpa [utf8_encode_all] using utf32_to_utf8_fill_stop r _ i hr
  | cons c t ih =>
    intro r pre mid suf i h hr hi hm
    have hc : IsScalar c := h c (List.mem_cons_self _ _)
    have ht : ∀ x ∈ t, IsScalar x := fun x hx => h x (List.mem_cons_of_mem _ hx)
    unfold IsScalar at hc
    have h0 : c ≠ 0 := by omega
    simp only [utf8_encode_all, List.length_append, utf8_encode_length] at hm ⊢
    rw [List.cons_append, utf32_to_utf8_fill.eq_def]
    simp only [h0, if_false]
    obtain ⟨L, hL⟩ : ∃ L, L = (utf8_encode_all t).length := ⟨_, rfl⟩
    by_cases h1 : c < 0x80
    · simp only [h1, if_true] at hm ⊢
      obtain ⟨x1, m1, rfl, hm1⟩ := exists_cons_of_length mid L (by omega)
      rw [List.cons_append, store1 _ _ _ _ _ hi,
        ih r _ m1 suf (i + 1) ht hr (by simp [hi]) (by omega)]
      have : u8 c = c := by unfold u8; omega
      simp [utf8_encode, h1, this]
    · by_cases h2 : c < 0x800
      · simp only [h1, h2, if_true, if_false] at hm ⊢
        obtain ⟨x1, m1, rfl, hm1⟩ := exists_cons_of_length mid (L + 1) (by omega)
        obtain ⟨x2, m2, rfl, hm2⟩ := exists_cons_of_length m1 L (by omega)
        rw [utf32_bytes2_eq c h2]
        simp only [List.cons_append]
        rw [store2 _ _ _ _ _ _ _ hi, ih r _ m2 suf (i + 2) ht hr (by simp [hi]) (by omega)]
        simp [utf8_encode, h1, h2]
      · by_cases h3 : c < 0x10000
        · simp only [h1, h2, h3, if_true, if_false] at hm ⊢
          obtain ⟨x1, m1, rfl, hm1⟩ := exists_cons_of_length mid (L + 2) (by omega)
          obtain ⟨x2, m2, rfl, hm2⟩ := exists_cons_of_length m1 (L + 1) (by omega)
          obtain ⟨x3, m3, rfl, hm3⟩ := exists_cons_of_length m2 L (by omega)
          rw [utf32_bytes3_eq c h3]
          simp only [List.cons_append]
          rw [store3 _ _ _ _ _ _ _ _ _ hi,
            ih r _ m3 suf (i + 3) ht hr (by simp [hi]) (by omega)]
          simp [utf8_encode, h1, h2, h3]
        · simp only [h1, h2, h3, if_true, if_false] at hm ⊢
          obtain ⟨x1, m1, rfl, hm1⟩ := exists_cons_of_length mid (L + 3) (by omega)
          obtain ⟨x2, m2, rfl, hm2⟩ := exists_cons_of_length m1 (L + 2) (by omega)
          obtain ⟨x3, m3, rfl, hm3⟩ := exists_cons_of_length m2 (L + 1) (by omega)
          obtain ⟨x4, m4, rfl, hm4⟩ := exists_cons_of_length m3 L (by omega)
          rw [utf32_bytes4_eq c (by omega)]
          simp only [List.cons_append]
          rw [store4 _ _ _ _ _ _ _ _ _ _ _ hi,
            ih r _ m4 suf (i + 4) ht hr (by simp [hi]) (by omega)]
          simp [utf8_encode, h1, h2, h3]

theorem utf32_to_utf8_scalars (malloc : Nat → Option (List Nat)) (hm : Allocates 1 malloc)
    (cs r : List Nat) (hs : ∀ c ∈ cs, IsScalar c) (hr : r.headD 0 = 0) :
    ∃ blk, malloc ((utf8_encode_all cs).length + 1) = some blk ∧
      blk.length = (utf8_encode_all cs).length + 1 ∧
      utf32_to_utf8 malloc (cs ++ r)
        = (some (utf8_encode_all cs ++ blk.drop (utf8_encode_all cs).length), 0) := by
  obtain ⟨blk, hblk, hlen⟩ := hm ((utf8_encode_all cs).length + 1)
  rw [Nat.div_one] at hlen
  refine ⟨blk, hblk, hlen, ?_⟩
  obtain ⟨mid, suf, rfl, hmid, hsuf⟩ := split_block blk (utf8_encode_all cs).length 1 hlen
  have hf := utf32_to_utf8_fill_scalars cs r [] mid suf 0 hs hr rfl hmid
  simp only [List.nil_append] at hf
  simp only [utf32_to_utf8, utf32_to_utf8_len_scalars cs r 0 hs hr, Nat.zero_add, hblk, hf]
  rw [← hmid, List.drop_left]

/-! ## The UTF-8 decoders on encoded scalar values -/

theorem utf8_len_stop (w1 w2 w3 w4 : Nat) (r : List Nat) (len : Nat) (h : r.headD 0 = 0) :
    utf8_len w1 w2 w3 w4 r len = .ok len := by
  cases r with
  | nil => rfl
  | cons c t =>
    simp only [List.headD_cons] at h
    subst h
    rw [utf8_len.eq_def]
    simp

theorem utf8_len_step1 (w1 w2 w3 w4 : Nat) (c0 : Nat) (r : List Nat) (len : Nat)
    (h0 : c0 ≠ 0) (h1 : c0 < 0x80) :
    utf8_len w1 w2 w3 w4 (c0 :: r) len = utf8_len w1 w2 w3 w4 r (len + w1) := by
  rw [utf8_len.eq_def]
  simp only [h0, h1, if_true, if_false]

theorem utf8_len_step2 (w1 w2 w3 w4 : Nat) (c0 c1 : Nat) (r : List Nat) (len : Nat)
    (h0 : 0xC0 ≤ c0)
    (h0' : c0 < 0xE0) (h1 : 0x80 ≤ c1) (h1' : c1 < 0xC0) :
    utf8_len w1 w2 w3 w4 (c0 :: c1 :: r) len = utf8_len w1 w2 w3 w4 r (len + w2) := by
  have a1 : c0 ≠ 0 := by omega
  have a2 : ¬ c0 < 0x80 := by omega
  have a3 : ¬ c0 < 0xC0 := by omega
  have b1 : c1 ≠ 0 := by omega
  have b2 : ¬ (c1 < 0x80 ∨ c1 ≥ 0xC0) := by omega
  rw [utf8_len.eq_def]
  simp only [a1, a2, a3, h0', b1, b2, if_true, if_false]

theorem utf8_len_step3 (w1 w2 w3 w4 : Nat) (c0 c1 c2 : Nat) (r : List Nat) (len : Nat)
    (h0 : 0xE0 ≤ c0)
    (h0' : c0 < 0xF0) (h1 : 0x80 ≤ c1) (h1' : c1 < 0xC0) (h2 : 0x80 ≤ c2) (h2' : c2 < 0xC0) :
    utf8_len w1 w2 w3 w4 (c0 :: c1 :: c2 :: r) len = utf8_len w1 w2 w3 w4 r (len + w3) := by
  have a1 : c0 ≠ 0 := by omega
  have a2 : ¬ c0 < 0x80 := by omega
  have a3 : ¬ c0 < 0xC0 := by omega
  have a4 : ¬ c0 < 0xE0 := by omega
  have b1 : c1 ≠ 0 := by omega
  have b2 : ¬ (c1 < 0x80 ∨ c1 ≥ 0xC0) := by omega
  have d1 : c2 ≠ 0 := by omega
  have d2 : ¬ (c2 < 0x80 ∨ c2 ≥ 0xC0) := by omega
  rw [utf8_len.eq_def]
  simp only [a1, a2, a3, a4, h0', b1, b2, d1, d2, if_true, if_false]

theorem utf8_len_step4 (w1 w2 w3 w4 : Nat) (c0 c1 c2 c3 : Nat) (r : List Nat) (len : Nat)
    (h0 : 0xF0 ≤ c0)
    (h0' : c0 < 0xF8) (h1 : 0x80 ≤ c1) (h1' : c1 < 0xC0) (h2 : 0x80 ≤ c2) (h2' : c2 < 0xC0)
    (h3 : 0x80 ≤ c3) (h3' : c3 < 0xC0) :
    utf8_len w1 w2 w3 w4 (c0 :: c1 :: c2 :: c3 :: r) len
      = utf8_len w1 w2 w3 w4 r (len + w4) := by
  have a1 : c0 ≠ 0 := by omega
  have a2 : ¬ c0 < 0x80 := by omega
  have a3 : ¬ c0 < 0xC0 := by omega
  have a4 : ¬ c0 < 0xE0 := by omega
  have a5 : ¬ c0 < 0xF0 := by omega
  have b1 : c1 ≠ 0 := by omega
  have b2 : ¬ (c1 < 0x80 ∨ c1 ≥ 0xC0) := by omega
  have d1 : c2 ≠ 0 := by omega
  have d2 : ¬ (c2 < 0x80 ∨ c2 ≥ 0xC0) := by omega
  have e1 : c3 ≠ 0 := by omega
  have e2 : ¬ (c3 < 0x80 ∨ c3 ≥ 0xC0) := by omega
  rw [utf8_len.eq_def]
  simp only [a1, a2, a3, a4, a5, h0', b1, b2, d1, d2, e1, e2, if_true, if_false]

/-- The amount a scalar value adds to `len` in the measuring pass. -/
theorem utf8_len_encode (w1 w2 w3 w4 : Nat) (c : Nat) (r : List Nat) (len : Nat)
    (hc : IsScalar c) :
    utf8_len w1 w2 w3 w4 (utf8_encode c ++ r) len
      = utf8_len w1 w2 w3 w4 r
          (len + if c < 0x80 then w1 else if c < 0x800 then w2 else if c < 0x10000 then w3
            else w4) := by
  unfold IsScalar at hc
  unfold utf8_encode
  split_ifs with h1 h2 h3
  · exact utf8_len_step1 w1 w2 w3 w4 c r len (by omega) h1
  · exact utf8_len_step2 w1 w2 w3 w4 _ _ r len (by omega) (by omega) (by omega) (by omega)
  · exact utf8_len_step3 w1 w2 w3 w4 _ _ _ r len (by omega) (by omega) (by omega) (by omega)
      (by omega) (by omega)
  · exact utf8_len_step4 w1 w2 w3 w4 _ _ _ _ r len (by omega) (by omega) (by omega) (by omega)
      (by omega) (by omega) (by omega) (by omega)

theorem utf8_codepoint2_encode (c : Nat) (h2 : c < 0x800) :
    utf8_codepoint2 (0xC0 + c / 0x40) (0x80 + c % 0x40) = c := by
  rw [utf8_codepoint2_eq]; omega

theorem utf8_codepoint3_encode (c : Nat) (h2 : c < 0x10000) :
    utf8_codepoint3 (0xE0 + c / 0x1000) (0x80 + c / 0x40 % 0x40) (0x80 + c % 0x40) = c := by
  rw [utf8_codepoint3_eq]; omega

theorem utf8_codepoint4_encode (c : Nat) (h2 : c < 0x200000) :
    utf8_codepoint4 (0xF0 + c / 0x40000) (0x80 + c / 0x1000 % 0x40) (0x80 + c / 0x40 % 0x40)
      (0x80 + c % 0x40) = c := by
  rw [utf8_codepoint4_eq]; omega

theorem utf8_to_utf32_fill_encode (c : Nat) (r buf : List Nat) (i : Nat) (hc : IsScalar c) :
    utf8_to_utf32_fill (utf8_encode c ++ r) 0 buf i
      = utf8_to_utf32_fill r 0 (buf.set i c) (i + 1) := by
  unfold IsScalar at hc
  unfold utf8_encode
  split_ifs with h1 h2 h3
  · have a1 : c ≠ 0 := by omega
    have a2 : u32 c = c := by unfold u32; omega
    simp only [List.cons_append, List.nil_append]
    simp only [utf8_to_utf32_fill, a1, h1, a2, if_true, if_false]
  · have a1 : 0xC0 + c / 0x40 ≠ 0 := by omega
    have a2 : ¬ 0xC0 + c / 0x40 < 0x80 := by omega
    have a3 : 0xC0 + c / 0x40 < 0xE0 := by omega
    simp only [List.cons_append, List.nil_append]
    simp only [utf8_to_utf32_fill, a1, a2, a3, if_true,
      if_false, List.getD_cons_zero, utf8_codepoint2_encode c h2, h1]
  · have a1 : 0xE0 + c / 0x1000 ≠ 0 := by omega
    have a2 : ¬ 0xE0 + c / 0x1000 < 0x80 := by omega
    have a3 : ¬ 0xE0 + c / 0x1000 < 0xE0 := by omega
    have a4 : 0xE0 + c / 0x1000 < 0xF0 := by omega
    have k : ¬ (c ≥ 0xD800 ∧ c < 0xE000) := by omega
    simp only [List.cons_append, List.nil_append]
    simp only [utf8_to_utf32_fill, a1, a2, a3, a4,
      if_true, if_false, List.getD_cons_zero, List.getD_cons_succ, utf8_codepoint3_encode c h3,
      h2, k]
  · have a1 : 0xF0 + c / 0x40000 ≠ 0 := by omega
    have a2 : ¬ 0xF0 + c / 0x40000 < 0x80 := by omega
    have a3 : ¬ 0xF0 + c / 0x40000 < 0xE0 := by omega
    have a4 : ¬ 0xF0 + c / 0x40000 < 0xF0 := by omega
    have a5 : 0xF0 + c / 0x40000 < 0xF8 := by omega
    have k : ¬ (c ≥ 0x110000) := by omega
    simp only [List.cons_append, List.nil_append]
    simp only [utf8_to_utf32_fill, a1, a2, a3, a4, a5,
      if_true, if_false, List.getD_cons_zero, List.getD_cons_succ,
      utf8_codepoint4_encode c (by omega), h3, k]

theorem utf8_to_utf16_fill_encode (c : Nat) (r buf : List Nat) (i : Nat) (hc : IsScalar c) :
    utf8_to_utf16_fill (utf8_encode c ++ r) 0 buf i =
      if c < 0x10000 then utf8_to_utf16_fill r 0 (buf.set i c) (i + 1)
      else utf8_to_utf16_fill r 0
        ((buf.set i (0xD800 + (c - 0x10000) / 1024)).set (i + 1) (0xDC00 + (c - 0x10000) % 1024))
        (i + 2) := by
  unfold IsScalar at hc
  unfold utf8_encode
  by_cases h1 : c < 0x80
  · have a1 : c ≠ 0 := by omega
    have a2 : u16 c = c := by unfold u16; omega
    have h3 : c < 0x10000 := by omega
    simp only [h1, h3, if_true, List.cons_append, List.nil_append]
    simp only [utf8_to_utf16_fill, a1, h1, a2, if_true, if_false]
  by_cases h2 : c < 0x800
  · have a1 : 0xC0 + c / 0x40 ≠ 0 := by omega
    have a2 : ¬ 0xC0 + c / 0x40 < 0x80 := by omega
    have a3 : 0xC0 + c / 0x40 < 0xE0 := by omega
    have h3 : c < 0x10000 := by omega
    simp only [h1, h2, h3, if_true, if_false, List.cons_append, List.nil_append]
    simp only [utf8_to_utf16_fill, a1, a2, a3, if_true,
      if_false, List.getD_cons_zero, utf8_codepoint2_encode c h2, h1]
  by_cases h3 : c < 0x10000
  · have a1 : 0xE0 + c / 0x1000 ≠ 0 := by omega
    have a2 : ¬ 0xE0 + c / 0x1000 < 0x80 := by omega
    have a3 : ¬ 0xE0 + c / 0x1000 < 0xE0 := by omega
    have a4 : 0xE0 + c / 0x1000 < 0xF0 := by omega
    have k : ¬ (c ≥ 0xD800 ∧ c < 0xE000) := by omega
    simp only [h1, h2, h3, if_true, if_false, List.cons_append, List.nil_append]
    simp only [utf8_to_utf16_fill, a1, a2, a3, a4,
      if_true, if_false, List.getD_cons_zero, List.getD_cons_succ, utf8_codepoint3_encode c h3,
      h2, k]
  · have a1 : 0xF0 + c / 0x40000 ≠ 0 := by omega
    have a2 : ¬ 0xF0 + c / 0x40000 < 0x80 := by omega
    have a3 : ¬ 0xF0 + c / 0x40000 < 0xE0 := by omega
    have a4 : ¬ 0xF0 + c / 0x40000 < 0xF0 := by omega
    have a5 : 0xF0 + c / 0x40000 < 0xF8 := by omega
    have k : ¬ (c ≥ 0x110000) := by omega
    simp only [h1, h2, h3, if_true, if_false, List.cons_append, List.nil_append]
    simp only [utf8_to_utf16_fill, a1, a2, a3, a4, a5,
      if_true, if_false, List.getD_cons_zero, List.getD_cons_succ,
      utf8_codepoint4_encode c (by omega), h3, k, utf16_surrogates_eq c (by omega) (by omega)]

theorem utf16_encode_eq (c : Nat) :
    utf16_encode c =
      if c < 0x10000 then [c]
      else [0xD800 + (c - 0x10000) / 1024, 0xDC00 + (c - 0x10000) % 1024] := by
  simp only [utf16_encode, shr_10, and_3FF]

theorem utf16_encode_length (c : Nat) :
    (utf16_encode c).length = if c < 0x10000 then 1 else 2 := by
  unfold utf16_encode
  split_ifs <;> rfl

theorem utf8_to_utf32_len_encode_all (cs : List Nat) :
    ∀ (r : List Nat) (len : Nat), (∀ c ∈ cs, IsScalar c) → r.headD 0 = 0 →
      utf8_to_utf32_len (utf8_encode_all cs ++ r) len = .ok (len + 4 * cs.length) := by
  induction cs with
  | nil =>
    intro r len _ hr
    simpa [utf8_encode_all, utf8_to_utf32_len] using utf8_len_stop 4 4 4 4 r len hr
  | cons c t ih =>
    intro r len h hr
    have hc : IsScalar c := h c (List.mem_cons_self _ _)
    have ht : ∀ x ∈ t, IsScalar x := fun x hx => h x (List.mem_cons_of_mem _ hx)
    have e := ih r (len + 4) ht hr
    unfold utf8_to_utf32_len at e ⊢
    rw [utf8_encode_all, List.append_assoc, utf8_len_encode 4 4 4 4 c _ len hc]
    simp only [ite_self, e, List.length_cons]
    congr 1; omega

theorem utf8_to_utf16_len_encode_all (cs : List Nat) :
    ∀ (r : List Nat) (len : Nat), (∀ c ∈ cs, IsScalar c) → r.headD 0 = 0 →
      utf8_to_utf16_len (utf8_encode_all cs ++ r) len
        = .ok (len + 2 * (utf16_encode_all cs).length) := by
  induction cs with
  | nil =>
    intro r len _ hr
    simpa [utf8_encode_all, utf16_encode_all, utf8_to_utf16_len] using utf8_len_stop 2 2 2 4 r len hr
  | cons c t ih =>
    intro r len h hr
    have hc : IsScalar c := h c (List.mem_cons_self _ _)
    have ht : ∀ x ∈ t, IsScalar x := fun x hx => h x (List.mem_cons_of_mem _ hx)
    have e := fun l => ih r l ht hr
    unfold utf8_to_utf16_len at e ⊢
    rw [utf8_encode_all, List.append_assoc, utf8_len_encode 2 2 2 4 c _ len hc, e]
    simp only [utf16_encode_all, List.length_append, utf16_encode_length]
    congr 1
    split_ifs <;> omega

theorem utf8_to_utf32_fill_encode_all (cs : List Nat) :
    ∀ (r pre mid suf : List Nat) (i : Nat), (∀ c ∈ cs, IsScalar c) → r.headD 0 = 0 →
      i = pre.length → mid.length = cs.length →
      utf8_to_utf32_fill (utf8_encode_all cs ++ r) 0 (pre ++ (mid ++ suf)) i
        = .ok (pre ++ (cs ++ suf)) := by
  induction cs with
  | nil =>
    intro r pre mid suf i _ hr _ hm
    simp only [List.length_nil, List.length_eq_zero] at hm
    subst hm
    cases r with
    | nil => simp [utf8_encode_all, utf8_to_utf32_fill]
    | cons x t =>
      simp only [List.headD_cons] at hr
      subst hr
      simp [utf8_encode_all, utf8_to_utf32_fill]
  | cons c t ih =>
    intro r pre mid suf i h hr hi hm
    have hc : IsScalar c := h c (List.mem_cons_self _ _)
    have ht : ∀ x ∈ t, IsScalar x := fun x hx => h x (List.mem_cons_of_mem _ hx)
    obtain ⟨x1, m1, rfl, hm1⟩ := exists_cons_of_length mid t.length (by simpa using hm)
    rw [utf8_encode_all, List.append_assoc, utf8_to_utf32_fill_encode c _ _ i hc,
      List.cons_append, store1 _ _ _ _ _ hi, ih r _ m1 suf (i + 1) ht hr (by simp [hi]) hm1]
    simp

theorem utf8_to_utf16_fill_encode_all (cs : List Nat) :
    ∀ (r pre mid suf : List Nat) (i : Nat), (∀ c ∈ cs, IsScalar c) → r.headD 0 = 0 →
      i = pre.length → mid.length = (utf16_encode_all cs).length →
      utf8_to_utf16_fill (utf8_encode_all cs ++ r) 0 (pre ++ (mid ++ suf)) i
        = .ok (pre ++ (utf16_encode_all cs ++ suf)) := by
  induction cs with
  | nil =>
    intro r pre mid suf i _ hr _ hm
    simp only [utf16_encode_all, List.length_nil, List.length_eq_zero] at hm
    subst hm
    cases r with
    | nil => simp [utf8_encode_all, utf16_encode_all, utf8_to_utf16_fill]
    | cons x t =>
      simp only [List.headD_cons] at hr
      subst hr
      simp [utf8_encode_all, utf16_encode_all, utf8_to_utf16_fill]
  | cons c t ih =>
    intro r pre mid suf i h hr hi hm
    have hc : IsScalar c := h c (List.mem_cons_self _ _)
    have ht : ∀ x ∈ t, IsScalar x := fun x hx => h x (List.mem_cons_of_mem _ hx)
    simp only [utf16_encode_all, List.length_append, utf16_encode_length] at hm
    obtain ⟨L, hL⟩ : ∃ L, L = (utf16_encode_all t).length := ⟨_, rfl⟩
    rw [utf8_encode_all, List.append_assoc, utf8_to_utf16_fill_encode c _ _ i hc]
    by_cases h3 : c < 0x10000
    · simp only [h3, if_true] at hm ⊢
      obtain ⟨x1, m1, rfl, hm1⟩ := exists_cons_of_length mid L (by omega)
      rw [List.cons_append, store1 _ _ _ _ _ hi,
        ih r _ m1 suf (i + 1) ht hr (by simp [hi]) (by omega)]
      simp [utf16_encode_all, utf16_encode_eq, h3]
    · simp only [h3, if_false] at hm ⊢
      obtain ⟨x1, m1, rfl, hm1⟩ := exists_cons_of_length mid (L + 1) (by omega)
      obtain ⟨x2, m2, rfl, hm2⟩ := exists_cons_of_length m1 L (by omega)
      simp only [List.cons_append]
      rw [store2 _ _ _ _ _ _ _ hi, ih r _ m2 suf (i + 2) ht hr (by simp [hi]) (by omega)]
      simp [utf16_encode_all, utf16_encode_eq, h3]

theorem utf8_to_utf32_encoded (malloc : Nat → Option (List Nat)) (hm : Allocates 4 malloc)
    (cs r : List Nat) (hs : ∀ c ∈ cs, IsScalar c) (hr : r.headD 0 = 0) :
    ∃ blk, malloc (4 * cs.length + 4) = some blk ∧ blk.length = cs.length + 1 ∧
      utf8_to_utf32 malloc (utf8_encode_all cs ++ r) = (some (cs ++ blk.drop cs.length), 0) := by
  obtain ⟨blk, hblk, hlen⟩ := hm (4 * cs.length + 4)
  have hlen' : blk.length = cs.length + 1 := by omega
  refine ⟨blk, hblk, hlen', ?_⟩
  obtain ⟨mid, suf, rfl, hmid, hsuf⟩ := split_block blk cs.length 1 hlen'
  have hf := utf8_to_utf32_fill_encode_all cs r [] mid suf 0 hs hr rfl hmid
  simp only [List.nil_append] at hf
  simp only [utf8_to_utf32, utf8_to_utf32_len_encode_all cs r 0 hs hr, Nat.zero_add, hblk, hf]
  rw [← hmid, List.drop_left]

theorem utf8_to_utf16_encoded (malloc : Nat → Option (List Nat)) (hm : Allocates 2 malloc)
    (cs r : List Nat) (hs : ∀ c ∈ cs, IsScalar c) (hr : r.headD 0 = 0) :
    ∃ blk, malloc (2 * (utf16_encode_all cs).length + 2) = some blk ∧
      blk.length = (utf16_encode_all cs).length + 1 ∧
      utf8_to_utf16 malloc (utf8_encode_all cs ++ r)
        = (some (utf16_encode_all cs ++ blk.drop (utf16_encode_all cs).length), 0) := by
  obtain ⟨blk, hblk, hlen⟩ := hm (2 * (utf16_encode_all cs).length + 2)
  have hlen' : blk.length = (utf16_encode_all cs).length + 1 := by omega
  refine ⟨blk, hblk, hlen', ?_⟩
  obtain ⟨mid, suf, rfl, hmid, hsuf⟩ := split_block blk (utf16_encode_all cs).length 1 hlen'
  have hf := utf8_to_utf16_fill_encode_all cs r [] mid suf 0 hs hr rfl hmid
  simp only [List.nil_append] at hf
  simp only [utf8_to_utf16, utf8_to_utf16_len_encode_all cs r 0 hs hr, Nat.zero_add, hblk, hf]
  rw [← hmid, List.drop_left]

/-! ## Facts about the reference UTF-16 functions -/

theorem utf16_decode_scalars (s : List Nat) :
    WellFormedUtf16 s → ∀ c ∈ utf16_decode s, IsScalar c := by
  induction s using utf16_decode.induct with
  | case1 => intro _ c hc; simp [utf16_decode] at hc
  | case2 c r hc ih =>
    intro hw x hx
    rw [WellFormedUtf16.eq_def] at hw
    simp only [hc, if_true] at hw
    obtain ⟨h0, hb, hr⟩ := hw
    rw [utf16_decode.eq_def] at hx
    simp only [hc, if_true, List.mem_cons] at hx
    rcases hx with rfl | hx
    · unfold IsScalar; omega
    · exact ih hr x hx
  | case3 c hc =>
    intro hw
    rw [WellFormedUtf16.eq_def] at hw
    simp [hc] at hw
  | case4 c0 hc c1 r ih =>
    intro hw x hx
    rw [WellFormedUtf16.eq_def] at hw
    simp only [hc, if_false] at hw
    obtain ⟨⟨h0, h0'⟩, ⟨h1, h1'⟩, hr⟩ := hw
    rw [utf16_decode.eq_def] at hx
    simp only [hc, if_false, List.mem_cons, utf16_decode_pair_eq c0 c1 h0 h0' h1 h1'] at hx
    rcases hx with rfl | hx
    · unfold IsScalar; omega
    · exact ih hr x hx

theorem utf16_encode_decode (s : List Nat) :
    WellFormedUtf16 s → utf16_encode_all (utf16_decode s) = s := by
  induction s using utf16_decode.induct with
  | case1 => intro _; simp [utf16_decode, utf16_encode_all]
  | case2 c r hc ih =>
    intro hw
    rw [WellFormedUtf16.eq_def] at hw
    simp only [hc, if_true] at hw
    obtain ⟨h0, hb, hr⟩ := hw
    rw [utf16_decode.eq_def]
    simp only [hc, if_true, utf16_encode_all, ih hr, utf16_encode_eq]
    have : c < 0x10000 := hb
    simp [this]
  | case3 c hc =>
    intro hw
    rw [WellFormedUtf16.eq_def] at hw
    simp [hc] at hw
  | case4 c0 hc c1 r ih =>
    intro hw
    rw [WellFormedUtf16.eq_def] at hw
    simp only [hc, if_false] at hw
    obtain ⟨⟨h0, h0'⟩, ⟨h1, h1'⟩, hr⟩ := hw
    rw [utf16_decode.eq_def]
    simp only [hc, if_false, utf16_encode_all, ih hr, utf16_encode_eq,
      utf16_decode_pair_eq c0 c1 h0 h0' h1 h1']
    have k : ¬ (c0 % 1024 * 1024 + c1 % 1024 + 65536 < 65536) := by omega
    simp only [k, if_false, List.cons_append, List.nil_append, List.cons.injEq, and_true]
    omega

theorem allocates_malloc_filled (unit fill : Nat) :
    Allocates unit (malloc_filled unit fill) := by
  intro n
  exact ⟨_, rfl, by simp⟩

/-! ## Inputs the UTF-8 decoders accept -/

theorem utf8_encode_codepoint2 (c0 c1 : Nat) (h0 : 0xC0 ≤ c0) (h0' : c0 < 0xE0) (h1 : 0x80 ≤ c1)
    (h1' : c1 < 0xC0) (hv : ¬ c0 % 32 * 64 + c1 % 64 < 0x80) :
    utf8_encode (c0 % 32 * 64 + c1 % 64) = [c0, c1] := by
  have k2 : c0 % 32 * 64 + c1 % 64 < 0x800 := by omega
  simp only [utf8_encode, hv, k2, if_true, if_false, List.cons.injEq, and_true]
  omega

theorem utf8_encode_codepoint3 (c0 c1 c2 : Nat) (h0 : 0xE0 ≤ c0) (h0' : c0 < 0xF0)
    (h1 : 0x80 ≤ c1) (h1' : c1 < 0xC0) (h2 : 0x80 ≤ c2) (h2' : c2 < 0xC0)
    (hv : ¬ c0 % 16 * 4096 + c1 % 64 * 64 + c2 % 64 < 0x800) :
    utf8_encode (c0 % 16 * 4096 + c1 % 64 * 64 + c2 % 64) = [c0, c1, c2] := by
  have k1 : ¬ c0 % 16 * 4096 + c1 % 64 * 64 + c2 % 64 < 0x80 := by omega
  have k3 : c0 % 16 * 4096 + c1 % 64 * 64 + c2 % 64 < 0x10000 := by omega
  simp only [utf8_encode, k1, hv, k3, if_true, if_false, List.cons.injEq, and_true]
  omega

theorem utf8_encode_codepoint4 (c0 c1 c2 c3 : Nat) (h0 : 0xF0 ≤ c0) (h0' : c0 < 0xF8)
    (h1 : 0x80 ≤ c1) (h1' : c1 < 0xC0) (h2 : 0x80 ≤ c2) (h2' : c2 < 0xC0)
    (h3 : 0x80 ≤ c3) (h3' : c3 < 0xC0)
    (hv : ¬ c0 % 8 * 262144 + c1 % 64 * 4096 + c2 % 64 * 64 + c3 % 64 < 0x10000) :
    utf8_encode (c0 % 8 * 262144 + c1 % 64 * 4096 + c2 % 64 * 64 + c3 % 64)
      = [c0, c1, c2, c3] := by
  have k1 : ¬ c0 % 8 * 262144 + c1 % 64 * 4096 + c2 % 64 * 64 + c3 % 64 < 0x80 := by omega
  have k2 : ¬ c0 % 8 * 262144 + c1 % 64 * 4096 + c2 % 64 * 64 + c3 % 64 < 0x800 := by omega
  simp only [utf8_encode, k1, k2, hv, if_true, if_false, List.cons.injEq, and_true]
  omega

theorem utf8_to_utf32_accept_inv (w1 w2 w3 w4 : Nat) (b : List Nat) (len : Nat) :
    ∀ (n : Nat) (buf : List Nat) (i : Nat) (out : List Nat),
      utf8_len w1 w2 w3 w4 b len = .ok n → utf8_to_utf32_fill b 0 buf i = .ok out →
      ∃ cs, (∀ c ∈ cs, IsScalar c) ∧ before_terminator b = utf8_encode_all cs := by
  induction b, len using utf8_len.induct w1 w2 w3 w4
  case case1 len =>
    intro n buf i out _ _
    exact ⟨[], by simp, by simp [utf8_encode_all, before_terminator]⟩
  case case2 r0 len =>
    intro n buf i out _ _
    exact ⟨[], by simp, by simp [utf8_encode_all, before_terminator]⟩
  case case3 c0 r0 len h0 h1 ih =>
    intro n buf i out e1 e2
    rw [utf8_len_step1 w1 w2 w3 w4 c0 r0 len h0 h1] at e1
    simp only [utf8_to_utf32_fill, h0, h1, if_true, if_false] at e2
    obtain ⟨cs, hs, hcs⟩ := ih n _ _ out e1 e2
    refine ⟨c0 :: cs, ?_, ?_⟩
    · intro c hc
      rcases List.mem_cons.mp hc with rfl | hc
      · unfold IsScalar; omega
      · exact hs c hc
    · simp only [before_terminator, h0, if_false, hcs, utf8_encode_all, utf8_encode, h1, if_true,
        List.cons_append, List.nil_append]
  case case8 c0 len h0 h1 h2 h3 c1 r1 g0 g1 ih =>
    intro n buf i out e1 e2
    rw [utf8_len_step2 w1 w2 w3 w4 c0 c1 r1 len (by omega) h3 (by omega) (by omega)] at e1
    simp only [utf8_to_utf32_fill, h0, h1, h3, if_true, if_false, List.getD_cons_zero,
      utf8_codepoint2_eq] at e2
    split_ifs at e2 with hv
    obtain ⟨cs, hs, hcs⟩ := ih n _ _ out e1 e2
    refine ⟨(c0 % 32 * 64 + c1 % 64) :: cs, ?_, ?_⟩
    · intro c hc
      rcases List.mem_cons.mp hc with rfl | hc
      · unfold IsScalar; omega
      · exact hs c hc
    · simp only [before_terminator, h0, g0, if_false, hcs, utf8_encode_all,
        utf8_encode_codepoint2 c0 c1 (by omega) h3 (by omega) (by omega) hv,
        List.cons_append, List.nil_append]
  case case15 c0 len h0 h1 h2 h3 h4 c1 g0 g1 c2 r2 k0 k1 ih =>
    intro n buf i out e1 e2
    rw [utf8_len_step3 w1 w2 w3 w4 c0 c1 c2 r2 len (by omega) h4 (by omega) (by omega)
      (by omega) (by omega)] at e1
    simp only [utf8_to_utf32_fill, h0, h1, h3, h4, if_true, if_false, List.getD_cons_zero,
      List.getD_cons_succ, utf8_codepoint3_eq] at e2
    split_ifs at e2 with hv hs
    obtain ⟨cs, hs', hcs⟩ := ih n _ _ out e1 e2
    refine ⟨(c0 % 16 * 4096 + c1 % 64 * 64 + c2 % 64) :: cs, ?_, ?_⟩
    · intro c hc
      rcases List.mem_cons.mp hc with rfl | hc
      · unfold IsScalar; omega
      · exact hs' c hc
    · simp only [before_terminator, h0, g0, k0, if_false, hcs, utf8_encode_all,
        utf8_encode_codepoint3 c0 c1 c2 (by omega) h4 (by omega) (by omega) (by omega)
          (by omega) hv, List.cons_append, List.nil_append]
  case case25 c0 len h0 h1 h2 h3 h4 h5 c1 g0 g1 c2 k0 k1 c3 r3 m0 m1 ih =>
    intro n buf i out e1 e2
    rw [utf8_len_step4 w1 w2 w3 w4 c0 c1 c2 c3 r3 len (by omega) h5 (by omega) (by omega)
      (by omega) (by omega) (by omega) (by omega)] at e1
    simp only [utf8_to_utf32_fill, h0, h1, h3, h4, h5, if_true, if_false, List.getD_cons_zero,
      List.getD_cons_succ, utf8_codepoint4_eq] at e2
    split_ifs at e2 with hv hs
    obtain ⟨cs, hs', hcs⟩ := ih n _ _ out e1 e2
    refine ⟨(c0 % 8 * 262144 + c1 % 64 * 4096 + c2 % 64 * 64 + c3 % 64) :: cs, ?_, ?_⟩
    · intro c hc
      rcases List.mem_cons.mp hc with rfl | hc
      · unfold IsScalar; omega
      · exact hs' c hc
    · simp only [before_terminator, h0, g0, k0, m0, if_false, hcs, utf8_encode_all,
        utf8_encode_codepoint4 c0 c1 c2 c3 (by omega) h5 (by omega) (by omega) (by omega)
          (by omega) (by omega) (by omega) hv, List.cons_append, List.nil_append]
  all_goals
    intro n buf i out e1 e2
    rw [utf8_len.eq_def] at e1
    simp only [*, if_true, if_false, reduceCtorEq] at e1

theorem before_terminator_split (b : List Nat) :
    ∃ r, b = before_terminator b ++ r ∧ r.headD 0 = 0 := by
  induction b with
  | nil => exact ⟨[], rfl, rfl⟩
  | cons c t ih =>
    by_cases h : c = 0
    · exact ⟨c :: t, by simp [before_terminator, h], by simp [h]⟩
    · obtain ⟨r, hr, hr0⟩ := ih
      refine ⟨r, ?_, hr0⟩
      simp only [before_terminator, h, if_false, List.cons_append]
      rw [← hr]

/-! ## Error statuses -/

theorem utf8_len_error (w1 w2 w3 w4 : Nat) (b : List Nat) (len : Nat) :
    ∀ st, utf8_len w1 w2 w3 w4 b len = .error st → 1 ≤ st ∧ st ≤ 3 := by
  induction b, len using utf8_len.induct w1 w2 w3 w4
  case case3 c0 r0 len h0 h1 ih =>
    intro st e
    rw [utf8_len_step1 w1 w2 w3 w4 c0 r0 len h0 h1] at e
    exact ih st e
  case case8 c0 len h0 h1 h2 h3 c1 r1 g0 g1 ih =>
    intro st e
    rw [utf8_len_step2 w1 w2 w3 w4 c0 c1 r1 len (by omega) h3 (by omega) (by omega)] at e
    exact ih st e
  case case15 c0 len h0 h1 h2 h3 h4 c1 g0 g1 c2 r2 k0 k1 ih =>
    intro st e
    rw [utf8_len_step3 w1 w2 w3 w4 c0 c1 c2 r2 len (by omega) h4 (by omega) (by omega)
      (by omega) (by omega)] at e
    exact ih st e
  case case25 c0 len h0 h1 h2 h3 h4 h5 c1 g0 g1 c2 k0 k1 c3 r3 m0 m1 ih =>
    intro st e
    rw [utf8_len_step4 w1 w2 w3 w4 c0 c1 c2 c3 r3 len (by omega) h5 (by omega) (by omega)
      (by omega) (by omega) (by omega) (by omega)] at e
    exact ih st e
  all_goals
    intro st e
    rw [utf8_len.eq_def] at e
    simp only [*, if_true, if_false, reduceCtorEq, Except.error.injEq] at e <;> omega

theorem utf8_to_utf32_fill_error (b : List Nat) (k : Nat) (buf : List Nat) (i : Nat) :
    ∀ st, utf8_to_utf32_fill b k buf i = .error st → 1 ≤ st ∧ st ≤ 6 := by
  induction b, k, buf, i using utf8_to_utf32_fill.induct
  all_goals
    intro st e
    simp only [utf8_to_utf32_fill, *, if_true, if_false, reduceCtorEq, Except.error.injEq,
      and_self] at e
  all_goals first | omega | (rename_i ih; exact ih st e)

theorem utf8_to_utf16_fill_error (b : List Nat) (k : Nat) (buf : List Nat) (i : Nat) :
    ∀ st, utf8_to_utf16_fill b k buf i = .error st → 1 ≤ st ∧ st ≤ 6 := by
  induction b, k, buf, i using utf8_to_utf16_fill.induct
  all_goals
    intro st e
    simp only [utf8_to_utf16_fill, *, if_true, if_false, reduceCtorEq, Except.error.injEq,
      and_self] at e
  all_goals first | omega | (rename_i ih; exact ih st e)

theorem utf16_to_utf8_len_error (s : List Nat) (len : Nat) :
    ∀ st, utf16_to_utf8_len s len = .error st → 1 ≤ st ∧ st ≤ 3 := by
  induction s, len using utf16_to_utf8_len.induct
  all_goals
    intro st e
    rw [utf16_to_utf8_len.eq_def] at e
    simp only [*, if_true, if_false, reduceCtorEq, Except.error.injEq] at e
  all_goals first | omega | (rename_i ih; exact ih st e)

theorem utf32_to_utf8_len_error (s : List Nat) (len : Nat) :
    ∀ st, utf32_to_utf8_len s len = .error st → 1 ≤ st ∧ st ≤ 2 := by
  induction s, len using utf32_to_utf8_len.induct
  all_goals
    intro st e
    simp only [utf32_to_utf8_len, *, if_true, if_false, reduceCtorEq, Except.error.injEq,
      and_self] at e
  all_goals first | omega | (rename_i ih; exact ih st e)

/-! ## The order in which violations are reported -/

theorem bad_cont_iff (c : Nat) : (c < 0x80 ∨ 0xBF < c) ↔ (c < 0x80 ∨ c ≥ 0xC0) := by omega

theorem surrogate_iff (v : Nat) : (0xD800 ≤ v ∧ v ≤ 0xDFFF) ↔ (v ≥ 0xD800 ∧ v < 0xE000) := by
  omega

theorem utf8_violations_shape (w1 w2 w3 w4 : Nat) (b : List Nat) (len : Nat) :
    (utf8_violations b).find? (fun st => st ≤ 3) =
      match utf8_len w1 w2 w3 w4 b len with
      | .error st => some st
      | .ok _ => none := by
  induction b, len using utf8_len.induct w1 w2 w3 w4
  all_goals
    rw [utf8_len.eq_def, utf8_violations.eq_def]
    simp only [bad_cont_iff, *, if_true, if_false, List.find?_nil, List.find?_cons]
  all_goals first | rfl | skip
  all_goals split_ifs <;> simp_all

theorem utf8_violations_value32 (w1 w2 w3 w4 : Nat) (b : List Nat) (len : Nat) :
    ∀ (n : Nat) (buf : List Nat) (i : Nat), utf8_len w1 w2 w3 w4 b len = .ok n →
      (match utf8_to_utf32_fill b 0 buf i with
        | .error st => st
        | .ok _ => 0) = (utf8_violations b).headD 0 := by
  induction b, len using utf8_len.induct w1 w2 w3 w4
  case case1 len => intro n buf i _; rfl
  case case2 r0 len =>
    intro n buf i _
    rw [utf8_violations.eq_def]
    simp [utf8_to_utf32_fill]
  case case3 c0 r0 len h0 h1 ih =>
    intro n buf i e
    rw [utf8_len_step1 w1 w2 w3 w4 c0 r0 len h0 h1] at e
    rw [utf8_violations.eq_def]
    simp only [utf8_to_utf32_fill, h0, h1, if_true, if_false]
    exact ih n _ _ e
  case case8 c0 len h0 h1 h2 h3 c1 r1 g0 g1 ih =>
    intro n buf i e
    rw [utf8_len_step2 w1 w2 w3 w4 c0 c1 r1 len (by omega) h3 (by omega) (by omega)] at e
    rw [utf8_violations.eq_def]
    simp only [utf8_to_utf32_fill, h0, h1, h2, h3, g0, g1, bad_cont_iff, if_true, if_false,
      List.getD_cons_zero, utf8_codepoint2_eq]
    split_ifs with hv
    · rfl
    · exact ih n _ _ e
  case case15 c0 len h0 h1 h2 h3 h4 c1 g0 g1 c2 r2 k0 k1 ih =>
    intro n buf i e
    rw [utf8_len_step3 w1 w2 w3 w4 c0 c1 c2 r2 len (by omega) h4 (by omega) (by omega)
      (by omega) (by omega)] at e
    rw [utf8_violations.eq_def]
    simp only [utf8_to_utf32_fill, h0, h1, h2, h3, h4, g0, g1, k0, k1, bad_cont_iff,
      surrogate_iff, if_true, if_false, List.getD_cons_zero, List.getD_cons_succ,
      utf8_codepoint3_eq]
    split_ifs with hv hs
    · rfl
    · rfl
    · exact ih n _ _ e
  case case25 c0 len h0 h1 h2 h3 h4 h5 c1 g0 g1 c2 k0 k1 c3 r3 m0 m1 ih =>
    intro n buf i e
    rw [utf8_len_step4 w1 w2 w3 w4 c0 c1 c2 c3 r3 len (by omega) h5 (by omega) (by omega)
      (by omega) (by omega) (by omega) (by omega)] at e
    rw [utf8_violations.eq_def]
    simp only [utf8_to_utf32_fill, h0, h1, h2, h3, h4, h5, g0, g1, k0, k1, m0, m1, bad_cont_iff,
      if_true, if_false, List.getD_cons_zero, List.getD_cons_succ, utf8_codepoint4_eq,
      ge_iff_le]
    split_ifs with hv hs
    · rfl
    · rfl
    · exact ih n _ _ e
  all_goals
    intro n buf i e
    rw [utf8_len.eq_def] at e
    simp only [*, if_true, if_false, reduceCtorEq] at e

theorem utf8_violations_value16 (w1 w2 w3 w4 : Nat) (b : List Nat) (len : Nat) :
    ∀ (n : Nat) (buf : List Nat) (i : Nat), utf8_len w1 w2 w3 w4 b len = .ok n →
      (match utf8_to_utf16_fill b 0 buf i with
        | .error st => st
        | .ok _ => 0) = (utf8_violations b).headD 0 := by
  induction b, len using utf8_len.induct w1 w2 w3 w4
  case case1 len => intro n buf i _; rfl
  case case2 r0 len =>
    intro n buf i _
    rw [utf8_violations.eq_def]
    simp [utf8_to_utf16_fill]
  case case3 c0 r0 len h0 h1 ih =>
    intro n buf i e
    rw [utf8_len_step1 w1 w2 w3 w4 c0 r0 len h0 h1] at e
    rw [utf8_violations.eq_def]
    simp only [utf8_to_utf16_fill, h0, h1, if_true, if_false]
    exact ih n _ _ e
  case case8 c0 len h0 h1 h2 h3 c1 r1 g0 g1 ih =>
    intro n buf i e
    rw [utf8_len_step2 w1 w2 w3 w4 c0 c1 r1 len (by omega) h3 (by omega) (by omega)] at e
    rw [utf8_violations.eq_def]
    simp only [utf8_to_utf16_fill, h0, h1, h2, h3, g0, g1, bad_cont_iff, if_true, if_false,
      List.getD_cons_zero, utf8_codepoint2_eq]
    split_ifs with hv
    · rfl
    · exact ih n _ _ e
  case case15 c0 len h0 h1 h2 h3 h4 c1 g0 g1 c2 r2 k0 k1 ih =>
    intro n buf i e
    rw [utf8_len_step3 w1 w2 w3 w4 c0 c1 c2 r2 len (by omega) h4 (by omega) (by omega)
      (by omega) (by omega)] at e
    rw [utf8_violations.eq_def]
    simp only [utf8_to_utf16_fill, h0, h1, h2, h3, h4, g0, g1, k0, k1, bad_cont_iff,
      surrogate_iff, if_true, if_false, List.getD_cons_zero, List.getD_cons_succ,
      utf8_codepoint3_eq]
    split_ifs with hv hs
    · rfl
    · rfl
    · exact ih n _ _ e
  case case25 c0 len h0 h1 h2 h3 h4 h5 c1 g0 g1 c2 k0 k1 c3 r3 m0 m1 ih =>
    intro n buf i e
    rw [utf8_len_step4 w1 w2 w3 w4 c0 c1 c2 c3 r3 len (by omega) h5 (by omega) (by omega)
      (by omega) (by omega) (by omega) (by omega)] at e
    rw [utf8_violations.eq_def]
    simp only [utf8_to_utf16_fill, h0, h1, h2, h3, h4, h5, g0, g1, k0, k1, m0, m1, bad_cont_iff,
      if_true, if_false, List.getD_cons_zero, List.getD_cons_succ, utf8_codepoint4_eq,
      ge_iff_le]
    split_ifs with hv hs
    · rfl
    · rfl
    · exact ih n _ _ e
  all_goals
    intro n buf i e
    rw [utf8_len.eq_def] at e
    simp only [*, if_true, if_false, reduceCtorEq] at e

theorem utf8_to_utf32_status (malloc : Nat → Option (List Nat)) (hm : ∀ n, malloc n ≠ none)
    (b : List Nat) : (utf8_to_utf32 malloc b).2 = utf8_reported (utf8_violations b) := by
  have hs := utf8_violations_shape 4 4 4 4 b 0
  unfold utf8_reported
  cases e1 : utf8_to_utf32_len b 0 with
  | error st =>
    have e1' : utf8_len 4 4 4 4 b 0 = .error st := e1
    rw [e1'] at hs
    simp only [utf8_to_utf32, e1, hs]
  | ok n =>
    have e1' : utf8_len 4 4 4 4 b 0 = .ok n := e1
    rw [e1'] at hs
    cases hblk : malloc (n + 4) with
    | none => exact absurd hblk (hm (n + 4))
    | some blk =>
      have hv := utf8_violations_value32 4 4 4 4 b 0 n blk 0 e1'
      simp only [utf8_to_utf32, e1, hblk, hs]
      rw [← hv]
      cases utf8_to_utf32_fill b 0 blk 0 <;> rfl

theorem utf8_to_utf16_status (malloc : Nat → Option (List Nat)) (hm : ∀ n, malloc n ≠ none)
    (b : List Nat) : (utf8_to_utf16 malloc b).2 = utf8_reported (utf8_violations b) := by
  have hs := utf8_violations_shape 2 2 2 4 b 0
  unfold utf8_reported
  cases e1 : utf8_to_utf16_len b 0 with
  | error st =>
    have e1' : utf8_len 2 2 2 4 b 0 = .error st := e1
    rw [e1'] at hs
    simp only [utf8_to_utf16, e1, hs]
  | ok n =>
    have e1' : utf8_len 2 2 2 4 b 0 = .ok n := e1
    rw [e1'] at hs
    cases hblk : malloc (n + 2) with
    | none => exact absurd hblk (hm (n + 2))
    | some blk =>
      have hv := utf8_violations_value16 2 2 2 4 b 0 n blk 0 e1'
      simp only [utf8_to_utf16, e1, hblk, hs]
      rw [← hv]
      cases utf8_to_utf16_fill b 0 blk 0 <;> rfl

/-! ## The claims -/

/-- Claim C1 (round trip 16 -> 8 -> 16). For every zero-free, well-formed
sequence `s` of 16-bit units and allocators that succeed, `utf16_to_utf8 s`
returns status 0 with a buffer `buf`, and `utf8_to_utf16` applied to `buf`
returns status 0 with the units it writes being exactly `s`: the buffer it
returns is the block of `s.length + 1` units it allocated, holding `s` in its
first `s.length` cells (the last cell is the one it does not store to). -/
theorem roundtrip_utf16_utf8_utf16 (malloc8 malloc16 : Nat → Option (List Nat))
    (h8 : Allocates 1 malloc8) (h16 : Allocates 2 malloc16) (s : List Nat)
    (hw : WellFormedUtf16 s) :
    ∃ buf blk, utf16_to_utf8 malloc8 s = (some buf, 0) ∧
      malloc16 (2 * s.length + 2) = some blk ∧ blk.length = s.length + 1 ∧
      utf8_to_utf16 malloc16 buf = (some (s ++ blk.drop s.length), 0) := by
  obtain ⟨blk, hblk, hlen, h⟩ := utf8_to_utf16_encoded malloc16 h16 (utf16_decode s) [0]
    (utf16_decode_scalars s hw) rfl
  rw [utf16_encode_decode s hw] at hblk hlen h
  have h1 := utf16_to_utf8_wf malloc8 h8 s [] hw rfl
  rw [List.append_nil] at h1
  exact ⟨_, blk, h1, hblk, hlen, h⟩

theorem roundtrip_utf16_utf8_utf16_witness :
    Allocates 1 (malloc_filled 1 0xAA) ∧ Allocates 2 (malloc_filled 2 0xAAAA) ∧
    WellFormedUtf16 [0x3050, 0x41, 0x3A9, 0xD83F, 0xDC0F] ∧
    ∃ buf blk,
      utf16_to_utf8 (malloc_filled 1 0xAA) [0x3050, 0x41, 0x3A9, 0xD83F, 0xDC0F]
        = (some buf, 0) ∧
      malloc_filled 2 0xAAAA (2 * [0x3050, 0x41, 0x3A9, 0xD83F, 0xDC0F].length + 2)
        = some blk ∧
      blk.length = [0x3050, 0x41, 0x3A9, 0xD83F, 0xDC0F].length + 1 ∧
      utf8_to_utf16 (malloc_filled 2 0xAAAA) buf
        = (some ([0x3050, 0x41, 0x3A9, 0xD83F, 0xDC0F]
            ++ blk.drop [0x3050, 0x41, 0x3A9, 0xD83F, 0xDC0F].length), 0) :=
  ⟨allocates_malloc_filled 1 0xAA, allocates_malloc_filled 2 0xAAAA,
    by simp [WellFormedUtf16],
    roundtrip_utf16_utf8_utf16 (malloc_filled 1 0xAA) (malloc_filled 2 0xAAAA)
      (allocates_malloc_filled 1 0xAA) (allocates_malloc_filled 2 0xAAAA)
      [0x3050, 0x41, 0x3A9, 0xD83F, 0xDC0F] (by simp [WellFormedUtf16])⟩

/-- Round trip 8 -> 32 -> 8 with the terminator in place. For every well-formed
UTF-8 byte sequence `b` (a concatenation of minimal-length encodings of scalar
values in [1, 0x10FFFF] outside the surrogate range, hence zero-free) and
allocators that succeed, `utf8_to_utf32 b` returns status 0 and writes units
`units` into the first cells of the block of `units.length + 1` units it
allocated, and `utf32_to_utf8` applied to these units followed by a zero unit
returns status 0 and writes exactly the bytes `b` into the first cells of its
block. `utf8_to_utf32` does not store to the cell after the units, so this
covers the buffer it returns only when the allocator left a zero there. -/
theorem roundtrip_utf8_utf32_utf8_terminated (malloc32 malloc8 : Nat → Option (List Nat))
    (h32 : Allocates 4 malloc32) (h8 : Allocates 1 malloc8) (b : List Nat)
    (hw : WellFormedUtf8 b) :
    ∃ units blk32 blk8,
      malloc32 (4 * units.length + 4) = some blk32 ∧ blk32.length = units.length + 1 ∧
      utf8_to_utf32 malloc32 b = (some (units ++ blk32.drop units.length), 0) ∧
      malloc8 (b.length + 1) = some blk8 ∧ blk8.length = b.length + 1 ∧
      ∀ r : List Nat, r.headD 0 = 0 →
        utf32_to_utf8 malloc8 (units ++ r) = (some (b ++ blk8.drop b.length), 0) := by
  obtain ⟨cs, hs, rfl⟩ := hw
  obtain ⟨blk32, hblk, hlen, h⟩ := utf8_to_utf32_encoded malloc32 h32 cs [] hs rfl
  obtain ⟨blk8, hblk8, hlen8, _⟩ := utf32_to_utf8_scalars malloc8 h8 cs [] hs rfl
  rw [List.append_nil] at h
  refine ⟨cs, blk32, blk8, hblk, hlen, h, hblk8, hlen8, ?_⟩
  intro r hr
  obtain ⟨blk, hb, _, h'⟩ := utf32_to_utf8_scalars malloc8 h8 cs r hs hr
  rw [hblk8] at hb
  cases hb
  exact h'

theorem roundtrip_utf8_utf32_utf8_terminated_witness :
    Allocates 4 (malloc_filled 4 0xAAAAAAAA) ∧ Allocates 1 (malloc_filled 1 0xAA) ∧
    WellFormedUtf8 [0x41, 0xC3, 0xA9, 0xE2, 0x82, 0xAC, 0xF0, 0x9F, 0x98, 0x80] ∧
    ∃ units blk32 blk8,
      malloc_filled 4 0xAAAAAAAA (4 * units.length + 4) = some blk32 ∧
      blk32.length = units.length + 1 ∧
      utf8_to_utf32 (malloc_filled 4 0xAAAAAAAA)
          [0x41, 0xC3, 0xA9, 0xE2, 0x82, 0xAC, 0xF0, 0x9F, 0x98, 0x80]
        = (some (units ++ blk32.drop units.length), 0) ∧
      malloc_filled 1 0xAA
          ([0x41, 0xC3, 0xA9, 0xE2, 0x82, 0xAC, 0xF0, 0x9F, 0x98, 0x80].length + 1)
        = some blk8 ∧
      blk8.length = [0x41, 0xC3, 0xA9, 0xE2, 0x82, 0xAC, 0xF0, 0x9F, 0x98, 0x80].length + 1 ∧
      ∀ r : List Nat, r.headD 0 = 0 →
        utf32_to_utf8 (malloc_filled 1 0xAA) (units ++ r)
          = (some ([0x41, 0xC3, 0xA9, 0xE2, 0x82, 0xAC, 0xF0, 0x9F, 0x98, 0x80]
              ++ blk8.drop [0x41, 0xC3, 0xA9, 0xE2, 0x82, 0xAC, 0xF0, 0x9F, 0x98, 0x80].length),
             0) :=
  ⟨allocates_malloc_filled 4 0xAAAAAAAA, allocates_malloc_filled 1 0xAA,
    ⟨[0x41, 0xE9, 0x20AC, 0x1F600], by decide, by decide⟩,
    roundtrip_utf8_utf32_utf8_terminated (malloc_filled 4 0xAAAAAAAA) (malloc_filled 1 0xAA)
      (allocates_malloc_filled 4 0xAAAAAAAA) (allocates_malloc_filled 1 0xAA)
      [0x41, 0xC3, 0xA9, 0xE2, 0x82, 0xAC, 0xF0, 0x9F, 0x98, 0x80]
      ⟨[0x41, 0xE9, 0x20AC, 0x1F600], by decide, by decide⟩⟩

/-- Claim C2 (round trip 8 -> 32 -> 8), evaluated where it fails. On the bytes
of "A", U+E9, U+20AC and U+1F600, `utf8_to_utf32` returns status 0 and the four
units followed by the cell as the allocator left it (here 0xAAAAAAAA, then
0x42): it stores no terminator (line 667). `utf32_to_utf8` applied to the
buffer so returned reads that cell as a unit: it returns no buffer and status
2 in the first case, and status 0 with the bytes of `b` followed by an extra
byte 0x42 in the second. Applied to the same units followed by a zero, it
writes exactly the bytes of `b`. -/
theorem roundtrip_utf8_utf32_utf8_on_returned_buffer :
    utf8_to_utf32 (malloc_filled 4 0xAAAAAAAA)
        [0x41, 0xC3, 0xA9, 0xE2, 0x82, 0xAC, 0xF0, 0x9F, 0x98, 0x80, 0]
      = (some [0x41, 0xE9, 0x20AC, 0x1F600, 0xAAAAAAAA], 0) ∧
    utf32_to_utf8 (malloc_filled 1 0xAA) [0x41, 0xE9, 0x20AC, 0x1F600, 0xAAAAAAAA]
      = (none, 2) ∧
    utf8_to_utf32 (malloc_filled 4 0x42)
        [0x41, 0xC3, 0xA9, 0xE2, 0x82, 0xAC, 0xF0, 0x9F, 0x98, 0x80, 0]
      = (some [0x41, 0xE9, 0x20AC, 0x1F600, 0x42], 0) ∧
    utf32_to_utf8 (malloc_filled 1 0xAA) [0x41, 0xE9, 0x20AC, 0x1F600, 0x42]
      = (some [0x41, 0xC3, 0xA9, 0xE2, 0x82, 0xAC, 0xF0, 0x9F, 0x98, 0x80, 0x42, 0xAA], 0) ∧
    utf32_to_utf8 (malloc_filled 1 0xAA) [0x41, 0xE9, 0x20AC, 0x1F600, 0]
      = (some [0x41, 0xC3, 0xA9, 0xE2, 0x82, 0xAC, 0xF0, 0x9F, 0x98, 0x80, 0xAA], 0) := by
  decide

/-- Claim C3 (null-terminated output), evaluated where it fails. On the input
"A" every routine succeeds with one converted unit, but `utf8_to_utf16`,
`utf32_to_utf8` and `utf8_to_utf32` return their block with the cell at index 1
as the allocator left it (here 0xAAAA, 0xAA, 0xAAAAAAAA): they store no
terminator. Only `utf16_to_utf8` stores the zero. Passing the buffer that
`utf8_to_utf32` returned on to `utf32_to_utf8`, as the test program does, then
reads the stale cell as a unit: here it is rejected with status 2. -/
theorem terminator_stored_only_by_utf16_to_utf8 :
    utf8_to_utf16 (malloc_filled 2 0xAAAA) [0x41, 0] = (some [0x41, 0xAAAA], 0) ∧
    utf32_to_utf8 (malloc_filled 1 0xAA) [0x41, 0] = (some [0x41, 0xAA], 0) ∧
    utf8_to_utf32 (malloc_filled 4 0xAAAAAAAA) [0x41, 0] = (some [0x41, 0xAAAAAAAA], 0) ∧
    utf16_to_utf8 (malloc_filled 1 0xAA) [0x41, 0] = (some [0x41, 0], 0) ∧
    utf32_to_utf8 (malloc_filled 1 0xAA) [0x41, 0xAAAAAAAA] = (none, 2) := by
  decide

/-- Claim C4 (empty input), evaluated where it fails. On the input holding
only the terminator every routine returns status 0 and a one-unit buffer, but
`utf8_to_utf16`, `utf32_to_utf8` and `utf8_to_utf32` leave its cell at index 0
as the allocator left it (here 0xAAAA, 0xAA, 0xAAAAAAAA) instead of storing the
terminator. Only `utf16_to_utf8` returns the buffer holding just the zero. -/
theorem empty_input_terminated_only_by_utf16_to_utf8 :
    utf8_to_utf16 (malloc_filled 2 0xAAAA) [0] = (some [0xAAAA], 0) ∧
    utf32_to_utf8 (malloc_filled 1 0xAA) [0] = (some [0xAA], 0) ∧
    utf8_to_utf32 (malloc_filled 4 0xAAAAAAAA) [0] = (some [0xAAAAAAAA], 0) ∧
    utf16_to_utf8 (malloc_filled 1 0xAA) [0] = (some [0], 0) := by
  decide

/-- Claim C5 (status/buffer agreement). For each of the four routines, every
input and every allocator (succeeding or failing), the status is 0 if and only
if a buffer is returned: a non-zero status comes with a null result and a
returned buffer comes with status 0. -/
theorem status_zero_iff_buffer_returned (malloc : Nat → Option (List Nat)) (s : List Nat) :
    ((utf16_to_utf8 malloc s).2 = 0 ↔ (utf16_to_utf8 malloc s).1 ≠ none) ∧
    ((utf8_to_utf16 malloc s).2 = 0 ↔ (utf8_to_utf16 malloc s).1 ≠ none) ∧
    ((utf32_to_utf8 malloc s).2 = 0 ↔ (utf32_to_utf8 malloc s).1 ≠ none) ∧
    ((utf8_to_utf32 malloc s).2 = 0 ↔ (utf8_to_utf32 malloc s).1 ≠ none) := by
  refine ⟨?_, ?_, ?_, ?_⟩
  · cases e1 : utf16_to_utf8_len s 0 with
    | error st =>
      have := utf16_to_utf8_len_error s 0 st e1
      simp only [utf16_to_utf8, e1]
      simp; omega
    | ok n =>
      cases e2 : malloc (n + 1) with
      | none => simp [utf16_to_utf8, e1, e2]
      | some blk => simp [utf16_to_utf8, e1, e2]
  · cases e1 : utf8_to_utf16_len s 0 with
    | error st =>
      have := utf8_len_error 2 2 2 4 s 0 st e1
      simp only [utf8_to_utf16, e1]
      simp; omega
    | ok n =>
      cases e2 : malloc (n + 2) with
      | none => simp [utf8_to_utf16, e1, e2]
      | some blk =>
        cases e3 : utf8_to_utf16_fill s 0 blk 0 with
        | error st =>
          have := utf8_to_utf16_fill_error s 0 blk 0 st e3
          simp only [utf8_to_utf16, e1, e2, e3]
          simp; omega
        | ok out => simp [utf8_to_utf16, e1, e2, e3]
  · cases e1 : utf32_to_utf8_len s 0 with
    | error st =>
      have := utf32_to_utf8_len_error s 0 st e1
      simp only [utf32_to_utf8, e1]
      simp; omega
    | ok n =>
      cases e2 : malloc (n + 1) with
      | none => simp [utf32_to_utf8, e1, e2]
      | some blk => simp [utf32_to_utf8, e1, e2]
  · cases e1 : utf8_to_utf32_len s 0 with
    | error st =>
      have := utf8_len_error 4 4 4 4 s 0 st e1
      simp only [utf8_to_utf32, e1]
      simp; omega
    | ok n =>
      cases e2 : malloc (n + 4) with
      | none => simp [utf8_to_utf32, e1, e2]
      | some blk =>
        cases e3 : utf8_to_utf32_fill s 0 blk 0 with
        | error st =>
          have := utf8_to_utf32_fill_error s 0 blk 0 st e3
          simp only [utf8_to_utf32, e1, e2, e3]
          simp; omega
        | ok out => simp [utf8_to_utf32, e1, e2, e3]

/-- Claim C6 (mismatched surrogate), evaluated where it fails. A high surrogate
followed by the unit 0xE000, which is not a low surrogate, is not rejected with
status 3: `utf16_to_utf8` returns status 0 and the four bytes F0 90 80 80. The
test of line 74 reads `counter[0] >= 0xE000` where `counter[1]` is meant. A
high surrogate followed by a non-zero unit below 0xDC00 is rejected with
status 3. -/
theorem high_surrogate_then_E000_accepted :
    utf16_to_utf8 (malloc_filled 1 0xAA) [0xD800, 0xE000, 0]
      = (some [0xF0, 0x90, 0x80, 0x80, 0], 0) ∧
    utf16_to_utf8 (malloc_filled 1 0xAA) [0x41, 0xD800, 0xFFFF, 0]
      = (some [0x41, 0xF0, 0x90, 0x8F, 0xBF, 0], 0) ∧
    utf16_to_utf8 (malloc_filled 1 0xAA) [0xD800, 0x41, 0] = (none, 3) ∧
    utf16_to_utf8 (malloc_filled 1 0xAA) [0xD800, 0xD800, 0] = (none, 3) := by
  decide

/-- Claim C7 (UTF-8 acceptance is exactly well-formedness). For every input `b`
and every allocator that succeeds, `utf8_to_utf32` returns status 0 if and only
if the bytes of `b` before its first zero are a concatenation of minimal-length
UTF-8 encodings of scalar values in [1, 0x10FFFF] outside [0xD800, 0xDFFF]. -/
theorem utf8_to_utf32_accepts_iff_well_formed (malloc : Nat → Option (List Nat))
    (hm : Allocates 4 malloc) (b : List Nat) :
    (utf8_to_utf32 malloc b).2 = 0 ↔ WellFormedUtf8 (before_terminator b) := by
  constructor
  · intro h
    cases e1 : utf8_to_utf32_len b 0 with
    | error st =>
      have := utf8_len_error 4 4 4 4 b 0 st e1
      simp only [utf8_to_utf32, e1] at h
      omega
    | ok n =>
      obtain ⟨blk, hblk, _⟩ := hm (n + 4)
      cases e2 : utf8_to_utf32_fill b 0 blk 0 with
      | error st =>
        have := utf8_to_utf32_fill_error b 0 blk 0 st e2
        simp only [utf8_to_utf32, e1, hblk, e2] at h
        omega
      | ok out =>
        exact utf8_to_utf32_accept_inv 4 4 4 4 b 0 n blk 0 out e1 e2
  · rintro ⟨cs, hs, hb⟩
    obtain ⟨r, hr, hr0⟩ := before_terminator_split b
    rw [hb] at hr
    obtain ⟨blk, _, _, h⟩ := utf8_to_utf32_encoded malloc hm cs r hs hr0
    rw [hr, h]

theorem utf8_to_utf32_accepts_iff_well_formed_witness :
    Allocates 4 (malloc_filled 4 0xAAAAAAAA) ∧
    ((utf8_to_utf32 (malloc_filled 4 0xAAAAAAAA) [0x41, 0xC3, 0xA9, 0]).2 = 0 ↔
      WellFormedUtf8 (before_terminator [0x41, 0xC3, 0xA9, 0])) :=
  ⟨allocates_malloc_filled 4 0xAAAAAAAA,
    utf8_to_utf32_accepts_iff_well_formed (malloc_filled 4 0xAAAAAAAA)
      (allocates_malloc_filled 4 0xAAAAAAAA) [0x41, 0xC3, 0xA9, 0]⟩

/-- Claim C8 as stated fails: on the input C0 80 80 the leftmost violation is
the overlong sequence C0 80 (status 6), yet both decoders report status 1, the
status of the stray continuation byte that follows it. -/
theorem leftmost_violation_not_reported :
    utf8_violations [0xC0, 0x80, 0x80, 0] = [6, 1] ∧
    (utf8_to_utf16 (malloc_filled 2 0xAAAA) [0xC0, 0x80, 0x80, 0]).2 = 1 ∧
    (utf8_to_utf32 (malloc_filled 4 0xAAAAAAAA) [0xC0, 0x80, 0x80, 0]).2 = 1 ∧
    (utf8_to_utf16 (malloc_filled 2 0xAAAA) [0xC0, 0x80, 0x80, 0]).2
      ≠ (utf8_violations [0xC0, 0x80, 0x80, 0]).headD 0 ∧
    (utf8_to_utf32 (malloc_filled 4 0xAAAAAAAA) [0xC0, 0x80, 0x80, 0]).2
      ≠ (utf8_violations [0xC0, 0x80, 0x80, 0]).headD 0 := by
  decide

/-- Claim C8, amended. For every input and every allocator that succeeds, the
status `utf8_to_utf16` and `utf8_to_utf32` report is that of the leftmost
violation of shape (malformed lead byte 1, terminator inside a sequence 2, bad
continuation byte 3) when the input has one, and otherwise that of the leftmost
violation of value (encoded surrogate 4, value of 0x110000 or more 5, overlong
encoding 6), and 0 when there is no violation. -/
theorem utf8_decoders_report_shape_first (malloc16 malloc32 : Nat → Option (List Nat))
    (h16 : ∀ n, malloc16 n ≠ none) (h32 : ∀ n, malloc32 n ≠ none) (b : List Nat) :
    (utf8_to_utf16 malloc16 b).2 = utf8_reported (utf8_violations b) ∧
    (utf8_to_utf32 malloc32 b).2 = utf8_reported (utf8_violations b) :=
  ⟨utf8_to_utf16_status malloc16 h16 b, utf8_to_utf32_status malloc32 h32 b⟩

theorem utf8_decoders_report_shape_first_witness :
    (∀ n, malloc_filled 2 0xAAAA n ≠ none) ∧ (∀ n, malloc_filled 4 0xAAAAAAAA n ≠ none) ∧
    (utf8_to_utf16 (malloc_filled 2 0xAAAA) [0xE0, 0x80, 0x80, 0xED, 0xA0, 0x80, 0]).2
      = utf8_reported (utf8_violations [0xE0, 0x80, 0x80, 0xED, 0xA0, 0x80, 0]) ∧
    (utf8_to_utf32 (malloc_filled 4 0xAAAAAAAA) [0xE0, 0x80, 0x80, 0xED, 0xA0, 0x80, 0]).2
      = utf8_reported (utf8_violations [0xE0, 0x80, 0x80, 0xED, 0xA0, 0x80, 0]) :=
  ⟨fun _ => by simp [malloc_filled], fun _ => by simp [malloc_filled],
    utf8_decoders_report_shape_first (malloc_filled 2 0xAAAA) (malloc_filled 4 0xAAAAAAAA)
      (fun _ => by simp [malloc_filled]) (fun _ => by simp [malloc_filled])
      [0xE0, 0x80, 0x80, 0xED, 0xA0, 0x80, 0]⟩

/-- Claim C9 as stated fails: `utf16_to_utf8` on the units D83F DC0F does not
yield the bytes F0 9F A0 8F of the scalar value 0x1F80F. The pair encodes
`((0xD83F-0xD800)<<10 | (0xDC0F-0xDC00)) + 0x10000 = 0x1FC0F`, whose bytes are
F0 9F B0 8F. And the third conversion, applied to the buffer the second one
returns, does not yield the 4 bytes when the allocator left a non-zero cell
after the unit (here 0xAAAAAAAA): it returns no buffer and status 2. -/
theorem supplementary_plane_not_1F80F :
    utf16_to_utf8 (malloc_filled 1 0xAA) [0xD83F, 0xDC0F, 0]
      ≠ (some [0xF0, 0x9F, 0xA0, 0x8F, 0], 0) ∧
    utf8_encode 0x1F80F = [0xF0, 0x9F, 0xA0, 0x8F] ∧
    utf16_decode [0xD83F, 0xDC0F] = [0x1FC0F] ∧
    utf8_to_utf32 (malloc_filled 4 0xAAAAAAAA) [0xF0, 0x9F, 0xB0, 0x8F, 0]
      = (some [0x1FC0F, 0xAAAAAAAA], 0) ∧
    utf32_to_utf8 (malloc_filled 1 0xAA) [0x1FC0F, 0xAAAAAAAA] = (none, 2) := by
  decide

/-- Claim C9, amended. For allocators that succeed, `utf16_to_utf8` on the
input D83F DC0F 0 returns status 0 and the single 4-byte UTF-8 sequence
F0 9F B0 8F that encodes the scalar value 0x1FC0F, followed by the terminator;
`utf8_to_utf32` on that returned buffer returns status 0 and a buffer holding
the single unit 0x1FC0F followed by a cell `g` it does not store to; and when
that cell holds zero, `utf32_to_utf8` on that returned buffer returns status 0
and writes the identical 4 bytes. Nothing is stated for a non-zero `g`. -/
theorem supplementary_plane_scenario (malloc8 malloc32 : Nat → Option (List Nat))
    (h8 : Allocates 1 malloc8) (h32 : Allocates 4 malloc32) :
    utf8_encode 0x1FC0F = [0xF0, 0x9F, 0xB0, 0x8F] ∧
    utf16_to_utf8 malloc8 [0xD83F, 0xDC0F, 0] = (some [0xF0, 0x9F, 0xB0, 0x8F, 0], 0) ∧
    ∃ g, utf8_to_utf32 malloc32 [0xF0, 0x9F, 0xB0, 0x8F, 0] = (some [0x1FC0F, g], 0) ∧
      (g = 0 → ∃ g1, utf32_to_utf8 malloc8 [0x1FC0F, g]
        = (some [0xF0, 0x9F, 0xB0, 0x8F, g1], 0)) := by
  refine ⟨by decide, ?_, ?_⟩
  · exact utf16_to_utf8_wf malloc8 h8 [0xD83F, 0xDC0F] [0] (by simp [WellFormedUtf16]) rfl
  · obtain ⟨blk, _, hlen, h⟩ :=
      utf8_to_utf32_encoded malloc32 h32 [0x1FC0F] [0] (by decide) rfl
    obtain ⟨x, t, rfl, ht⟩ := exists_cons_of_length blk 1 hlen
    obtain ⟨g, t', rfl, ht'⟩ := exists_cons_of_length t 0 ht
    have : t' = [] := List.length_eq_zero.mp ht'
    subst this
    refine ⟨g, h, ?_⟩
    intro hg
    subst hg
    obtain ⟨blk, _, hlen, h⟩ :=
      utf32_to_utf8_scalars malloc8 h8 [0x1FC0F] [0] (by decide) rfl
    have e : utf8_encode_all [0x1FC0F] = [0xF0, 0x9F, 0xB0, 0x8F] := by decide
    rw [e] at hlen h
    obtain ⟨x1, t1, rfl, ht1⟩ := exists_cons_of_length blk 4 hlen
    obtain ⟨x2, t2, rfl, ht2⟩ := exists_cons_of_length t1 3 ht1
    obtain ⟨x3, t3, rfl, ht3⟩ := exists_cons_of_length t2 2 ht2
    obtain ⟨x4, t4, rfl, ht4⟩ := exists_cons_of_length t3 1 ht3
    obtain ⟨g1, t5, rfl, ht5⟩ := exists_cons_of_length t4 0 ht4
    have : t5 = [] := List.length_eq_zero.mp ht5
    subst this
    exact ⟨g1, h⟩

theorem supplementary_plane_scenario_witness :
    Allocates 1 (malloc_filled 1 0xAA) ∧ Allocates 4 (malloc_filled 4 0) ∧
    utf8_encode 0x1FC0F = [0xF0, 0x9F, 0xB0, 0x8F] ∧
    utf16_to_utf8 (malloc_filled 1 0xAA) [0xD83F, 0xDC0F, 0]
      = (some [0xF0, 0x9F, 0xB0, 0x8F, 0], 0) ∧
    ∃ g, utf8_to_utf32 (malloc_filled 4 0) [0xF0, 0x9F, 0xB0, 0x8F, 0]
        = (some [0x1FC0F, g], 0) ∧
      (g = 0 → ∃ g1, utf32_to_utf8 (malloc_filled 1 0xAA) [0x1FC0F, g]
        = (some [0xF0, 0x9F, 0xB0, 0x8F, g1], 0)) :=
  ⟨allocates_malloc_filled 1 0xAA, allocates_malloc_filled 4 0,
    supplementary_plane_scenario (malloc_filled 1 0xAA) (malloc_filled 4 0)
      (allocates_malloc_filled 1 0xAA) (allocates_malloc_filled 4 0)⟩

/-- Claim C10 (UTF-16 to UTF-8 is the reference transcoding). For every
well-formed zero-free UTF-16 input and every allocator that succeeds,
`utf16_to_utf8` returns status 0 and a buffer holding exactly the
concatenation, in order, of the standard minimal UTF-8 encodings (1 byte below
0x80, 2 bytes below 0x800, 3 bytes below 0x10000, 4 bytes otherwise) of the
decoded scalar values, where a non-surrogate unit decodes to itself and a
high/low pair to `((high-0xD800)<<10 | (low-0xDC00)) + 0x10000`, followed by the
terminator. -/
theorem utf16_to_utf8_is_reference (malloc : Nat → Option (List Nat))
    (hm : Allocates 1 malloc) (s : List Nat) (hw : WellFormedUtf16 s) :
    utf16_to_utf8 malloc s = (some (utf8_encode_all (utf16_decode s) ++ [0]), 0) := by
  have h := utf16_to_utf8_wf malloc hm s [] hw rfl
  rwa [List.append_nil] at h

theorem utf16_to_utf8_is_reference_witness :
    Allocates 1 (malloc_filled 1 0xAA) ∧
    WellFormedUtf16 [0x3050, 0x41, 0x3A9, 0xD83F, 0xDC0F] ∧
    utf16_to_utf8 (malloc_filled 1 0xAA) [0x3050, 0x41, 0x3A9, 0xD83F, 0xDC0F]
      = (some (utf8_encode_all (utf16_decode [0x3050, 0x41, 0x3A9, 0xD83F, 0xDC0F]) ++ [0]),
          0) :=
  ⟨allocates_malloc_filled 1 0xAA, by simp [WellFormedUtf16],
    utf16_to_utf8_is_reference (malloc_filled 1 0xAA) (allocates_malloc_filled 1 0xAA)
      [0x3050, 0x41, 0x3A9, 0xD83F, 0xDC0F] (by simp [WellFormedUtf16])⟩

/-! ## Failed calls return no buffer -/

theorem utf16_to_utf8_failed (malloc : Nat → Option (List Nat)) (s : List Nat) (st : Nat)
    (h : (utf16_to_utf8 malloc s).2 = st) (h0 : st ≠ 0) : utf16_to_utf8 malloc s = (none, st) := by
  subst h
  cases e1 : utf16_to_utf8_len s 0 with
  | error st => simp only [utf16_to_utf8, e1]
  | ok n =>
    cases e2 : malloc (n + 1) with
    | none => simp only [utf16_to_utf8, e1, e2]
    | some blk => simp [utf16_to_utf8, e1, e2] at h0

theorem utf32_to_utf8_failed (malloc : Nat → Option (List Nat)) (s : List Nat) (st : Nat)
    (h : (utf32_to_utf8 malloc s).2 = st) (h0 : st ≠ 0) : utf32_to_utf8 malloc s = (none, st) := by
  subst h
  cases e1 : utf32_to_utf8_len s 0 with
  | error st => simp only [utf32_to_utf8, e1]
  | ok n =>
    cases e2 : malloc (n + 1) with
    | none => simp only [utf32_to_utf8, e1, e2]
    | some blk => simp [utf32_to_utf8, e1, e2] at h0

theorem utf8_to_utf16_failed (malloc : Nat → Option (List Nat)) (s : List Nat) (st : Nat)
    (h : (utf8_to_utf16 malloc s).2 = st) (h0 : st ≠ 0) : utf8_to_utf16 malloc s = (none, st) := by
  subst h
  cases e1 : utf8_to_utf16_len s 0 with
  | error st => simp only [utf8_to_utf16, e1]
  | ok n =>
    cases e2 : malloc (n + 2) with
    | none => simp only [utf8_to_utf16, e1, e2]
    | some blk =>
      cases e3 : utf8_to_utf16_fill s 0 blk 0 with
      | error st => simp only [utf8_to_utf16, e1, e2, e3]
      | ok out => simp [utf8_to_utf16, e1, e2, e3] at h0

theorem utf8_to_utf32_failed (malloc : Nat → Option (List Nat)) (s : List Nat) (st : Nat)
    (h : (utf8_to_utf32 malloc s).2 = st) (h0 : st ≠ 0) : utf8_to_utf32 malloc s = (none, st) := by
  subst h
  cases e1 : utf8_to_utf32_len s 0 with
  | error st => simp only [utf8_to_utf32, e1]
  | ok n =>
    cases e2 : malloc (n + 4) with
    | none => simp only [utf8_to_utf32, e1, e2]
    | some blk =>
      cases e3 : utf8_to_utf32_fill s 0 blk 0 with
      | error st => simp only [utf8_to_utf32, e1, e2, e3]
      | ok out => simp [utf8_to_utf32, e1, e2, e3] at h0

/-! ## utf16_to_utf8 after a well-formed prefix -/

theorem utf16_to_utf8_len_prefix (s : List Nat) :
    ∀ (r : List Nat) (len : Nat), WellFormedUtf16 s →
      utf16_to_utf8_len (s ++ r) len
        = utf16_to_utf8_len r (len + (utf8_encode_all (utf16_decode s)).length) := by
  induction s using utf16_decode.induct with
  | case1 =>
    intro r len _
    simp [utf16_decode, utf8_encode_all]
  | case2 c t hc ih =>
    intro r len hw
    rw [WellFormedUtf16.eq_def] at hw
    simp only [hc, if_true] at hw
    obtain ⟨h0, hb, ht⟩ := hw
    have hc' : c < 0xD800 ∨ c ≥ 0xE000 := by omega
    rw [List.cons_append, utf16_to_utf8_len.eq_def, utf16_decode.eq_def]
    simp only [h0, if_false, hc', if_true, hc, utf8_encode_all,
      List.length_append, utf8_encode_length]
    have hlt : c < 0x10000 := hb
    split_ifs <;> first | omega | (rw [ih r _ ht]; congr 1; omega)
  | case3 c hc =>
    intro r len hw
    rw [WellFormedUtf16.eq_def] at hw
    simp [hc] at hw
  | case4 c0 hc c1 t ih =>
    intro r len hw
    rw [WellFormedUtf16.eq_def] at hw
    simp only [hc, if_false] at hw
    obtain ⟨⟨h0, h0'⟩, ⟨h1, h1'⟩, ht⟩ := hw
    have e1 : ¬ (c0 < 0xD800 ∨ c0 ≥ 0xE000) := by omega
    have e2 : ¬ (c0 ≥ 0xDC00) := by omega
    have e3 : ¬ (c1 < 0xDC00 ∨ c0 ≥ 0xE000) := by omega
    have e4 : c1 ≠ 0 := by omega
    have e5 : c0 ≠ 0 := by omega
    rw [List.cons_append, List.cons_append, utf16_to_utf8_len.eq_def, utf16_decode.eq_def]
    simp only [e1, e2, e3, e4, e5, if_false, hc, utf8_encode_all,
      List.length_append, utf8_encode_length]
    rw [ih r _ ht, utf16_decode_pair_eq c0 c1 h0 h0' h1 h1']
    have : ¬ (c0 % 1024 * 1024 + c1 % 1024 + 65536 < 128) := by omega
    have : ¬ (c0 % 1024 * 1024 + c1 % 1024 + 65536 < 2048) := by omega
    have : ¬ (c0 % 1024 * 1024 + c1 % 1024 + 65536 < 65536) := by omega
    simp only [*, if_false]
    congr 1; omega

theorem utf16_to_utf8_len_lone_high (h : Nat) (r : List Nat) (len : Nat) (h1 : 0xD800 ≤ h)
    (h2 : h ≤ 0xDBFF) (hr : r.headD 0 = 0) : utf16_to_utf8_len (h :: r) len = .error 2 := by
  have e0 : h ≠ 0 := by omega
  have e1 : ¬ (h < 0xD800 ∨ h ≥ 0xE000) := by omega
  have e2 : ¬ (h ≥ 0xDC00) := by omega
  rw [utf16_to_utf8_len.eq_def]
  cases r with
  | nil => simp only [e0, e1, e2, if_false]
  | cons c t =>
    simp only [List.headD_cons] at hr
    subst hr
    simp only [e0, e1, e2, if_false, if_true]

theorem utf16_to_utf8_lone_high (malloc : Nat → Option (List Nat)) (pre : List Nat) (h : Nat)
    (r : List Nat) (hw : WellFormedUtf16 pre) (h1 : 0xD800 ≤ h) (h2 : h ≤ 0xDBFF)
    (hr : r.headD 0 = 0) : utf16_to_utf8 malloc (pre ++ h :: r) = (none, 2) := by
  simp only [utf16_to_utf8, utf16_to_utf8_len_prefix pre (h :: r) 0 hw,
    utf16_to_utf8_len_lone_high h r _ h1 h2 hr]

/-! ## utf32_to_utf8 and the first offending unit -/

theorem utf32_to_utf8_len_offending (s : List Nat) :
    ∀ len, utf32_to_utf8_len s len =
      match utf32_first_offending s with
      | some u => .error (if 0xD800 ≤ u ∧ u ≤ 0xDFFF then 1 else 2)
      | none => .ok (len + (utf8_encode_all (before_terminator s)).length) := by
  induction s with
  | nil => intro len; rfl
  | cons c t ih =>
    intro len
    by_cases h0 : c = 0
    · subst h0
      simp [utf32_to_utf8_len, utf32_first_offending, before_terminator, utf8_encode_all]
    by_cases hs : 0xD800 ≤ c ∧ c ≤ 0xDFFF
    · have k1 : ¬ c < 0x80 := by omega
      have k2 : ¬ c < 0x800 := by omega
      have k3 : c < 0x10000 := by omega
      have k4 : c ≥ 0xD800 ∧ c < 0xE000 := by omega
      have k5 : (0xD800 ≤ c ∧ c ≤ 0xDFFF) ∨ 0x110000 ≤ c := Or.inl hs
      rw [utf32_to_utf8_len, utf32_first_offending]
      rw [if_neg h0, if_neg k1, if_neg k2, if_pos k3, if_pos k4, if_neg h0, if_pos k5]
      simp only [hs, and_self, if_true]
    by_cases hl : 0x110000 ≤ c
    · have k1 : ¬ c < 0x80 := by omega
      have k2 : ¬ c < 0x800 := by omega
      have k3 : ¬ c < 0x10000 := by omega
      have k4 : ¬ c < 0x110000 := by omega
      have k5 : (0xD800 ≤ c ∧ c ≤ 0xDFFF) ∨ 0x110000 ≤ c := Or.inr hl
      rw [utf32_to_utf8_len, utf32_first_offending]
      rw [if_neg h0, if_neg k1, if_neg k2, if_neg k3, if_neg k4, if_neg h0, if_pos k5]
      simp only [hs, if_false]
    · have ho : ¬ ((0xD800 ≤ c ∧ c ≤ 0xDFFF) ∨ 0x110000 ≤ c) := by omega
      have k4 : ¬ (c ≥ 0xD800 ∧ c < 0xE000) := by omega
      have k5 : c < 0x110000 := by omega
      simp only [utf32_to_utf8_len, utf32_first_offending, before_terminator, h0, ho, k4, k5,
        if_true, if_false, utf8_encode_all, List.length_append, utf8_encode_length]
      split_ifs <;> first
        | omega
        | (rw [ih]
           cases utf32_first_offending t with
           | some u => rfl
           | none =>
             show Except.ok _ = Except.ok _
             congr 1
             omega)

theorem utf32_first_offending_none (s : List Nat) :
    utf32_first_offending s = none ↔
      ∀ u ∈ before_terminator s, u < 0x110000 ∧ ¬ (0xD800 ≤ u ∧ u ≤ 0xDFFF) := by
  induction s with
  | nil => simp [utf32_first_offending, before_terminator]
  | cons c t ih =>
    by_cases h0 : c = 0
    · simp [utf32_first_offending, before_terminator, h0]
    by_cases ho : (0xD800 ≤ c ∧ c ≤ 0xDFFF) ∨ 0x110000 ≤ c
    · simp only [utf32_first_offending, before_terminator, h0, ho, if_true, if_false,
        reduceCtorEq, false_iff]
      intro h
      have := h c (List.mem_cons_self _ _)
      omega
    · simp only [utf32_first_offending, before_terminator, h0, ho, if_false, ih,
        List.mem_cons, forall_eq_or_imp]
      constructor
      · intro h; exact ⟨by omega, h⟩
      · intro h; exact h.2

/-! ## Inputs that are a single multi-byte sequence -/

theorem utf8_value2_eq (c0 c1 : Nat) : utf8_value2 c0 c1 = c0 % 32 * 64 + c1 % 64 := by
  simp only [utf8_value2, and_3F, and_1F]
  rw [shl_or _ _ 6 (by omega)]
  omega

theorem utf8_value3_eq (c0 c1 c2 : Nat) :
    utf8_value3 c0 c1 c2 = c0 % 16 * 4096 + c1 % 64 * 64 + c2 % 64 := by
  simp only [utf8_value3, and_3F, and_0F]
  rw [Nat.shiftLeft_eq (c1 % 64) 6, shl_or _ _ 12 (by omega),
    show c0 % 16 * 2 ^ 12 + c1 % 64 * 2 ^ 6 = (c0 % 16 * 64 + c1 % 64) * 2 ^ 6 by omega,
    ← Nat.shiftLeft_eq, shl_or _ _ 6 (by omega)]
  omega

theorem utf8_value4_eq (c0 c1 c2 c3 : Nat) :
    utf8_value4 c0 c1 c2 c3 = c0 % 8 * 262144 + c1 % 64 * 4096 + c2 % 64 * 64 + c3 % 64 := by
  simp only [utf8_value4, and_3F, and_07]
  rw [Nat.shiftLeft_eq (c1 % 64) 12, shl_or _ _ 18 (by omega),
    show c0 % 8 * 2 ^ 18 + c1 % 64 * 2 ^ 12 = (c0 % 8 * 64 + c1 % 64) * 2 ^ 12 by omega,
    ← Nat.shiftLeft_eq, Nat.shiftLeft_eq (c2 % 64) 6, shl_or _ _ 12 (by omega),
    show (c0 % 8 * 64 + c1 % 64) * 2 ^ 12 + c2 % 64 * 2 ^ 6
      = ((c0 % 8 * 64 + c1 % 64) * 64 + c2 % 64) * 2 ^ 6 by omega,
    ← Nat.shiftLeft_eq, shl_or _ _ 6 (by omega)]
  omega

theorem utf8_violations_stop (r : List Nat) (h : r.headD 0 = 0) : utf8_violations r = [] := by
  cases r with
  | nil => rfl
  | cons c t =>
    simp only [List.headD_cons] at h
    subst h
    rw [utf8_violations.eq_def]
    simp

theorem utf8_violations_single2 (c0 c1 : Nat) (r : List Nat) (h0 : 0xC0 ≤ c0) (h0' : c0 ≤ 0xDF)
    (h1 : IsContinuation c1) (hr : r.headD 0 = 0) :
    utf8_violations (c0 :: c1 :: r) = if utf8_value2 c0 c1 < 0x80 then [6] else [] := by
  unfold IsContinuation at h1
  have a0 : c0 ≠ 0 := by omega
  have a1 : ¬ c0 < 0x80 := by omega
  have a2 : ¬ c0 < 0xC0 := by omega
  have a3 : c0 < 0xE0 := by omega
  have b0 : c1 ≠ 0 := by omega
  have b1 : ¬ (c1 < 0x80 ∨ 0xBF < c1) := by omega
  rw [utf8_violations.eq_def]
  simp only [a0, a1, a2, a3, b0, b1, if_true, if_false, utf8_violations_stop r hr,
    utf8_value2_eq]

theorem utf8_violations_single3 (c0 c1 c2 : Nat) (r : List Nat) (h0 : 0xE0 ≤ c0)
    (h0' : c0 ≤ 0xEF) (h1 : IsContinuation c1) (h2 : IsContinuation c2) (hr : r.headD 0 = 0) :
    utf8_violations (c0 :: c1 :: c2 :: r) =
      if utf8_value3 c0 c1 c2 < 0x800 then [6]
      else if 0xD800 ≤ utf8_value3 c0 c1 c2 ∧ utf8_value3 c0 c1 c2 ≤ 0xDFFF then [4]
      else [] := by
  unfold IsContinuation at h1 h2
  have a0 : c0 ≠ 0 := by omega
  have a1 : ¬ c0 < 0x80 := by omega
  have a2 : ¬ c0 < 0xC0 := by omega
  have a3 : ¬ c0 < 0xE0 := by omega
  have a4 : c0 < 0xF0 := by omega
  have b0 : c1 ≠ 0 := by omega
  have b1 : ¬ (c1 < 0x80 ∨ 0xBF < c1) := by omega
  have d0 : c2 ≠ 0 := by omega
  have d1 : ¬ (c2 < 0x80 ∨ 0xBF < c2) := by omega
  rw [utf8_violations.eq_def]
  simp only [a0, a1, a2, a3, a4, b0, b1, d0, d1, if_true, if_false,
    utf8_violations_stop r hr, utf8_value3_eq]

theorem utf8_violations_single4 (c0 c1 c2 c3 : Nat) (r : List Nat) (h0 : 0xF0 ≤ c0)
    (h0' : c0 ≤ 0xF7) (h1 : IsContinuation c1) (h2 : IsContinuation c2)
    (h3 : IsContinuation c3) (hr : r.headD 0 = 0) :
    utf8_violations (c0 :: c1 :: c2 :: c3 :: r) =
      if utf8_value4 c0 c1 c2 c3 < 0x10000 then [6]
      else if 0x110000 ≤ utf8_value4 c0 c1 c2 c3 then [5]
      else [] := by
  unfold IsContinuation at h1 h2 h3
  have a0 : c0 ≠ 0 := by omega
  have a1 : ¬ c0 < 0x80 := by omega
  have a2 : ¬ c0 < 0xC0 := by omega
  have a3 : ¬ c0 < 0xE0 := by omega
  have a4 : ¬ c0 < 0xF0 := by omega
  have a5 : c0 < 0xF8 := by omega
  have b0 : c1 ≠ 0 := by omega
  have b1 : ¬ (c1 < 0x80 ∨ 0xBF < c1) := by omega
  have d0 : c2 ≠ 0 := by omega
  have d1 : ¬ (c2 < 0x80 ∨ 0xBF < c2) := by omega
  have e0 : c3 ≠ 0 := by omega
  have e1 : ¬ (c3 < 0x80 ∨ 0xBF < c3) := by omega
  rw [utf8_violations.eq_def]
  simp only [a0, a1, a2, a3, a4, a5, b0, b1, d0, d1, e0, e1, if_true, if_false,
    utf8_violations_stop r hr, utf8_value4_eq]

theorem utf8_reported_single (st : Nat) (h : 4 ≤ st) : utf8_reported [st] = st := by
  have : ¬ st ≤ 3 := by omega
  simp [utf8_reported, List.find?, this]

/-! ## Inputs utf8_to_utf16 accepts -/

theorem utf8_to_utf16_accept_inv (w1 w2 w3 w4 : Nat) (b : List Nat) (len n : Nat)
    (buf : List Nat) (i : Nat) (out : List Nat) (e1 : utf8_len w1 w2 w3 w4 b len = .ok n)
    (e2 : utf8_to_utf16_fill b 0 buf i = .ok out) :
    ∃ cs, (∀ c ∈ cs, IsScalar c) ∧ before_terminator b = utf8_encode_all cs := by
  have h16 := utf8_violations_value16 w1 w2 w3 w4 b len n buf i e1
  have h32 := utf8_violations_value32 w1 w2 w3 w4 b len n buf i e1
  rw [e2] at h16
  cases e3 : utf8_to_utf32_fill b 0 buf i with
  | error st =>
    have := utf8_to_utf32_fill_error b 0 buf i st e3
    rw [e3] at h32
    simp only at h16 h32
    omega
  | ok out32 => exact utf8_to_utf32_accept_inv w1 w2 w3 w4 b len n buf i out32 e1 e3

/-! ## The reference UTF-16 encoding of scalar values -/

theorem utf16_encode_all_wf (cs : List Nat) :
    (∀ c ∈ cs, IsScalar c) →
      WellFormedUtf16 (utf16_encode_all cs) ∧ utf16_decode (utf16_encode_all cs) = cs := by
  induction cs with
  | nil => intro _; exact ⟨by simp [utf16_encode_all, WellFormedUtf16], rfl⟩
  | cons c t ih =>
    intro h
    have hc : IsScalar c := h c (List.mem_cons_self _ _)
    have ht : ∀ x ∈ t, IsScalar x := fun x hx => h x (List.mem_cons_of_mem _ hx)
    obtain ⟨iw, id⟩ := ih ht
    unfold IsScalar at hc
    rw [utf16_encode_all, utf16_encode_eq]
    by_cases h3 : c < 0x10000
    · have k : c < 0xD800 ∨ 0xDFFF < c := by omega
      simp only [h3, if_true, List.cons_append, List.nil_append]
      rw [WellFormedUtf16.eq_def, utf16_decode.eq_def]
      simp only [k, if_true, id]
      exact ⟨⟨by omega, h3, iw⟩, trivial⟩
    · have k : ¬ (0xD800 + (c - 0x10000) / 1024 < 0xD800
          ∨ 0xDFFF < 0xD800 + (c - 0x10000) / 1024) := by omega
      simp only [h3, if_false, List.cons_append, List.nil_append]
      rw [WellFormedUtf16.eq_def, utf16_decode.eq_def]
      simp only [k, if_false, id]
      refine ⟨⟨⟨by omega, by omega⟩, ⟨by omega, by omega⟩, iw⟩, ?_⟩
      rw [utf16_decode_pair_eq _ _ (by omega) (by omega) (by omega) (by omega)]
      simp only [List.cons.injEq, and_true]
      omega

/-! ## The measured length and the units written -/

theorem utf16_to_utf8_exact (s : List Nat) (len : Nat) :
    ∀ n, utf16_to_utf8_len s len = .ok n →
      ∃ out : List Nat, len + out.length = n ∧
        ∀ (pre mid suf : List Nat) (i : Nat), i = pre.length → mid.length = out.length →
          utf16_to_utf8_fill s (pre ++ (mid ++ suf)) i = (pre ++ (out ++ suf), i + out.length) := by
  induction s, len using utf16_to_utf8_len.induct
  case case1 len =>
    intro n e
    rw [utf16_to_utf8_len.eq_def] at e
    simp only [Except.ok.injEq] at e
    refine ⟨[], by simpa using e, ?_⟩
    intro pre mid suf i _ hm
    have : mid = [] := List.length_eq_zero.mp hm
    subst this
    simp [utf16_to_utf8_fill]
  case case2 r0 len =>
    intro n e
    rw [utf16_to_utf8_len.eq_def] at e
    simp only [if_true, Except.ok.injEq] at e
    refine ⟨[], by simpa using e, ?_⟩
    intro pre mid suf i _ hm
    have : mid = [] := List.length_eq_zero.mp hm
    subst this
    rw [utf16_to_utf8_fill.eq_def]
    simp
  case case3 c0 r0 len h0 hc h1 ih =>
    intro n e
    rw [utf16_to_utf8_len.eq_def] at e
    simp only [h0, hc, h1, if_true, if_false] at e
    obtain ⟨out, hl, hf⟩ := ih n e
    refine ⟨u8 c0 :: out, by simp only [List.length_cons]; omega, ?_⟩
    intro pre mid suf i hi hm
    obtain ⟨x1, m1, rfl, hm1⟩ := exists_cons_of_length mid out.length (by simpa using hm)
    rw [utf16_to_utf8_fill.eq_def]
    simp only [h0, hc, h1, if_true, if_false]
    rw [List.cons_append, store1 _ _ _ _ _ hi, hf _ m1 suf (i + 1) (by simp [hi]) hm1]
    simp only [List.append_assoc, List.cons_append, List.nil_append, List.length_cons,
      Prod.mk.injEq, true_and]
    omega
  case case4 c0 r0 len h0 hc h1 h2 ih =>
    intro n e
    rw [utf16_to_utf8_len.eq_def] at e
    simp only [h0, hc, h1, h2, if_true, if_false] at e
    obtain ⟨out, hl, hf⟩ := ih n e
    refine ⟨(utf16_bytes2 c0).1 :: (utf16_bytes2 c0).2 :: out,
      by simp only [List.length_cons]; omega, ?_⟩
    intro pre mid suf i hi hm
    obtain ⟨x1, m1, rfl, hm1⟩ := exists_cons_of_length mid (out.length + 1) (by simpa using hm)
    obtain ⟨x2, m2, rfl, hm2⟩ := exists_cons_of_length m1 out.length hm1
    rw [utf16_to_utf8_fill.eq_def]
    simp only [h0, hc, h1, h2, if_true, if_false, List.cons_append]
    rw [store2 _ _ _ _ _ _ _ hi, hf _ m2 suf (i + 2) (by simp [hi]) hm2]
    simp only [List.append_assoc, List.cons_append, List.nil_append, List.length_cons,
      Prod.mk.injEq, true_and]
    omega
  case case5 c0 r0 len h0 hc h1 h2 ih =>
    intro n e
    rw [utf16_to_utf8_len.eq_def] at e
    simp only [h0, hc, h1, h2, if_true, if_false] at e
    obtain ⟨out, hl, hf⟩ := ih n e
    refine ⟨(utf16_bytes3 c0).1 :: (utf16_bytes3 c0).2.1 :: (utf16_bytes3 c0).2.2 :: out,
      by simp only [List.length_cons]; omega, ?_⟩
    intro pre mid suf i hi hm
    obtain ⟨x1, m1, rfl, hm1⟩ := exists_cons_of_length mid (out.length + 2) (by simpa using hm)
    obtain ⟨x2, m2, rfl, hm2⟩ := exists_cons_of_length m1 (out.length + 1) hm1
    obtain ⟨x3, m3, rfl, hm3⟩ := exists_cons_of_length m2 out.length hm2
    rw [utf16_to_utf8_fill.eq_def]
    simp only [h0, hc, h1, h2, if_true, if_false, List.cons_append]
    rw [store3 _ _ _ _ _ _ _ _ _ hi, hf _ m3 suf (i + 3) (by simp [hi]) hm3]
    simp only [List.append_assoc, List.cons_append, List.nil_append, List.length_cons,
      Prod.mk.injEq, true_and]
    omega
  case case10 c0 len h0 hc h1 c1 r1 g0 g1 ih =>
    intro n e
    rw [utf16_to_utf8_len.eq_def] at e
    simp only [h0, hc, h1, g0, g1, if_true, if_false] at e
    obtain ⟨out, hl, hf⟩ := ih n e
    refine ⟨(utf16_bytes4 (utf16_pair_codepoint c0 c1)).1
        :: (utf16_bytes4 (utf16_pair_codepoint c0 c1)).2.1
        :: (utf16_bytes4 (utf16_pair_codepoint c0 c1)).2.2.1
        :: (utf16_bytes4 (utf16_pair_codepoint c0 c1)).2.2.2 :: out,
      by simp only [List.length_cons]; omega, ?_⟩
    intro pre mid suf i hi hm
    obtain ⟨x1, m1, rfl, hm1⟩ := exists_cons_of_length mid (out.length + 3) (by simpa using hm)
    obtain ⟨x2, m2, rfl, hm2⟩ := exists_cons_of_length m1 (out.length + 2) hm1
    obtain ⟨x3, m3, rfl, hm3⟩ := exists_cons_of_length m2 (out.length + 1) hm2
    obtain ⟨x4, m4, rfl, hm4⟩ := exists_cons_of_length m3 out.length hm3
    rw [utf16_to_utf8_fill.eq_def]
    simp only [h0, hc, if_true, if_false, List.cons_append]
    rw [store4 _ _ _ _ _ _ _ _ _ _ _ hi, hf _ m4 suf (i + 4) (by simp [hi]) hm4]
    simp only [List.append_assoc, List.cons_append, List.nil_append, List.length_cons,
      Prod.mk.injEq, true_and]
    omega
  all_goals
    intro n e
    rw [utf16_to_utf8_len.eq_def] at e
    simp only [*, if_true, if_false, reduceCtorEq] at e

theorem take_append_drop_of_le (blk : List Nat) (n : Nat) (h : n ≤ blk.length) :
    ∃ mid, blk = mid ++ blk.drop n ∧ mid.length = n :=
  ⟨blk.take n, (List.take_append_drop n blk).symm, by simp; omega⟩

theorem mem_before_terminator_ne_zero (s : List Nat) : ∀ u ∈ before_terminator s, u ≠ 0 := by
  induction s with
  | nil => intro u hu; simp [before_terminator] at hu
  | cons c t ih =>
    intro u hu
    by_cases h0 : c = 0
    · simp [before_terminator, h0] at hu
    · simp only [before_terminator, h0, if_false, List.mem_cons] at hu
      rcases hu with rfl | hu
      · exact h0
      · exact ih u hu

/-! ## What an accepted input makes the materializing pass write -/

theorem utf32_to_utf8_accepted_scalars (s : List Nat) (len n : Nat)
    (e : utf32_to_utf8_len s len = .ok n) :
    (∀ c ∈ before_terminator s, IsScalar c) ∧
      n = len + (utf8_encode_all (before_terminator s)).length := by
  have h := utf32_to_utf8_len_offending s len
  cases ho : utf32_first_offending s with
  | some u =>
    rw [ho, e] at h
    simp at h
  | none =>
    rw [ho, e] at h
    simp only [Except.ok.injEq] at h
    refine ⟨?_, h⟩
    intro c hc
    have h1 := (utf32_first_offending_none s).mp ho c hc
    have h2 := mem_before_terminator_ne_zero s c hc
    unfold IsScalar
    omega

theorem utf32_to_utf8_exact (s : List Nat) (n : Nat) (e : utf32_to_utf8_len s 0 = .ok n) :
    ∃ out : List Nat, out.length = n ∧
      ∀ (pre mid suf : List Nat) (i : Nat), i = pre.length → mid.length = out.length →
        utf32_to_utf8_fill s (pre ++ (mid ++ suf)) i = pre ++ (out ++ suf) := by
  obtain ⟨hs, hn⟩ := utf32_to_utf8_accepted_scalars s 0 n e
  obtain ⟨r, hr, hr0⟩ := before_terminator_split s
  refine ⟨utf8_encode_all (before_terminator s), by omega, ?_⟩
  intro pre mid suf i hi hm
  have := utf32_to_utf8_fill_scalars (before_terminator s) r pre mid suf i hs hr0 hi hm
  rwa [← hr] at this

theorem utf8_to_utf32_exact (b : List Nat) (n : Nat) (blk0 : List Nat) (i0 : Nat)
    (buf0 : List Nat) (e1 : utf8_to_utf32_len b 0 = .ok n)
    (e2 : utf8_to_utf32_fill b 0 blk0 i0 = .ok buf0) :
    ∃ cs : List Nat, (∀ c ∈ cs, IsScalar c) ∧ before_terminator b = utf8_encode_all cs ∧
      4 * cs.length = n ∧
      ∀ (pre mid suf : List Nat) (i : Nat), i = pre.length → mid.length = cs.length →
        utf8_to_utf32_fill b 0 (pre ++ (mid ++ suf)) i = .ok (pre ++ (cs ++ suf)) := by
  obtain ⟨cs, hs, hb⟩ := utf8_to_utf32_accept_inv 4 4 4 4 b 0 n blk0 i0 buf0 e1 e2
  obtain ⟨r, hr, hr0⟩ := before_terminator_split b
  rw [hb] at hr
  refine ⟨cs, hs, hb, ?_, ?_⟩
  · have := utf8_to_utf32_len_encode_all cs r 0 hs hr0
    rw [← hr, e1] at this
    simp only [Except.ok.injEq] at this
    omega
  · intro pre mid suf i hi hm
    have := utf8_to_utf32_fill_encode_all cs r pre mid suf i hs hr0 hi hm
    rwa [← hr] at this

theorem utf8_to_utf16_exact (b : List Nat) (n : Nat) (blk0 : List Nat) (i0 : Nat)
    (buf0 : List Nat) (e1 : utf8_to_utf16_len b 0 = .ok n)
    (e2 : utf8_to_utf16_fill b 0 blk0 i0 = .ok buf0) :
    ∃ cs : List Nat, (∀ c ∈ cs, IsScalar c) ∧ before_terminator b = utf8_encode_all cs ∧
      2 * (utf16_encode_all cs).length = n ∧
      ∀ (pre mid suf : List Nat) (i : Nat), i = pre.length →
        mid.length = (utf16_encode_all cs).length →
        utf8_to_utf16_fill b 0 (pre ++ (mid ++ suf)) i
          = .ok (pre ++ (utf16_encode_all cs ++ suf)) := by
  obtain ⟨cs, hs, hb⟩ := utf8_to_utf16_accept_inv 2 2 2 4 b 0 n blk0 i0 buf0 e1 e2
  obtain ⟨r, hr, hr0⟩ := before_terminator_split b
  rw [hb] at hr
  refine ⟨cs, hs, hb, ?_, ?_⟩
  · have := utf8_to_utf16_len_encode_all cs r 0 hs hr0
    rw [← hr, e1] at this
    simp only [Except.ok.injEq] at this
    omega
  · intro pre mid suf i hi hm
    have := utf8_to_utf16_fill_encode_all cs r pre mid suf i hs hr0 hi hm
    rwa [← hr] at this

/-! ## What a successful call did -/

theorem utf16_to_utf8_succeeded (malloc : Nat → Option (List Nat)) (s : List Nat)
    (h : (utf16_to_utf8 malloc s).2 = 0) :
    ∃ len blk, utf16_to_utf8_len s 0 = .ok len ∧ malloc (len + 1) = some blk ∧
      utf16_to_utf8 malloc s
        = (some ((utf16_to_utf8_fill s blk 0).1.set (utf16_to_utf8_fill s blk 0).2 0), 0) := by
  cases e1 : utf16_to_utf8_len s 0 with
  | error st =>
    have := utf16_to_utf8_len_error s 0 st e1
    simp only [utf16_to_utf8, e1] at h
    omega
  | ok n =>
    cases e2 : malloc (n + 1) with
    | none => simp [utf16_to_utf8, e1, e2] at h
    | some blk => exact ⟨n, blk, rfl, e2, by simp only [utf16_to_utf8, e1, e2]⟩

theorem utf32_to_utf8_succeeded (malloc : Nat → Option (List Nat)) (s : List Nat)
    (h : (utf32_to_utf8 malloc s).2 = 0) :
    ∃ len blk, utf32_to_utf8_len s 0 = .ok len ∧ malloc (len + 1) = some blk ∧
      utf32_to_utf8 malloc s = (some (utf32_to_utf8_fill s blk 0), 0) := by
  cases e1 : utf32_to_utf8_len s 0 with
  | error st =>
    have := utf32_to_utf8_len_error s 0 st e1
    simp only [utf32_to_utf8, e1] at h
    omega
  | ok n =>
    cases e2 : malloc (n + 1) with
    | none => simp [utf32_to_utf8, e1, e2] at h
    | some blk => exact ⟨n, blk, rfl, e2, by simp only [utf32_to_utf8, e1, e2]⟩

theorem utf8_to_utf16_succeeded (malloc : Nat → Option (List Nat)) (s : List Nat)
    (h : (utf8_to_utf16 malloc s).2 = 0) :
    ∃ len blk buf, utf8_to_utf16_len s 0 = .ok len ∧ malloc (len + 2) = some blk ∧
      utf8_to_utf16_fill s 0 blk 0 = .ok buf ∧ utf8_to_utf16 malloc s = (some buf, 0) := by
  cases e1 : utf8_to_utf16_len s 0 with
  | error st =>
    have := utf8_len_error 2 2 2 4 s 0 st e1
    simp only [utf8_to_utf16, e1] at h
    omega
  | ok n =>
    cases e2 : malloc (n + 2) with
    | none => simp [utf8_to_utf16, e1, e2] at h
    | some blk =>
      cases e3 : utf8_to_utf16_fill s 0 blk 0 with
      | error st =>
        have := utf8_to_utf16_fill_error s 0 blk 0 st e3
        simp only [utf8_to_utf16, e1, e2, e3] at h
        omega
      | ok buf => exact ⟨n, blk, buf, rfl, e2, e3, by simp only [utf8_to_utf16, e1, e2, e3]⟩

theorem utf8_to_utf32_succeeded (malloc : Nat → Option (List Nat)) (s : List Nat)
    (h : (utf8_to_utf32 malloc s).2 = 0) :
    ∃ len blk buf, utf8_to_utf32_len s 0 = .ok len ∧ malloc (len + 4) = some blk ∧
      utf8_to_utf32_fill s 0 blk 0 = .ok buf ∧ utf8_to_utf32 malloc s = (some buf, 0) := by
  cases e1 : utf8_to_utf32_len s 0 with
  | error st =>
    have := utf8_len_error 4 4 4 4 s 0 st e1
    simp only [utf8_to_utf32, e1] at h
    omega
  | ok n =>
    cases e2 : malloc (n + 4) with
    | none => simp [utf8_to_utf32, e1, e2] at h
    | some blk =>
      cases e3 : utf8_to_utf32_fill s 0 blk 0 with
      | error st =>
        have := utf8_to_utf32_fill_error s 0 blk 0 st e3
        simp only [utf8_to_utf32, e1, e2, e3] at h
        omega
      | ok buf => exact ⟨n, blk, buf, rfl, e2, e3, by simp only [utf8_to_utf32, e1, e2, e3]⟩

theorem allocates_ne_none (unit : Nat) (malloc : Nat → Option (List Nat))
    (h : Allocates unit malloc) : ∀ n, malloc n ≠ none := by
  intro n
  obtain ⟨blk, hb, _⟩ := h n
  simp [hb]

theorem utf8_decoders_of_violation (malloc16 malloc32 : Nat → Option (List Nat))
    (h16 : ∀ n, malloc16 n ≠ none) (h32 : ∀ n, malloc32 n ≠ none) (b : List Nat) (st : Nat)
    (hv : utf8_violations b = [st]) (hst : 4 ≤ st) :
    utf8_to_utf16 malloc16 b = (none, st) ∧ utf8_to_utf32 malloc32 b = (none, st) := by
  have e16 := utf8_to_utf16_status malloc16 h16 b
  have e32 := utf8_to_utf32_status malloc32 h32 b
  rw [hv, utf8_reported_single st hst] at e16 e32
  exact ⟨utf8_to_utf16_failed malloc16 b st e16 (by omega),
    utf8_to_utf32_failed malloc32 b st e32 (by omega)⟩

theorem utf8_decoders_single2 (malloc16 malloc32 : Nat → Option (List Nat))
    (h16 : ∀ n, malloc16 n ≠ none) (h32 : ∀ n, malloc32 n ≠ none) (c0 c1 : Nat)
    (r : List Nat) (h0 : 0xC0 ≤ c0) (h0' : c0 ≤ 0xDF) (h1 : IsContinuation c1)
    (hr : r.headD 0 = 0) (hv : utf8_value2 c0 c1 < 0x80) :
    utf8_to_utf16 malloc16 (c0 :: c1 :: r) = (none, 6) ∧
      utf8_to_utf32 malloc32 (c0 :: c1 :: r) = (none, 6) := by
  apply utf8_decoders_of_violation malloc16 malloc32 h16 h32 _ 6 _ (by omega)
  rw [utf8_violations_single2 c0 c1 r h0 h0' h1 hr, if_pos hv]

theorem utf8_decoders_single3 (malloc16 malloc32 : Nat → Option (List Nat))
    (h16 : ∀ n, malloc16 n ≠ none) (h32 : ∀ n, malloc32 n ≠ none) (c0 c1 c2 : Nat)
    (r : List Nat) (h0 : 0xE0 ≤ c0) (h0' : c0 ≤ 0xEF) (h1 : IsContinuation c1)
    (h2 : IsContinuation c2) (hr : r.headD 0 = 0) :
    (utf8_value3 c0 c1 c2 < 0x800 →
      utf8_to_utf16 malloc16 (c0 :: c1 :: c2 :: r) = (none, 6) ∧
        utf8_to_utf32 malloc32 (c0 :: c1 :: c2 :: r) = (none, 6)) ∧
    (0xD800 ≤ utf8_value3 c0 c1 c2 ∧ utf8_value3 c0 c1 c2 ≤ 0xDFFF →
      utf8_to_utf16 malloc16 (c0 :: c1 :: c2 :: r) = (none, 4) ∧
        utf8_to_utf32 malloc32 (c0 :: c1 :: c2 :: r) = (none, 4)) := by
  have hv := utf8_violations_single3 c0 c1 c2 r h0 h0' h1 h2 hr
  constructor
  · intro h
    apply utf8_decoders_of_violation malloc16 malloc32 h16 h32 _ 6 _ (by omega)
    rw [hv, if_pos h]
  · intro h
    apply utf8_decoders_of_violation malloc16 malloc32 h16 h32 _ 4 _ (by omega)
    rw [hv, if_neg (by omega), if_pos h]

theorem utf8_decoders_single4 (malloc16 malloc32 : Nat → Option (List Nat))
    (h16 : ∀ n, malloc16 n ≠ none) (h32 : ∀ n, malloc32 n ≠ none) (c0 c1 c2 c3 : Nat)
    (r : List Nat) (h0 : 0xF0 ≤ c0) (h0' : c0 ≤ 0xF7) (h1 : IsContinuation c1)
    (h2 : IsContinuation c2) (h3 : IsContinuation c3) (hr : r.headD 0 = 0) :
    (utf8_value4 c0 c1 c2 c3 < 0x10000 →
      utf8_to_utf16 malloc16 (c0 :: c1 :: c2 :: c3 :: r) = (none, 6) ∧
        utf8_to_utf32 malloc32 (c0 :: c1 :: c2 :: c3 :: r) = (none, 6)) ∧
    (0x110000 ≤ utf8_value4 c0 c1 c2 c3 →
      utf8_to_utf16 malloc16 (c0 :: c1 :: c2 :: c3 :: r) = (none, 5) ∧
        utf8_to_utf32 malloc32 (c0 :: c1 :: c2 :: c3 :: r) = (none, 5)) := by
  have hv := utf8_violations_single4 c0 c1 c2 c3 r h0 h0' h1 h2 h3 hr
  constructor
  · intro h
    apply utf8_decoders_of_violation malloc16 malloc32 h16 h32 _ 6 _ (by omega)
    rw [hv, if_pos h]
  · intro h
    apply utf8_decoders_of_violation malloc16 malloc32 h16 h32 _ 5 _ (by omega)
    rw [hv, if_neg (by omega), if_pos h]

/-- The status of a call on an input made of one two-byte sequence: 6 or 0. -/
theorem utf8_decoders_single2_status (malloc16 malloc32 : Nat → Option (List Nat))
    (h16 : ∀ n, malloc16 n ≠ none) (h32 : ∀ n, malloc32 n ≠ none) (c0 c1 : Nat)
    (r : List Nat) (h0 : 0xC0 ≤ c0) (h0' : c0 ≤ 0xDF) (h1 : IsContinuation c1)
    (hr : r.headD 0 = 0) :
    (utf8_to_utf16 malloc16 (c0 :: c1 :: r)).2 ≠ 4 ∧
      (utf8_to_utf32 malloc32 (c0 :: c1 :: r)).2 ≠ 4 := by
  have e16 := utf8_to_utf16_status malloc16 h16 (c0 :: c1 :: r)
  have e32 := utf8_to_utf32_status malloc32 h32 (c0 :: c1 :: r)
  rw [utf8_violations_single2 c0 c1 r h0 h0' h1 hr] at e16 e32
  rw [e16, e32]
  split_ifs <;> decide

/-! ## The block a successful call returns -/

theorem sized_of_allocates (unit : Nat) (malloc : Nat → Option (List Nat))
    (h : Allocates unit malloc) : SizedBlocks unit malloc := by
  intro n blk e
  obtain ⟨blk1, e1, hl⟩ := h n
  rw [e] at e1
  cases e1
  exact hl

theorem sized_malloc_filled (unit fill : Nat) : SizedBlocks unit (malloc_filled unit fill) := by
  intro n blk e
  simp only [malloc_filled, Option.some.injEq] at e
  rw [← e, List.length_replicate]

theorem utf8_to_utf32_measured (malloc : Nat → Option (List Nat)) (hsz : SizedBlocks 4 malloc)
    (b : List Nat) (h : (utf8_to_utf32 malloc b).2 = 0) :
    ∃ cs blk, (∀ c ∈ cs, IsScalar c) ∧ before_terminator b = utf8_encode_all cs ∧
      utf8_to_utf32_len b 0 = .ok (4 * cs.length) ∧
      malloc (4 * cs.length + 4) = some blk ∧ blk.length = cs.length + 1 ∧
      (∀ blk1 : List Nat, cs.length ≤ blk1.length →
        utf8_to_utf32_fill b 0 blk1 0 = .ok (cs ++ blk1.drop cs.length)) ∧
      utf8_to_utf32 malloc b = (some (cs ++ blk.drop cs.length), 0) := by
  obtain ⟨len, blk, buf, e1, e2, e3, e4⟩ := utf8_to_utf32_succeeded malloc b h
  obtain ⟨cs, hs, hb, hn, hfill⟩ := utf8_to_utf32_exact b len blk 0 buf e1 e3
  subst hn
  have hl := hsz _ _ e2
  have hl1 : blk.length = cs.length + 1 := by omega
  have hall : ∀ blk1 : List Nat, cs.length ≤ blk1.length →
      utf8_to_utf32_fill b 0 blk1 0 = .ok (cs ++ blk1.drop cs.length) := by
    intro blk1 h1
    obtain ⟨mid, hm, hml⟩ := take_append_drop_of_le blk1 cs.length h1
    have := hfill [] mid (blk1.drop cs.length) 0 rfl hml
    simp only [List.nil_append] at this
    rwa [← hm] at this
  refine ⟨cs, blk, hs, hb, e1, e2, hl1, hall, ?_⟩
  rw [e4]
  have := hall blk (by omega)
  rw [e3] at this
  simp only [Except.ok.injEq] at this
  rw [this]

theorem utf8_to_utf16_measured (malloc : Nat → Option (List Nat)) (hsz : SizedBlocks 2 malloc)
    (b : List Nat) (h : (utf8_to_utf16 malloc b).2 = 0) :
    ∃ cs blk, (∀ c ∈ cs, IsScalar c) ∧ before_terminator b = utf8_encode_all cs ∧
      utf8_to_utf16_len b 0 = .ok (2 * (utf16_encode_all cs).length) ∧
      malloc (2 * (utf16_encode_all cs).length + 2) = some blk ∧
      blk.length = (utf16_encode_all cs).length + 1 ∧
      (∀ blk1 : List Nat, (utf16_encode_all cs).length ≤ blk1.length →
        utf8_to_utf16_fill b 0 blk1 0
          = .ok (utf16_encode_all cs ++ blk1.drop (utf16_encode_all cs).length)) ∧
      utf8_to_utf16 malloc b
        = (some (utf16_encode_all cs ++ blk.drop (utf16_encode_all cs).length), 0) := by
  obtain ⟨len, blk, buf, e1, e2, e3, e4⟩ := utf8_to_utf16_succeeded malloc b h
  obtain ⟨cs, hs, hb, hn, hfill⟩ := utf8_to_utf16_exact b len blk 0 buf e1 e3
  subst hn
  have hl := hsz _ _ e2
  have hl1 : blk.length = (utf16_encode_all cs).length + 1 := by omega
  have hall : ∀ blk1 : List Nat, (utf16_encode_all cs).length ≤ blk1.length →
      utf8_to_utf16_fill b 0 blk1 0
        = .ok (utf16_encode_all cs ++ blk1.drop (utf16_encode_all cs).length) := by
    intro blk1 h1
    obtain ⟨mid, hm, hml⟩ := take_append_drop_of_le blk1 (utf16_encode_all cs).length h1
    have := hfill [] mid (blk1.drop (utf16_encode_all cs).length) 0 rfl hml
    simp only [List.nil_append] at this
    rwa [← hm] at this
  refine ⟨cs, blk, hs, hb, e1, e2, hl1, hall, ?_⟩
  rw [e4]
  have := hall blk (by omega)
  rw [e3] at this
  simp only [Except.ok.injEq] at this
  rw [this]

theorem utf32_to_utf8_measured (malloc : Nat → Option (List Nat)) (hsz : SizedBlocks 1 malloc)
    (s : List Nat) (h : (utf32_to_utf8 malloc s).2 = 0) :
    ∃ out blk, out = utf8_encode_all (before_terminator s) ∧
      (∀ c ∈ before_terminator s, IsScalar c) ∧
      utf32_to_utf8_len s 0 = .ok out.length ∧
      malloc (out.length + 1) = some blk ∧ blk.length = out.length + 1 ∧
      (∀ blk1 : List Nat, out.length ≤ blk1.length →
        utf32_to_utf8_fill s blk1 0 = out ++ blk1.drop out.length) ∧
      utf32_to_utf8 malloc s = (some (out ++ blk.drop out.length), 0) := by
  obtain ⟨len, blk, e1, e2, e4⟩ := utf32_to_utf8_succeeded malloc s h
  obtain ⟨hs, hn⟩ := utf32_to_utf8_accepted_scalars s 0 len e1
  obtain ⟨r, hr, hr0⟩ := before_terminator_split s
  have hn1 : len = (utf8_encode_all (before_terminator s)).length := by omega
  subst hn1
  have hl := hsz _ _ e2
  have hl1 : blk.length = (utf8_encode_all (before_terminator s)).length + 1 := by
    rw [hl]; simp
  have hall : ∀ blk1 : List Nat, (utf8_encode_all (before_terminator s)).length ≤ blk1.length →
      utf32_to_utf8_fill s blk1 0 = utf8_encode_all (before_terminator s)
        ++ blk1.drop (utf8_encode_all (before_terminator s)).length := by
    intro blk1 h1
    obtain ⟨mid, hm, hml⟩ :=
      take_append_drop_of_le blk1 (utf8_encode_all (before_terminator s)).length h1
    have := utf32_to_utf8_fill_scalars (before_terminator s) r [] mid
      (blk1.drop (utf8_encode_all (before_terminator s)).length) 0 hs hr0 rfl hml
    simp only [List.nil_append] at this
    rwa [← hr, ← hm] at this
  refine ⟨_, blk, rfl, hs, e1, e2, hl1, hall, ?_⟩
  rw [e4, hall blk (by omega)]

theorem utf16_to_utf8_measured (malloc : Nat → Option (List Nat)) (hsz : SizedBlocks 1 malloc)
    (s : List Nat) (h : (utf16_to_utf8 malloc s).2 = 0) :
    ∃ out blk,
      utf16_to_utf8_len s 0 = .ok out.length ∧
      malloc (out.length + 1) = some blk ∧ blk.length = out.length + 1 ∧
      (∀ blk1 : List Nat, out.length ≤ blk1.length →
        utf16_to_utf8_fill s blk1 0 = (out ++ blk1.drop out.length, out.length)) ∧
      utf16_to_utf8 malloc s = (some (out ++ [0]), 0) := by
  obtain ⟨len, blk, e1, e2, e4⟩ := utf16_to_utf8_succeeded malloc s h
  obtain ⟨out, hn, hfill⟩ := utf16_to_utf8_exact s 0 len e1
  have hn1 : len = out.length := by omega
  subst hn1
  have hl := hsz _ _ e2
  have hl1 : blk.length = out.length + 1 := by rw [hl]; simp
  have hall : ∀ blk1 : List Nat, out.length ≤ blk1.length →
      utf16_to_utf8_fill s blk1 0 = (out ++ blk1.drop out.length, out.length) := by
    intro blk1 h1
    obtain ⟨mid, hm, hml⟩ := take_append_drop_of_le blk1 out.length h1
    have := hfill [] mid (blk1.drop out.length) 0 rfl hml
    simp only [List.nil_append, Nat.zero_add] at this
    rwa [← hm] at this
  refine ⟨out, blk, e1, e2, hl1, hall, ?_⟩
  rw [e4, hall blk (by omega)]
  obtain ⟨x, hx⟩ : ∃ x, blk.drop out.length = [x] := by
    have : (blk.drop out.length).length = 1 := by simp; omega
    match hd : blk.drop out.length, this with
    | [x], _ => exact ⟨x, rfl⟩
  simp only [hx]
  rw [List.set_append_right _ _ (le_refl _)]
  simp

theorem wellFormedUtf16_ne_zero (s : List Nat) : WellFormedUtf16 s → ∀ u ∈ s, u ≠ 0 := by
  induction s using WellFormedUtf16.induct with
  | case1 => intro _ u hu; simp at hu
  | case2 c0 r0 hc ih =>
    intro hw u hu
    rw [WellFormedUtf16.eq_def] at hw
    simp only [hc, if_true] at hw
    rcases List.mem_cons.mp hu with rfl | hu
    · exact hw.1
    · exact ih hw.2.2 u hu
  | case3 c0 hc =>
    intro hw
    rw [WellFormedUtf16, if_neg hc] at hw
    exact hw.elim
  | case4 c0 hc c1 r1 ih =>
    intro hw u hu
    rw [WellFormedUtf16, if_neg hc] at hw
    rcases List.mem_cons.mp hu with rfl | hu
    · omega
    · rcases List.mem_cons.mp hu with rfl | hu
      · omega
      · exact ih hw.2.2 u hu

/-! ## The claims, continued -/

/-- Claim C11 (lone high surrogate). For every UTF-16 input made of a
well-formed prefix (possibly empty) followed by a single high surrogate (a unit
in [0xD800, 0xDBFF]) immediately followed by the terminator, and for every
allocator, `utf16_to_utf8` returns no buffer and status 2. -/
theorem lone_high_surrogate_rejected (malloc : Nat → Option (List Nat)) (pre : List Nat)
    (h : Nat) (r : List Nat) (hw : WellFormedUtf16 pre) (h1 : 0xD800 ≤ h) (h2 : h ≤ 0xDBFF)
    (hr : r.headD 0 = 0) : utf16_to_utf8 malloc (pre ++ h :: r) = (none, 2) :=
  utf16_to_utf8_lone_high malloc pre h r hw h1 h2 hr

theorem lone_high_surrogate_rejected_witness :
    WellFormedUtf16 [0x41, 0xD83F, 0xDC0F] ∧ 0xD800 ≤ 0xDBFF ∧ 0xDBFF ≤ 0xDBFF ∧
    ([0] : List Nat).headD 0 = 0 ∧
    utf16_to_utf8 (malloc_filled 1 0xAA) ([0x41, 0xD83F, 0xDC0F] ++ 0xDBFF :: [0]) = (none, 2) :=
  ⟨by simp [WellFormedUtf16], by decide, by decide, rfl,
    lone_high_surrogate_rejected (malloc_filled 1 0xAA) [0x41, 0xD83F, 0xDC0F] 0xDBFF [0]
      (by simp [WellFormedUtf16]) (by decide) (by decide) rfl⟩

/-- Claim C12 (UTF-32 validation). For every sequence of units and every
allocator that succeeds, `utf32_to_utf8` returns status 0 if and only if every
unit before the first zero is below 0x110000 and outside [0xD800, 0xDFFF];
otherwise it returns no buffer, with status 1 when the first offending unit is
in [0xD800, 0xDFFF] and status 2 when it is 0x110000 or more. -/
theorem utf32_to_utf8_validation (malloc : Nat → Option (List Nat))
    (hm : ∀ n, malloc n ≠ none) (s : List Nat) :
    ((utf32_to_utf8 malloc s).2 = 0 ↔
      ∀ u ∈ before_terminator s, u < 0x110000 ∧ ¬ (0xD800 ≤ u ∧ u ≤ 0xDFFF)) ∧
    (utf32_first_offending s = none ↔
      ∀ u ∈ before_terminator s, u < 0x110000 ∧ ¬ (0xD800 ≤ u ∧ u ≤ 0xDFFF)) ∧
    (∀ u, utf32_first_offending s = some u → 0xD800 ≤ u ∧ u ≤ 0xDFFF →
      utf32_to_utf8 malloc s = (none, 1)) ∧
    (∀ u, utf32_first_offending s = some u → 0x110000 ≤ u →
      utf32_to_utf8 malloc s = (none, 2)) := by
  have hl := utf32_to_utf8_len_offending s 0
  refine ⟨?_, utf32_first_offending_none s, ?_, ?_⟩
  · rw [← utf32_first_offending_none s]
    cases ho : utf32_first_offending s with
    | some u =>
      rw [ho] at hl
      simp only [utf32_to_utf8, hl, reduceCtorEq, iff_false]
      split_ifs <;> simp
    | none =>
      rw [ho] at hl
      simp only [utf32_to_utf8, hl, iff_true]
      cases hb : malloc (0 + (utf8_encode_all (before_terminator s)).length + 1) with
      | none => exact absurd hb (hm _)
      | some blk => rfl
  · intro u ho hu
    rw [ho] at hl
    simp only [utf32_to_utf8, hl, hu, and_self, if_true]
  · intro u ho hu
    rw [ho] at hl
    have k : ¬ (0xD800 ≤ u ∧ u ≤ 0xDFFF) := by omega
    simp only [utf32_to_utf8, hl, k, if_false]

theorem utf32_to_utf8_validation_witness :
    (∀ n, malloc_filled 1 0xAA n ≠ none) ∧
    (((utf32_to_utf8 (malloc_filled 1 0xAA) [0x41, 0x110000, 0xD800, 0]).2 = 0 ↔
      ∀ u ∈ before_terminator [0x41, 0x110000, 0xD800, 0],
        u < 0x110000 ∧ ¬ (0xD800 ≤ u ∧ u ≤ 0xDFFF)) ∧
    (utf32_first_offending [0x41, 0x110000, 0xD800, 0] = none ↔
      ∀ u ∈ before_terminator [0x41, 0x110000, 0xD800, 0],
        u < 0x110000 ∧ ¬ (0xD800 ≤ u ∧ u ≤ 0xDFFF)) ∧
    (∀ u, utf32_first_offending [0x41, 0x110000, 0xD800, 0] = some u →
      0xD800 ≤ u ∧ u ≤ 0xDFFF →
      utf32_to_utf8 (malloc_filled 1 0xAA) [0x41, 0x110000, 0xD800, 0] = (none, 1)) ∧
    (∀ u, utf32_first_offending [0x41, 0x110000, 0xD800, 0] = some u → 0x110000 ≤ u →
      utf32_to_utf8 (malloc_filled 1 0xAA) [0x41, 0x110000, 0xD800, 0] = (none, 2))) :=
  ⟨fun _ => by simp [malloc_filled],
    utf32_to_utf8_validation (malloc_filled 1 0xAA) (fun _ => by simp [malloc_filled])
      [0x41, 0x110000, 0xD800, 0]⟩


/-- Claim C13 (overlong rejection). With allocators that succeed, both
`utf8_to_utf16` and `utf8_to_utf32` return no buffer and status 6 on the input
C0 80 0, and more generally on every input that is a single structurally valid
2-, 3- or 4-byte sequence (lead byte in 0xC0..0xDF, 0xE0..0xEF, 0xF0..0xF7,
followed by one, two, three bytes in 0x80..0xBF, then the terminator) whose
decoded value is below 0x80, 0x800, 0x10000 respectively. -/
theorem overlong_rejected (malloc16 malloc32 : Nat → Option (List Nat))
    (h16 : ∀ n, malloc16 n ≠ none) (h32 : ∀ n, malloc32 n ≠ none) :
    (utf8_to_utf16 malloc16 [0xC0, 0x80, 0] = (none, 6) ∧
      utf8_to_utf32 malloc32 [0xC0, 0x80, 0] = (none, 6)) ∧
    (∀ (c0 c1 : Nat) (r : List Nat), 0xC0 ≤ c0 → c0 ≤ 0xDF → IsContinuation c1 →
      r.headD 0 = 0 → utf8_value2 c0 c1 < 0x80 →
      utf8_to_utf16 malloc16 (c0 :: c1 :: r) = (none, 6) ∧
        utf8_to_utf32 malloc32 (c0 :: c1 :: r) = (none, 6)) ∧
    (∀ (c0 c1 c2 : Nat) (r : List Nat), 0xE0 ≤ c0 → c0 ≤ 0xEF → IsContinuation c1 →
      IsContinuation c2 → r.headD 0 = 0 → utf8_value3 c0 c1 c2 < 0x800 →
      utf8_to_utf16 malloc16 (c0 :: c1 :: c2 :: r) = (none, 6) ∧
        utf8_to_utf32 malloc32 (c0 :: c1 :: c2 :: r) = (none, 6)) ∧
    (∀ (c0 c1 c2 c3 : Nat) (r : List Nat), 0xF0 ≤ c0 → c0 ≤ 0xF7 → IsContinuation c1 →
      IsContinuation c2 → IsContinuation c3 → r.headD 0 = 0 →
      utf8_value4 c0 c1 c2 c3 < 0x10000 →
      utf8_to_utf16 malloc16 (c0 :: c1 :: c2 :: c3 :: r) = (none, 6) ∧
        utf8_to_utf32 malloc32 (c0 :: c1 :: c2 :: c3 :: r) = (none, 6)) := by
  refine ⟨?_, ?_, ?_, ?_⟩
  · exact utf8_decoders_single2 malloc16 malloc32 h16 h32 0xC0 0x80 [0] (by decide) (by decide)
      ⟨by decide, by decide⟩ rfl (by decide)
  · intro c0 c1 r h0 h0' h1 hr hv
    exact utf8_decoders_single2 malloc16 malloc32 h16 h32 c0 c1 r h0 h0' h1 hr hv
  · intro c0 c1 c2 r h0 h0' h1 h2 hr hv
    exact (utf8_decoders_single3 malloc16 malloc32 h16 h32 c0 c1 c2 r h0 h0' h1 h2 hr).1 hv
  · intro c0 c1 c2 c3 r h0 h0' h1 h2 h3 hr hv
    exact (utf8_decoders_single4 malloc16 malloc32 h16 h32 c0 c1 c2 c3 r h0 h0' h1 h2 h3 hr).1
      hv

/-- An instance: the allocators that fill fresh blocks with 0xAA. -/
theorem overlong_rejected_witness :
    ((∀ n, malloc_filled 2 0xAA n ≠ none) ∧ (∀ n, malloc_filled 4 0xAA n ≠ none)) ∧
    (utf8_to_utf16 (malloc_filled 2 0xAA) [0xC0, 0x80, 0] = (none, 6) ∧
      utf8_to_utf32 (malloc_filled 4 0xAA) [0xC0, 0x80, 0] = (none, 6)) :=
  ⟨⟨(fun _ h => nomatch h), (fun _ h => nomatch h)⟩,
    (overlong_rejected (malloc_filled 2 0xAA) (malloc_filled 4 0xAA)
      (fun _ h => nomatch h) (fun _ h => nomatch h)).1⟩

/-- Claim C14 (upper-bound rejection). With allocators that succeed, on every
input that is a single 4-byte sequence (lead byte in 0xF0..0xF7, then three
bytes in 0x80..0xBF, then the terminator) whose decoded value, built from the
low three bits of the lead byte and the low six bits of each following byte, is
0x110000 or greater, both `utf8_to_utf16` and `utf8_to_utf32` return no buffer
and status 5. -/
theorem codepoint_too_large_rejected (malloc16 malloc32 : Nat → Option (List Nat))
    (h16 : ∀ n, malloc16 n ≠ none) (h32 : ∀ n, malloc32 n ≠ none) (c0 c1 c2 c3 : Nat)
    (r : List Nat) (h0 : 0xF0 ≤ c0) (h0' : c0 ≤ 0xF7) (h1 : IsContinuation c1)
    (h2 : IsContinuation c2) (h3 : IsContinuation c3) (hr : r.headD 0 = 0)
    (hv : 0x110000 ≤ utf8_value4 c0 c1 c2 c3) :
    utf8_to_utf16 malloc16 (c0 :: c1 :: c2 :: c3 :: r) = (none, 5) ∧
      utf8_to_utf32 malloc32 (c0 :: c1 :: c2 :: c3 :: r) = (none, 5) :=
  (utf8_decoders_single4 malloc16 malloc32 h16 h32 c0 c1 c2 c3 r h0 h0' h1 h2 h3 hr).2 hv

/-- An instance: F4 90 80 80, the 4-byte form of 0x110000. -/
theorem codepoint_too_large_rejected_witness :
    utf8_value4 0xF4 0x90 0x80 0x80 = 0x110000 ∧
    utf8_to_utf16 (malloc_filled 2 0xAA) [0xF4, 0x90, 0x80, 0x80, 0] = (none, 5) ∧
      utf8_to_utf32 (malloc_filled 4 0xAA) [0xF4, 0x90, 0x80, 0x80, 0] = (none, 5) :=
  ⟨by decide,
    codepoint_too_large_rejected (malloc_filled 2 0xAA) (malloc_filled 4 0xAA)
      (fun _ h => nomatch h) (fun _ h => nomatch h) 0xF4 0x90 0x80 0x80 [0]
      (by decide) (by decide) ⟨by decide, by decide⟩ ⟨by decide, by decide⟩
      ⟨by decide, by decide⟩ rfl (by decide)⟩

/-- Claim C15 (overlong beats surrogate). With allocators that succeed, for
inputs that are a single structurally valid sequence followed by the
terminator: a 3-byte sequence decoding into [0xD800,0xDFFF] gives no buffer and
status 4 in both decoders; a 4-byte sequence decoding into [0xD800,0xDFFF]
(hence below 0x10000, an overlong form) gives no buffer and status 6; and an
overlong sequence is never reported as 4: a 2-byte or a 4-byte sequence never
gives status 4 at all, and a 3-byte sequence decoding below 0x800 does not. -/
theorem overlong_beats_surrogate (malloc16 malloc32 : Nat → Option (List Nat))
    (h16 : ∀ n, malloc16 n ≠ none) (h32 : ∀ n, malloc32 n ≠ none) :
    (∀ (c0 c1 c2 : Nat) (r : List Nat), 0xE0 ≤ c0 → c0 ≤ 0xEF → IsContinuation c1 →
      IsContinuation c2 → r.headD 0 = 0 →
      0xD800 ≤ utf8_value3 c0 c1 c2 ∧ utf8_value3 c0 c1 c2 ≤ 0xDFFF →
      utf8_to_utf16 malloc16 (c0 :: c1 :: c2 :: r) = (none, 4) ∧
        utf8_to_utf32 malloc32 (c0 :: c1 :: c2 :: r) = (none, 4)) ∧
    (∀ (c0 c1 c2 c3 : Nat) (r : List Nat), 0xF0 ≤ c0 → c0 ≤ 0xF7 → IsContinuation c1 →
      IsContinuation c2 → IsContinuation c3 → r.headD 0 = 0 →
      0xD800 ≤ utf8_value4 c0 c1 c2 c3 ∧ utf8_value4 c0 c1 c2 c3 ≤ 0xDFFF →
      utf8_to_utf16 malloc16 (c0 :: c1 :: c2 :: c3 :: r) = (none, 6) ∧
        utf8_to_utf32 malloc32 (c0 :: c1 :: c2 :: c3 :: r) = (none, 6)) ∧
    (∀ (c0 c1 : Nat) (r : List Nat), 0xC0 ≤ c0 → c0 ≤ 0xDF → IsContinuation c1 →
      r.headD 0 = 0 →
      (utf8_to_utf16 malloc16 (c0 :: c1 :: r)).2 ≠ 4 ∧
        (utf8_to_utf32 malloc32 (c0 :: c1 :: r)).2 ≠ 4) ∧
    (∀ (c0 c1 c2 : Nat) (r : List Nat), 0xE0 ≤ c0 → c0 ≤ 0xEF → IsContinuation c1 →
      IsContinuation c2 → r.headD 0 = 0 → utf8_value3 c0 c1 c2 < 0x800 →
      (utf8_to_utf16 malloc16 (c0 :: c1 :: c2 :: r)).2 ≠ 4 ∧
        (utf8_to_utf32 malloc32 (c0 :: c1 :: c2 :: r)).2 ≠ 4) ∧
    (∀ (c0 c1 c2 c3 : Nat) (r : List Nat), 0xF0 ≤ c0 → c0 ≤ 0xF7 → IsContinuation c1 →
      IsContinuation c2 → IsContinuation c3 → r.headD 0 = 0 →
      (utf8_to_utf16 malloc16 (c0 :: c1 :: c2 :: c3 :: r)).2 ≠ 4 ∧
        (utf8_to_utf32 malloc32 (c0 :: c1 :: c2 :: c3 :: r)).2 ≠ 4) := by
  refine ⟨?_, ?_, ?_, ?_, ?_⟩
  · intro c0 c1 c2 r h0 h0' h1 h2 hr hv
    exact (utf8_decoders_single3 malloc16 malloc32 h16 h32 c0 c1 c2 r h0 h0' h1 h2 hr).2 hv
  · intro c0 c1 c2 c3 r h0 h0' h1 h2 h3 hr hv
    exact (utf8_decoders_single4 malloc16 malloc32 h16 h32 c0 c1 c2 c3 r h0 h0' h1 h2 h3 hr).1
      (by omega)
  · intro c0 c1 r h0 h0' h1 hr
    exact utf8_decoders_single2_status malloc16 malloc32 h16 h32 c0 c1 r h0 h0' h1 hr
  · intro c0 c1 c2 r h0 h0' h1 h2 hr hv
    have h := (utf8_decoders_single3 malloc16 malloc32 h16 h32 c0 c1 c2 r h0 h0' h1 h2 hr).1
      hv
    rw [h.1, h.2]
    exact ⟨by decide, by decide⟩
  · intro c0 c1 c2 c3 r h0 h0' h1 h2 h3 hr
    have e16 := utf8_to_utf16_status malloc16 h16 (c0 :: c1 :: c2 :: c3 :: r)
    have e32 := utf8_to_utf32_status malloc32 h32 (c0 :: c1 :: c2 :: c3 :: r)
    rw [utf8_violations_single4 c0 c1 c2 c3 r h0 h0' h1 h2 h3 hr] at e16 e32
    rw [e16, e32]
    split_ifs <;> decide

/-- An instance: ED A0 80 decodes to 0xD800 and gives status 4, while
F0 8D A0 80 decodes to 0xD800 as well and gives status 6. -/
theorem overlong_beats_surrogate_witness :
    ((∀ n, malloc_filled 2 0xAA n ≠ none) ∧ (∀ n, malloc_filled 4 0xAA n ≠ none)) ∧
    utf8_value3 0xED 0xA0 0x80 = 0xD800 ∧ utf8_value4 0xF0 0x8D 0xA0 0x80 = 0xD800 ∧
    (utf8_to_utf16 (malloc_filled 2 0xAA) [0xED, 0xA0, 0x80, 0] = (none, 4) ∧
      utf8_to_utf32 (malloc_filled 4 0xAA) [0xED, 0xA0, 0x80, 0] = (none, 4)) ∧
    (utf8_to_utf16 (malloc_filled 2 0xAA) [0xF0, 0x8D, 0xA0, 0x80, 0] = (none, 6) ∧
      utf8_to_utf32 (malloc_filled 4 0xAA) [0xF0, 0x8D, 0xA0, 0x80, 0] = (none, 6)) :=
  ⟨⟨(fun _ h => nomatch h), (fun _ h => nomatch h)⟩, by decide, by decide,
    (overlong_beats_surrogate (malloc_filled 2 0xAA) (malloc_filled 4 0xAA)
      (fun _ h => nomatch h) (fun _ h => nomatch h)).1 0xED 0xA0 0x80 [0] (by decide)
      (by decide) ⟨by decide, by decide⟩ ⟨by decide, by decide⟩ rfl
      ⟨by decide, by decide⟩,
    (overlong_beats_surrogate (malloc_filled 2 0xAA) (malloc_filled 4 0xAA)
      (fun _ h => nomatch h) (fun _ h => nomatch h)).2.1 0xF0 0x8D 0xA0 0x80 [0] (by decide)
      (by decide) ⟨by decide, by decide⟩ ⟨by decide, by decide⟩ ⟨by decide, by decide⟩ rfl
      ⟨by decide, by decide⟩⟩

/-- Claim C16 (exact output length). For allocators whose blocks have the
requested size, and for each of the four routines: on every input on which the
routine returns status 0 there is a list `out` of destination units such that
the measuring pass returned `out.length` times the unit size in bytes (1, 2, 1,
4), the block that was allocated has `out.length + 1` units, and the
materializing pass, run on any block of at least `out.length` units, stores
`out` into the cells 0 .. `out.length - 1` and leaves every other cell as it
was. So every write index is below the measured unit count, every cell below it
is written, and the one remaining cell of the block is the terminator slot
(which only `utf16_to_utf8` then stores a zero to, see C3). -/
theorem measured_length_is_exact (malloc8 malloc16 malloc32 : Nat → Option (List Nat))
    (h8 : SizedBlocks 1 malloc8) (h16 : SizedBlocks 2 malloc16)
    (h32 : SizedBlocks 4 malloc32) :
    (∀ s : List Nat, (utf16_to_utf8 malloc8 s).2 = 0 →
      ∃ out blk, utf16_to_utf8_len s 0 = .ok (1 * out.length) ∧
        malloc8 (1 * out.length + 1) = some blk ∧ blk.length = out.length + 1 ∧
        (∀ blk1 : List Nat, out.length ≤ blk1.length →
          utf16_to_utf8_fill s blk1 0 = (out ++ blk1.drop out.length, out.length)) ∧
        utf16_to_utf8 malloc8 s = (some (out ++ [0]), 0)) ∧
    (∀ s : List Nat, (utf8_to_utf16 malloc16 s).2 = 0 →
      ∃ out blk, utf8_to_utf16_len s 0 = .ok (2 * out.length) ∧
        malloc16 (2 * out.length + 2) = some blk ∧ blk.length = out.length + 1 ∧
        (∀ blk1 : List Nat, out.length ≤ blk1.length →
          utf8_to_utf16_fill s 0 blk1 0 = .ok (out ++ blk1.drop out.length)) ∧
        utf8_to_utf16 malloc16 s = (some (out ++ blk.drop out.length), 0)) ∧
    (∀ s : List Nat, (utf32_to_utf8 malloc8 s).2 = 0 →
      ∃ out blk, utf32_to_utf8_len s 0 = .ok (1 * out.length) ∧
        malloc8 (1 * out.length + 1) = some blk ∧ blk.length = out.length + 1 ∧
        (∀ blk1 : List Nat, out.length ≤ blk1.length →
          utf32_to_utf8_fill s blk1 0 = out ++ blk1.drop out.length) ∧
        utf32_to_utf8 malloc8 s = (some (out ++ blk.drop out.length), 0)) ∧
    (∀ s : List Nat, (utf8_to_utf32 malloc32 s).2 = 0 →
      ∃ out blk, utf8_to_utf32_len s 0 = .ok (4 * out.length) ∧
        malloc32 (4 * out.length + 4) = some blk ∧ blk.length = out.length + 1 ∧
        (∀ blk1 : List Nat, out.length ≤ blk1.length →
          utf8_to_utf32_fill s 0 blk1 0 = .ok (out ++ blk1.drop out.length)) ∧
        utf8_to_utf32 malloc32 s = (some (out ++ blk.drop out.length), 0)) := by
  refine ⟨?_, ?_, ?_, ?_⟩
  · intro s h
    obtain ⟨out, blk, e1, e2, hl, hall, e⟩ := utf16_to_utf8_measured malloc8 h8 s h
    exact ⟨out, blk, by rwa [Nat.one_mul], by rwa [Nat.one_mul], hl, hall, e⟩
  · intro s h
    obtain ⟨cs, blk, _, _, e1, e2, hl, hall, e⟩ := utf8_to_utf16_measured malloc16 h16 s h
    exact ⟨utf16_encode_all cs, blk, e1, e2, hl, hall, e⟩
  · intro s h
    obtain ⟨out, blk, _, _, e1, e2, hl, hall, e⟩ := utf32_to_utf8_measured malloc8 h8 s h
    exact ⟨out, blk, by rwa [Nat.one_mul], by rwa [Nat.one_mul], hl, hall, e⟩
  · intro s h
    obtain ⟨cs, blk, _, _, e1, e2, hl, hall, e⟩ := utf8_to_utf32_measured malloc32 h32 s h
    exact ⟨cs, blk, e1, e2, hl, hall, e⟩

/-- An instance: the allocators that fill fresh blocks with 0xAA, and
`utf8_to_utf16` on the bytes of U+1F600 followed by "A". -/
theorem measured_length_is_exact_witness :
    (SizedBlocks 1 (malloc_filled 1 0xAA) ∧ SizedBlocks 2 (malloc_filled 2 0xAA) ∧
      SizedBlocks 4 (malloc_filled 4 0xAA)) ∧
    (utf8_to_utf16 (malloc_filled 2 0xAA) [0xF0, 0x9F, 0x98, 0x80, 0x41, 0]).2 = 0 ∧
    ∃ out blk, utf8_to_utf16_len [0xF0, 0x9F, 0x98, 0x80, 0x41, 0] 0 = .ok (2 * out.length) ∧
      malloc_filled 2 0xAA (2 * out.length + 2) = some blk ∧ blk.length = out.length + 1 ∧
      (∀ blk1 : List Nat, out.length ≤ blk1.length →
        utf8_to_utf16_fill [0xF0, 0x9F, 0x98, 0x80, 0x41, 0] 0 blk1 0
          = .ok (out ++ blk1.drop out.length)) ∧
      utf8_to_utf16 (malloc_filled 2 0xAA) [0xF0, 0x9F, 0x98, 0x80, 0x41, 0]
        = (some (out ++ blk.drop out.length), 0) :=
  ⟨⟨sized_malloc_filled 1 0xAA, sized_malloc_filled 2 0xAA, sized_malloc_filled 4 0xAA⟩,
    by decide,
    (measured_length_is_exact (malloc_filled 1 0xAA) (malloc_filled 2 0xAA)
      (malloc_filled 4 0xAA) (sized_malloc_filled 1 0xAA) (sized_malloc_filled 2 0xAA)
      (sized_malloc_filled 4 0xAA)).2.1 [0xF0, 0x9F, 0x98, 0x80, 0x41, 0] (by decide)⟩

/-- Claim C17 (the two UTF-8 decoders agree). For allocators that succeed and
every byte sequence `b`, `utf8_to_utf16` and `utf8_to_utf32` return the same
status; and when that status is 0 there is a list `cs` of scalar values such
that `utf8_to_utf32` wrote exactly `cs` and `utf8_to_utf16` wrote exactly the
UTF-16 encoding of `cs`: each `c < 0x10000` as the unit `c`, each
`c >= 0x10000` as the pair `0xD800 + ((c-0x10000)>>10)`,
`0xDC00 + ((c-0x10000)&0x3FF)`. -/
theorem utf8_decoders_agree (malloc16 malloc32 : Nat → Option (List Nat))
    (h16 : Allocates 2 malloc16) (h32 : Allocates 4 malloc32) (b : List Nat) :
    (utf8_to_utf16 malloc16 b).2 = (utf8_to_utf32 malloc32 b).2 ∧
    ((utf8_to_utf32 malloc32 b).2 = 0 →
      ∃ cs blk16 blk32 : List Nat, (∀ c ∈ cs, IsScalar c) ∧
        blk32.length = cs.length + 1 ∧
        utf8_to_utf32 malloc32 b = (some (cs ++ blk32.drop cs.length), 0) ∧
        blk16.length = (utf16_encode_all cs).length + 1 ∧
        utf8_to_utf16 malloc16 b
          = (some (utf16_encode_all cs ++ blk16.drop (utf16_encode_all cs).length), 0)) := by
  constructor
  · rw [utf8_to_utf16_status malloc16 (allocates_ne_none 2 malloc16 h16) b,
      utf8_to_utf32_status malloc32 (allocates_ne_none 4 malloc32 h32) b]
  · intro h
    obtain ⟨cs, blk32, hs, hb, _, _, hl, _, e⟩ :=
      utf8_to_utf32_measured malloc32 (sized_of_allocates 4 malloc32 h32) b h
    obtain ⟨r, hr, hr0⟩ := before_terminator_split b
    rw [hb] at hr
    obtain ⟨blk16, _, hl16, e16⟩ := utf8_to_utf16_encoded malloc16 h16 cs r hs hr0
    rw [← hr] at e16
    exact ⟨cs, blk16, blk32, hs, hl, e, hl16, e16⟩

/-- An instance: the bytes of "A", U+20AC and U+1F600. -/
theorem utf8_decoders_agree_witness :
    (Allocates 2 (malloc_filled 2 0xAA) ∧ Allocates 4 (malloc_filled 4 0xAA)) ∧
    (utf8_to_utf16 (malloc_filled 2 0xAA) [0x41, 0xE2, 0x82, 0xAC, 0xF0, 0x9F, 0x98, 0x80, 0]).2
      = (utf8_to_utf32 (malloc_filled 4 0xAA)
          [0x41, 0xE2, 0x82, 0xAC, 0xF0, 0x9F, 0x98, 0x80, 0]).2 ∧
    utf8_to_utf32 (malloc_filled 4 0xAA) [0x41, 0xE2, 0x82, 0xAC, 0xF0, 0x9F, 0x98, 0x80, 0]
      = (some [0x41, 0x20AC, 0x1F600, 0xAA], 0) ∧
    utf8_to_utf16 (malloc_filled 2 0xAA) [0x41, 0xE2, 0x82, 0xAC, 0xF0, 0x9F, 0x98, 0x80, 0]
      = (some [0x41, 0x20AC, 0xD83D, 0xDE00, 0xAA], 0) :=
  ⟨⟨allocates_malloc_filled 2 0xAA, allocates_malloc_filled 4 0xAA⟩,
    (utf8_decoders_agree (malloc_filled 2 0xAA) (malloc_filled 4 0xAA)
      (allocates_malloc_filled 2 0xAA) (allocates_malloc_filled 4 0xAA)
      [0x41, 0xE2, 0x82, 0xAC, 0xF0, 0x9F, 0x98, 0x80, 0]).1,
    by decide, by decide⟩

/-- Claim C18 (only scalar values are produced). For an allocator whose blocks
have the requested size and every input on which `utf8_to_utf32` returns status
0, the units it writes are a list `cs` stored in the first `cs.length` cells of
the block of `cs.length + 1` units, and every unit of `cs` is in [1, 0x10FFFF]
and outside [0xD800, 0xDFFF]: no zero, no surrogate and no value of 0x110000 or
more is written. -/
theorem utf8_to_utf32_writes_scalars (malloc : Nat → Option (List Nat))
    (hsz : SizedBlocks 4 malloc) (b : List Nat) (h : (utf8_to_utf32 malloc b).2 = 0) :
    ∃ cs blk : List Nat, blk.length = cs.length + 1 ∧
      (∀ blk1 : List Nat, cs.length ≤ blk1.length →
        utf8_to_utf32_fill b 0 blk1 0 = .ok (cs ++ blk1.drop cs.length)) ∧
      utf8_to_utf32 malloc b = (some (cs ++ blk.drop cs.length), 0) ∧
      ∀ c ∈ cs, (1 ≤ c ∧ c ≤ 0x10FFFF) ∧ ¬ (0xD800 ≤ c ∧ c ≤ 0xDFFF) ∧ c ≠ 0 ∧
        ¬ 0x110000 ≤ c := by
  obtain ⟨cs, blk, hs, _, _, _, hl, hall, e⟩ := utf8_to_utf32_measured malloc hsz b h
  refine ⟨cs, blk, hl, hall, e, ?_⟩
  intro c hc
  have := hs c hc
  unfold IsScalar at this
  omega

/-- An instance: the bytes of U+FFFF and U+10FFFF. -/
theorem utf8_to_utf32_writes_scalars_witness :
    SizedBlocks 4 (malloc_filled 4 0xAA) ∧
    (utf8_to_utf32 (malloc_filled 4 0xAA) [0xEF, 0xBF, 0xBF, 0xF4, 0x8F, 0xBF, 0xBF, 0]).2 = 0 ∧
    ∃ cs blk : List Nat, blk.length = cs.length + 1 ∧
      (∀ blk1 : List Nat, cs.length ≤ blk1.length →
        utf8_to_utf32_fill [0xEF, 0xBF, 0xBF, 0xF4, 0x8F, 0xBF, 0xBF, 0] 0 blk1 0
          = .ok (cs ++ blk1.drop cs.length)) ∧
      utf8_to_utf32 (malloc_filled 4 0xAA) [0xEF, 0xBF, 0xBF, 0xF4, 0x8F, 0xBF, 0xBF, 0]
        = (some (cs ++ blk.drop cs.length), 0) ∧
      ∀ c ∈ cs, (1 ≤ c ∧ c ≤ 0x10FFFF) ∧ ¬ (0xD800 ≤ c ∧ c ≤ 0xDFFF) ∧ c ≠ 0 ∧
        ¬ 0x110000 ≤ c :=
  ⟨sized_malloc_filled 4 0xAA, by decide,
    utf8_to_utf32_writes_scalars (malloc_filled 4 0xAA) (sized_malloc_filled 4 0xAA)
      [0xEF, 0xBF, 0xBF, 0xF4, 0x8F, 0xBF, 0xBF, 0] (by decide)⟩

/-- Round trip 8 -> 16 -> 8 with the terminator in place. For every byte
sequence `b` on which `utf8_to_utf16` returns status 0, the units it writes are
a well-formed, zero-free UTF-16 sequence `units`, stored in the first cells of
its block of `units.length + 1` units, and `utf16_to_utf8` applied to these
units followed by a zero unit returns status 0 and the bytes of `b` before its
terminator, followed by a zero. The bytes of `b` are recovered from `units`
alone (as the UTF-8 encoding of the scalar values of `units`), so
`utf8_to_utf16` is injective on accepted inputs. `utf8_to_utf16` does not store
to the cell after the units, so this covers the buffer it returns only when
the allocator left a zero there. -/
theorem roundtrip_utf8_utf16_utf8_terminated (malloc16 malloc8 : Nat → Option (List Nat))
    (h16 : SizedBlocks 2 malloc16) (h8 : Allocates 1 malloc8) (b : List Nat)
    (h : (utf8_to_utf16 malloc16 b).2 = 0) :
    ∃ units blk16 : List Nat, blk16.length = units.length + 1 ∧
      utf8_to_utf16 malloc16 b = (some (units ++ blk16.drop units.length), 0) ∧
      WellFormedUtf16 units ∧ (∀ u ∈ units, u ≠ 0) ∧
      utf8_encode_all (utf16_decode units) = before_terminator b ∧
      ∀ r : List Nat, r.headD 0 = 0 →
        utf16_to_utf8 malloc8 (units ++ r) = (some (before_terminator b ++ [0]), 0) := by
  obtain ⟨cs, blk, hs, hb, _, _, hl, _, e⟩ := utf8_to_utf16_measured malloc16 h16 b h
  obtain ⟨hw, hd⟩ := utf16_encode_all_wf cs hs
  refine ⟨utf16_encode_all cs, blk, hl, e, hw, ?_, by rw [hd, hb], ?_⟩
  · exact wellFormedUtf16_ne_zero (utf16_encode_all cs) hw
  · intro r hr
    rw [utf16_to_utf8_wf malloc8 h8 (utf16_encode_all cs) r hw hr, hd, hb]

/-- An instance: the bytes of "A" and U+1F600. -/
theorem roundtrip_utf8_utf16_utf8_terminated_witness :
    (SizedBlocks 2 (malloc_filled 2 0xAA) ∧ Allocates 1 (malloc_filled 1 0xAA)) ∧
    (utf8_to_utf16 (malloc_filled 2 0xAA) [0x41, 0xF0, 0x9F, 0x98, 0x80, 0]).2 = 0 ∧
    ∃ units blk16 : List Nat, blk16.length = units.length + 1 ∧
      utf8_to_utf16 (malloc_filled 2 0xAA) [0x41, 0xF0, 0x9F, 0x98, 0x80, 0]
        = (some (units ++ blk16.drop units.length), 0) ∧
      WellFormedUtf16 units ∧ (∀ u ∈ units, u ≠ 0) ∧
      utf8_encode_all (utf16_decode units)
        = before_terminator [0x41, 0xF0, 0x9F, 0x98, 0x80, 0] ∧
      ∀ r : List Nat, r.headD 0 = 0 →
        utf16_to_utf8 (malloc_filled 1 0xAA) (units ++ r)
          = (some (before_terminator [0x41, 0xF0, 0x9F, 0x98, 0x80, 0] ++ [0]), 0) :=
  ⟨⟨sized_malloc_filled 2 0xAA, allocates_malloc_filled 1 0xAA⟩, by decide,
    roundtrip_utf8_utf16_utf8_terminated (malloc_filled 2 0xAA) (malloc_filled 1 0xAA)
      (sized_malloc_filled 2 0xAA) (allocates_malloc_filled 1 0xAA)
      [0x41, 0xF0, 0x9F, 0x98, 0x80, 0] (by decide)⟩

/-- Claim C19 (reverse round trip 8 -> 16 -> 8), evaluated where it fails. On
the bytes of "A" and U+1F600, `utf8_to_utf16` returns status 0 and the units
41 D83D DE00 followed by the cell as the allocator left it (here 0xAAAA, then
0xDC00): it stores no terminator (line 364). `utf16_to_utf8` applied to the
buffer so returned reads that cell as a unit: in the first case it returns
status 0 and the bytes of `b` followed by three extra bytes EA AA AA, in the
second it returns no buffer and status 1. Applied to the same units followed
by a zero, it returns exactly the bytes of `b` and the terminator. -/
theorem roundtrip_utf8_utf16_utf8_on_returned_buffer :
    utf8_to_utf16 (malloc_filled 2 0xAAAA) [0x41, 0xF0, 0x9F, 0x98, 0x80, 0]
      = (some [0x41, 0xD83D, 0xDE00, 0xAAAA], 0) ∧
    utf16_to_utf8 (malloc_filled 1 0xAA) [0x41, 0xD83D, 0xDE00, 0xAAAA]
      = (some [0x41, 0xF0, 0x9F, 0x98, 0x80, 0xEA, 0xAA, 0xAA, 0], 0) ∧
    utf8_to_utf16 (malloc_filled 2 0xDC00) [0x41, 0xF0, 0x9F, 0x98, 0x80, 0]
      = (some [0x41, 0xD83D, 0xDE00, 0xDC00], 0) ∧
    utf16_to_utf8 (malloc_filled 1 0xAA) [0x41, 0xD83D, 0xDE00, 0xDC00] = (none, 1) ∧
    utf16_to_utf8 (malloc_filled 1 0xAA) [0x41, 0xD83D, 0xDE00, 0]
      = (some [0x41, 0xF0, 0x9F, 0x98, 0x80, 0], 0) := by
  decide

/-- Round trip 32 -> 8 -> 32 with the terminator in place. For every sequence
`u` of scalar values (each in [1, 0x10FFFF] and outside [0xD800, 0xDFFF], hence
zero-free) and allocators that succeed, `utf32_to_utf8` on `u` followed by a
terminator returns status 0 and writes the bytes `bytes` into the first cells
of its block of `bytes.length + 1` bytes, and `utf8_to_utf32` applied to these
bytes followed by a zero byte returns status 0 and writes exactly `u` into the
first cells of its block of `u.length + 1` units. `utf32_to_utf8` does not
store to the cell after the bytes, so this covers the buffer it returns only
when the allocator left a zero there. -/
theorem roundtrip_utf32_utf8_utf32_terminated (malloc8 malloc32 : Nat → Option (List Nat))
    (h8 : Allocates 1 malloc8) (h32 : Allocates 4 malloc32) (u : List Nat)
    (hs : ∀ c ∈ u, IsScalar c) :
    ∃ bytes blk8 blk32,
      malloc8 (bytes.length + 1) = some blk8 ∧ blk8.length = bytes.length + 1 ∧
      (∀ r : List Nat, r.headD 0 = 0 →
        utf32_to_utf8 malloc8 (u ++ r) = (some (bytes ++ blk8.drop bytes.length), 0)) ∧
      malloc32 (4 * u.length + 4) = some blk32 ∧ blk32.length = u.length + 1 ∧
      ∀ r : List Nat, r.headD 0 = 0 →
        utf8_to_utf32 malloc32 (bytes ++ r) = (some (u ++ blk32.drop u.length), 0) := by
  obtain ⟨blk8, hb8, hl8, _⟩ := utf32_to_utf8_scalars malloc8 h8 u [] hs rfl
  obtain ⟨blk32, hb32, hl32, _⟩ := utf8_to_utf32_encoded malloc32 h32 u [] hs rfl
  refine ⟨utf8_encode_all u, blk8, blk32, hb8, hl8, ?_, hb32, hl32, ?_⟩
  · intro r hr
    obtain ⟨blk, hb, _, e⟩ := utf32_to_utf8_scalars malloc8 h8 u r hs hr
    rw [hb8] at hb
    cases hb
    exact e
  · intro r hr
    obtain ⟨blk, hb, _, e⟩ := utf8_to_utf32_encoded malloc32 h32 u r hs hr
    rw [hb32] at hb
    cases hb
    exact e

/-- An instance: the scalar values "A", U+E9, U+20AC and U+1F600. -/
theorem roundtrip_utf32_utf8_utf32_terminated_witness :
    (Allocates 1 (malloc_filled 1 0xAA) ∧ Allocates 4 (malloc_filled 4 0xAA)) ∧
    (∀ c ∈ [0x41, 0xE9, 0x20AC, 0x1F600], IsScalar c) ∧
    ∃ bytes blk8 blk32,
      malloc_filled 1 0xAA (bytes.length + 1) = some blk8 ∧
      blk8.length = bytes.length + 1 ∧
      (∀ r : List Nat, r.headD 0 = 0 →
        utf32_to_utf8 (malloc_filled 1 0xAA) ([0x41, 0xE9, 0x20AC, 0x1F600] ++ r)
          = (some (bytes ++ blk8.drop bytes.length), 0)) ∧
      malloc_filled 4 0xAA (4 * [0x41, 0xE9, 0x20AC, 0x1F600].length + 4) = some blk32 ∧
      blk32.length = [0x41, 0xE9, 0x20AC, 0x1F600].length + 1 ∧
      ∀ r : List Nat, r.headD 0 = 0 →
        utf8_to_utf32 (malloc_filled 4 0xAA) (bytes ++ r)
          = (some ([0x41, 0xE9, 0x20AC, 0x1F600]
              ++ blk32.drop [0x41, 0xE9, 0x20AC, 0x1F600].length), 0) :=
  ⟨⟨allocates_malloc_filled 1 0xAA, allocates_malloc_filled 4 0xAA⟩, by decide,
    roundtrip_utf32_utf8_utf32_terminated (malloc_filled 1 0xAA) (malloc_filled 4 0xAA)
      (allocates_malloc_filled 1 0xAA) (allocates_malloc_filled 4 0xAA)
      [0x41, 0xE9, 0x20AC, 0x1F600] (by decide)⟩

/-- Claim C20 (reverse round trip 32 -> 8 -> 32), evaluated where it fails.
On the scalar values "A", U+E9, U+20AC and U+1F600, `utf32_to_utf8` returns
status 0 and their ten bytes followed by the cell as the allocator left it
(here 0xAA, then 0x42): it stores no terminator (line 464). `utf8_to_utf32`
applied to the buffer so returned reads that cell as a byte: in the first case
it returns no buffer and status 1 (malformed), in the second it returns status
0 and the units of `u` followed by an extra unit 0x42. Applied to the same
bytes followed by a zero, it writes exactly `u`. -/
theorem roundtrip_utf32_utf8_utf32_on_returned_buffer :
    utf32_to_utf8 (malloc_filled 1 0xAA) [0x41, 0xE9, 0x20AC, 0x1F600, 0]
      = (some [0x41, 0xC3, 0xA9, 0xE2, 0x82, 0xAC, 0xF0, 0x9F, 0x98, 0x80, 0xAA], 0) ∧
    utf8_to_utf32 (malloc_filled 4 0xAAAAAAAA)
        [0x41, 0xC3, 0xA9, 0xE2, 0x82, 0xAC, 0xF0, 0x9F, 0x98, 0x80, 0xAA] = (none, 1) ∧
    utf32_to_utf8 (malloc_filled 1 0x42) [0x41, 0xE9, 0x20AC, 0x1F600, 0]
      = (some [0x41, 0xC3, 0xA9, 0xE2, 0x82, 0xAC, 0xF0, 0x9F, 0x98, 0x80, 0x42], 0) ∧
    utf8_to_utf32 (malloc_filled 4 0xAAAAAAAA)
        [0x41, 0xC3, 0xA9, 0xE2, 0x82, 0xAC, 0xF0, 0x9F, 0x98, 0x80, 0x42]
      = (some [0x41, 0xE9, 0x20AC, 0x1F600, 0x42, 0xAAAAAAAA], 0) ∧
    utf8_to_utf32 (malloc_filled 4 0xAAAAAAAA)
        [0x41, 0xC3, 0xA9, 0xE2, 0x82, 0xAC, 0xF0, 0x9F, 0x98, 0x80, 0]
      = (some [0x41, 0xE9, 0x20AC, 0x1F600, 0xAAAAAAAA], 0) := by
  decide

/-! ## The runs of the two passes over UTF-8 input -/

theorem utf8_len_widths_step1 (c0 : Nat) (r ws : List Nat) (h0 : c0 ≠ 0) (h1 : c0 < 0x80) :
    utf8_len_widths (c0 :: r) ws = utf8_len_widths r (ws ++ [1]) := by
  rw [utf8_len_widths.eq_def]
  simp only [h0, h1, if_true, if_false]

theorem utf8_len_widths_step2 (c0 c1 : Nat) (r ws : List Nat) (h0 : 0xC0 ≤ c0)
    (h0' : c0 < 0xE0) (h1 : 0x80 ≤ c1) (h1' : c1 < 0xC0) :
    utf8_len_widths (c0 :: c1 :: r) ws = utf8_len_widths r (ws ++ [2]) := by
  have a1 : c0 ≠ 0 := by omega
  have a2 : ¬ c0 < 0x80 := by omega
  have a3 : ¬ c0 < 0xC0 := by omega
  have b1 : c1 ≠ 0 := by omega
  have b2 : ¬ (c1 < 0x80 ∨ c1 ≥ 0xC0) := by omega
  rw [utf8_len_widths.eq_def]
  simp only [a1, a2, a3, h0', b1, b2, if_true, if_false]

theorem utf8_len_widths_step3 (c0 c1 c2 : Nat) (r ws : List Nat) (h0 : 0xE0 ≤ c0)
    (h0' : c0 < 0xF0) (h1 : 0x80 ≤ c1) (h1' : c1 < 0xC0) (h2 : 0x80 ≤ c2) (h2' : c2 < 0xC0) :
    utf8_len_widths (c0 :: c1 :: c2 :: r) ws = utf8_len_widths r (ws ++ [3]) := by
  have a1 : c0 ≠ 0 := by omega
  have a2 : ¬ c0 < 0x80 := by omega
  have a3 : ¬ c0 < 0xC0 := by omega
  have a4 : ¬ c0 < 0xE0 := by omega
  have b1 : c1 ≠ 0 := by omega
  have b2 : ¬ (c1 < 0x80 ∨ c1 ≥ 0xC0) := by omega
  have d1 : c2 ≠ 0 := by omega
  have d2 : ¬ (c2 < 0x80 ∨ c2 ≥ 0xC0) := by omega
  rw [utf8_len_widths.eq_def]
  simp only [a1, a2, a3, a4, h0', b1, b2, d1, d2, if_true, if_false]

theorem utf8_len_widths_step4 (c0 c1 c2 c3 : Nat) (r ws : List Nat) (h0 : 0xF0 ≤ c0)
    (h0' : c0 < 0xF8) (h1 : 0x80 ≤ c1) (h1' : c1 < 0xC0) (h2 : 0x80 ≤ c2) (h2' : c2 < 0xC0)
    (h3 : 0x80 ≤ c3) (h3' : c3 < 0xC0) :
    utf8_len_widths (c0 :: c1 :: c2 :: c3 :: r) ws = utf8_len_widths r (ws ++ [4]) := by
  have a1 : c0 ≠ 0 := by omega
  have a2 : ¬ c0 < 0x80 := by omega
  have a3 : ¬ c0 < 0xC0 := by omega
  have a4 : ¬ c0 < 0xE0 := by omega
  have a5 : ¬ c0 < 0xF0 := by omega
  have b1 : c1 ≠ 0 := by omega
  have b2 : ¬ (c1 < 0x80 ∨ c1 ≥ 0xC0) := by omega
  have d1 : c2 ≠ 0 := by omega
  have d2 : ¬ (c2 < 0x80 ∨ c2 ≥ 0xC0) := by omega
  have e1 : c3 ≠ 0 := by omega
  have e2 : ¬ (c3 < 0x80 ∨ c3 ≥ 0xC0) := by omega
  rw [utf8_len_widths.eq_def]
  simp only [a1, a2, a3, a4, a5, h0', b1, b2, d1, d2, e1, e2, if_true, if_false]

/-- The measuring pass and its run return the same error statuses. -/
theorem utf8_len_widths_error (w1 w2 w3 w4 : Nat) (b : List Nat) (len : Nat) :
    ∀ (ws : List Nat) (st : Nat),
      utf8_len_widths b ws = .error st ↔ utf8_len w1 w2 w3 w4 b len = .error st := by
  induction b, len using utf8_len.induct w1 w2 w3 w4
  all_goals
    intro ws st
    rw [utf8_len_widths.eq_def, utf8_len.eq_def]
    simp only [*, if_true, if_false, reduceCtorEq, Except.error.injEq, iff_self]

theorem utf8_fill_trace_stop (r : List Nat) (pos : Nat) (ws rs : List Nat)
    (h : r.headD 0 = 0) : utf8_fill_trace r 0 pos ws rs = ⟨ws, rs ++ [pos], 0⟩ := by
  cases r with
  | nil => rfl
  | cons c t =>
    simp only [List.headD_cons] at h
    subst h
    rw [utf8_fill_trace]
    simp

theorem utf8_fill_trace_step1 (c0 : Nat) (r : List Nat) (pos : Nat) (ws rs : List Nat)
    (h0 : c0 ≠ 0) (h1 : c0 < 0x80) :
    utf8_fill_trace (c0 :: r) 0 pos ws rs
      = utf8_fill_trace r 0 (pos + 1) (ws ++ [1]) (rs ++ [pos]) := by
  rw [utf8_fill_trace]
  simp only [h0, h1, if_true, if_false]

theorem utf8_fill_trace_step2 (c0 c1 : Nat) (r : List Nat) (pos : Nat) (ws rs : List Nat)
    (h0 : 0x80 ≤ c0) (h0' : c0 < 0xE0) :
    utf8_fill_trace (c0 :: c1 :: r) 0 pos ws rs
      = if utf8_codepoint2 c0 c1 < 0x80 then ⟨ws, rs ++ [pos, pos + 1], 6⟩
        else utf8_fill_trace r 0 (pos + 2) (ws ++ [2]) (rs ++ [pos, pos + 1]) := by
  have a1 : c0 ≠ 0 := by omega
  have a2 : ¬ c0 < 0x80 := by omega
  rw [utf8_fill_trace]
  simp only [a1, a2, h0', if_true, if_false, List.getD_cons_zero]
  split_ifs
  · rfl
  · rw [utf8_fill_trace]

theorem utf8_fill_trace_step3 (c0 c1 c2 : Nat) (r : List Nat) (pos : Nat) (ws rs : List Nat)
    (h0 : 0xE0 ≤ c0) (h0' : c0 < 0xF0) :
    utf8_fill_trace (c0 :: c1 :: c2 :: r) 0 pos ws rs
      = if utf8_codepoint3 c0 c1 c2 < 0x800 then ⟨ws, rs ++ [pos, pos + 1, pos + 2], 6⟩
        else if utf8_codepoint3 c0 c1 c2 ≥ 0xD800 ∧ utf8_codepoint3 c0 c1 c2 < 0xE000 then
          ⟨ws, rs ++ [pos, pos + 1, pos + 2], 4⟩
        else utf8_fill_trace r 0 (pos + 3) (ws ++ [3]) (rs ++ [pos, pos + 1, pos + 2]) := by
  have a1 : c0 ≠ 0 := by omega
  have a2 : ¬ c0 < 0x80 := by omega
  have a3 : ¬ c0 < 0xE0 := by omega
  rw [utf8_fill_trace]
  simp only [a1, a2, a3, h0', if_true, if_false, List.getD_cons_zero, List.getD_cons_succ]
  split_ifs
  · rfl
  · rfl
  · rw [utf8_fill_trace, utf8_fill_trace]

theorem utf8_fill_trace_step4 (c0 c1 c2 c3 : Nat) (r : List Nat) (pos : Nat)
    (ws rs : List Nat) (h0 : 0xF0 ≤ c0) (h0' : c0 < 0xF8) :
    utf8_fill_trace (c0 :: c1 :: c2 :: c3 :: r) 0 pos ws rs
      = if utf8_codepoint4 c0 c1 c2 c3 < 0x10000 then
          ⟨ws, rs ++ [pos, pos + 1, pos + 2, pos + 3], 6⟩
        else if utf8_codepoint4 c0 c1 c2 c3 ≥ 0x110000 then
          ⟨ws, rs ++ [pos, pos + 1, pos + 2, pos + 3], 5⟩
        else
          utf8_fill_trace r 0 (pos + 4) (ws ++ [4]) (rs ++ [pos, pos + 1, pos + 2, pos + 3]) := by
  have a1 : c0 ≠ 0 := by omega
  have a2 : ¬ c0 < 0x80 := by omega
  have a3 : ¬ c0 < 0xE0 := by omega
  have a4 : ¬ c0 < 0xF0 := by omega
  rw [utf8_fill_trace]
  simp only [a1, a2, a3, a4, h0', if_true, if_false, List.getD_cons_zero, List.getD_cons_succ]
  split_ifs
  · rfl
  · rfl
  · rw [utf8_fill_trace, utf8_fill_trace, utf8_fill_trace]

/-- The status of the run is the status the materializing pass of
`utf8_to_utf16` returns. -/
theorem utf8_to_utf16_fill_status (b : List Nat) (k : Nat) (buf : List Nat) (i : Nat) :
    ∀ (pos : Nat) (ws rs : List Nat),
      (utf8_fill_trace b k pos ws rs).status
        = match utf8_to_utf16_fill b k buf i with
          | .ok _ => 0
          | .error st => st := by
  induction b, k, buf, i using utf8_to_utf16_fill.induct
  all_goals
    intro pos ws rs
    simp only [utf8_to_utf16_fill, utf8_fill_trace, *, and_self, if_true, if_false]

/-- The status of the run is the status the materializing pass of
`utf8_to_utf32` returns. -/
theorem utf8_to_utf32_fill_status (b : List Nat) (k : Nat) (buf : List Nat) (i : Nat) :
    ∀ (pos : Nat) (ws rs : List Nat),
      (utf8_fill_trace b k pos ws rs).status
        = match utf8_to_utf32_fill b k buf i with
          | .ok _ => 0
          | .error st => st := by
  induction b, k, buf, i using utf8_to_utf32_fill.induct
  all_goals
    intro pos ws rs
    simp only [utf8_to_utf32_fill, utf8_fill_trace, *, and_self, if_true, if_false]

theorem fill_trace_aborted (fs0 rs0 rd ws1 : List Nat) (st pos L : Nat) (h4 : 4 ≤ st)
    (h6 : st ≤ 6) (hrd : ∀ r ∈ rd, pos ≤ r ∧ r ≤ pos + L) :
    ∃ fs1 rs1, (FillTrace.mk fs0 (rs0 ++ rd) st).widths = fs0 ++ fs1 ∧
      (FillTrace.mk fs0 (rs0 ++ rd) st).reads = rs0 ++ rs1 ∧ fs1 <+: ws1 ∧
      ((FillTrace.mk fs0 (rs0 ++ rd) st).status = 0 → fs1 = ws1) ∧
      ((FillTrace.mk fs0 (rs0 ++ rd) st).status = 0 ∨
        (4 ≤ (FillTrace.mk fs0 (rs0 ++ rd) st).status ∧
          (FillTrace.mk fs0 (rs0 ++ rd) st).status ≤ 6)) ∧
      ∀ r ∈ rs1, pos ≤ r ∧ r ≤ pos + L := by
  refine ⟨[], rd, (List.append_nil fs0).symm, rfl, List.nil_prefix, ?_, Or.inr ⟨h4, h6⟩, hrd⟩
  intro h
  simp only at h
  omega

theorem fill_trace_continued (t : FillTrace) (fs0 rs0 rd ws1 : List Nat) (w pos L : Nat)
    (hrd : ∀ r ∈ rd, pos ≤ r ∧ r ≤ pos + (w + L))
    (h : ∃ fs1 rs1, t.widths = (fs0 ++ [w]) ++ fs1 ∧ t.reads = (rs0 ++ rd) ++ rs1 ∧
      fs1 <+: ws1 ∧ (t.status = 0 → fs1 = ws1) ∧
      (t.status = 0 ∨ (4 ≤ t.status ∧ t.status ≤ 6)) ∧
      ∀ r ∈ rs1, pos + w ≤ r ∧ r ≤ pos + w + L) :
    ∃ fs1 rs1, t.widths = fs0 ++ fs1 ∧ t.reads = rs0 ++ rs1 ∧ fs1 <+: w :: ws1 ∧
      (t.status = 0 → fs1 = w :: ws1) ∧ (t.status = 0 ∨ (4 ≤ t.status ∧ t.status ≤ 6)) ∧
      ∀ r ∈ rs1, pos ≤ r ∧ r ≤ pos + (w + L) := by
  obtain ⟨fs1, rs1, e1, e2, hp, h0, hs, hr⟩ := h
  refine ⟨w :: fs1, rd ++ rs1, ?_, ?_, ?_, ?_, hs, ?_⟩
  · rw [e1, List.append_assoc, List.singleton_append]
  · rw [e2, List.append_assoc]
  · exact (List.prefix_cons_inj w).mpr hp
  · intro h
    rw [h0 h]
  · intro r hr1
    rcases List.mem_append.mp hr1 with h | h
    · exact hrd r h
    · have := hr r h
      omega

/-- On an input the measuring pass accepts, the run of the materializing loop
started at a sequence boundary moves by the amounts the measuring pass moved
by, reads no byte after the terminator and is left with status 0, 4, 5 or 6. -/
theorem utf8_fill_trace_accepted (b : List Nat) (ws0 : List Nat) :
    ∀ ws, utf8_len_widths b ws0 = .ok ws →
      ∃ ws1, ws = ws0 ++ ws1 ∧ ws1.sum = (before_terminator b).length ∧
        (∀ w ∈ ws1, 1 ≤ w ∧ w ≤ 4) ∧
        ∀ (pos : Nat) (fs0 rs0 : List Nat), ∃ fs1 rs1,
          (utf8_fill_trace b 0 pos fs0 rs0).widths = fs0 ++ fs1 ∧
          (utf8_fill_trace b 0 pos fs0 rs0).reads = rs0 ++ rs1 ∧
          fs1 <+: ws1 ∧
          ((utf8_fill_trace b 0 pos fs0 rs0).status = 0 → fs1 = ws1) ∧
          ((utf8_fill_trace b 0 pos fs0 rs0).status = 0 ∨
            (4 ≤ (utf8_fill_trace b 0 pos fs0 rs0).status ∧
              (utf8_fill_trace b 0 pos fs0 rs0).status ≤ 6)) ∧
          ∀ r ∈ rs1, pos ≤ r ∧ r ≤ pos + (before_terminator b).length := by
  induction b, ws0 using utf8_len_widths.induct
  case case1 ws0 =>
    intro ws e
    rw [utf8_len_widths] at e
    simp only [Except.ok.injEq] at e
    refine ⟨[], by simp [e], rfl, by simp, ?_⟩
    intro pos fs0 rs0
    rw [utf8_fill_trace_stop [] pos fs0 rs0 rfl]
    exact ⟨[], [pos], by simp, rfl, List.prefix_refl _, fun _ => rfl, Or.inl rfl, by simp⟩
  case case2 r0 ws0 =>
    intro ws e
    rw [utf8_len_widths.eq_def] at e
    simp only [if_true, Except.ok.injEq] at e
    refine ⟨[], by simp [e], by simp [before_terminator], by simp, ?_⟩
    intro pos fs0 rs0
    rw [utf8_fill_trace_stop (0 :: r0) pos fs0 rs0 rfl]
    exact ⟨[], [pos], by simp, rfl, List.prefix_refl _, fun _ => rfl, Or.inl rfl, by simp⟩
  case case3 c0 r0 ws0 h0 h1 ih =>
    intro ws e
    rw [utf8_len_widths_step1 c0 r0 ws0 h0 h1] at e
    obtain ⟨ws1, e1, hsum, hw, ht⟩ := ih ws e
    have hb : (before_terminator (c0 :: r0)).length = 1 + (before_terminator r0).length := by
      simp only [before_terminator, h0, if_false, List.length_cons]
      omega
    refine ⟨1 :: ws1, by rw [e1, List.append_assoc, List.singleton_append], ?_, ?_, ?_⟩
    · rw [List.sum_cons, hsum, hb]
    · intro w hw1
      rcases List.mem_cons.mp hw1 with rfl | h
      · omega
      · exact hw w h
    · intro pos fs0 rs0
      rw [utf8_fill_trace_step1 c0 r0 pos fs0 rs0 h0 h1, hb]
      apply fill_trace_continued _ fs0 rs0 [pos] ws1 1 pos _ _ (ht (pos + 1) _ _)
      intro r hr
      simp only [List.mem_singleton] at hr
      omega
  case case8 c0 ws0 h0 h1 h2 h3 c1 r1 g0 g1 ih =>
    intro ws e
    rw [utf8_len_widths_step2 c0 c1 r1 ws0 (by omega) h3 (by omega) (by omega)] at e
    obtain ⟨ws1, e1, hsum, hw, ht⟩ := ih ws e
    have hb : (before_terminator (c0 :: c1 :: r1)).length
        = 2 + (before_terminator r1).length := by
      simp only [before_terminator, h0, g0, if_false, List.length_cons]
      omega
    refine ⟨2 :: ws1, by rw [e1, List.append_assoc, List.singleton_append], ?_, ?_, ?_⟩
    · rw [List.sum_cons, hsum, hb]
    · intro w hw1
      rcases List.mem_cons.mp hw1 with rfl | h
      · omega
      · exact hw w h
    · intro pos fs0 rs0
      have hrd : ∀ r ∈ [pos, pos + 1],
          pos ≤ r ∧ r ≤ pos + (2 + (before_terminator r1).length) := by
        intro r hr
        simp only [List.mem_cons, List.mem_singleton, List.not_mem_nil, or_false] at hr
        omega
      rw [utf8_fill_trace_step2 c0 c1 r1 pos fs0 rs0 (by omega) h3, hb]
      by_cases hc : utf8_codepoint2 c0 c1 < 0x80
      · rw [if_pos hc]
        exact fill_trace_aborted fs0 rs0 _ _ 6 pos _ (by omega) (by omega) hrd
      · rw [if_neg hc]
        exact fill_trace_continued _ fs0 rs0 _ ws1 2 pos _ hrd (ht (pos + 2) _ _)
  case case15 c0 ws0 h0 h1 h2 h3 h4 c1 g0 g1 c2 r2 k0 k1 ih =>
    intro ws e
    rw [utf8_len_widths_step3 c0 c1 c2 r2 ws0 (by omega) h4 (by omega) (by omega) (by omega)
      (by omega)] at e
    obtain ⟨ws1, e1, hsum, hw, ht⟩ := ih ws e
    have hb : (before_terminator (c0 :: c1 :: c2 :: r2)).length
        = 3 + (before_terminator r2).length := by
      simp only [before_terminator, h0, g0, k0, if_false, List.length_cons]
      omega
    refine ⟨3 :: ws1, by rw [e1, List.append_assoc, List.singleton_append], ?_, ?_, ?_⟩
    · rw [List.sum_cons, hsum, hb]
    · intro w hw1
      rcases List.mem_cons.mp hw1 with rfl | h
      · omega
      · exact hw w h
    · intro pos fs0 rs0
      have hrd : ∀ r ∈ [pos, pos + 1, pos + 2],
          pos ≤ r ∧ r ≤ pos + (3 + (before_terminator r2).length) := by
        intro r hr
        simp only [List.mem_cons, List.mem_singleton, List.not_mem_nil, or_false] at hr
        omega
      rw [utf8_fill_trace_step3 c0 c1 c2 r2 pos fs0 rs0 (by omega) h4, hb]
      by_cases hc : utf8_codepoint3 c0 c1 c2 < 0x800
      · rw [if_pos hc]
        exact fill_trace_aborted fs0 rs0 _ _ 6 pos _ (by omega) (by omega) hrd
      · rw [if_neg hc]
        by_cases hd : utf8_codepoint3 c0 c1 c2 ≥ 0xD800 ∧ utf8_codepoint3 c0 c1 c2 < 0xE000
        · rw [if_pos hd]
          exact fill_trace_aborted fs0 rs0 _ _ 4 pos _ (by omega) (by omega) hrd
        · rw [if_neg hd]
          exact fill_trace_continued _ fs0 rs0 _ ws1 3 pos _ hrd (ht (pos + 3) _ _)
  case case25 c0 ws0 h0 h1 h2 h3 h4 h5 c1 g0 g1 c2 k0 k1 c3 r3 m0 m1 ih =>
    intro ws e
    rw [utf8_len_widths_step4 c0 c1 c2 c3 r3 ws0 (by omega) h5 (by omega) (by omega)
      (by omega) (by omega) (by omega) (by omega)] at e
    obtain ⟨ws1, e1, hsum, hw, ht⟩ := ih ws e
    have hb : (before_terminator (c0 :: c1 :: c2 :: c3 :: r3)).length
        = 4 + (before_terminator r3).length := by
      simp only [before_terminator, h0, g0, k0, m0, if_false, List.length_cons]
      omega
    refine ⟨4 :: ws1, by rw [e1, List.append_assoc, List.singleton_append], ?_, ?_, ?_⟩
    · rw [List.sum_cons, hsum, hb]
    · intro w hw1
      rcases List.mem_cons.mp hw1 with rfl | h
      · omega
      · exact hw w h
    · intro pos fs0 rs0
      have hrd : ∀ r ∈ [pos, pos + 1, pos + 2, pos + 3],
          pos ≤ r ∧ r ≤ pos + (4 + (before_terminator r3).length) := by
        intro r hr
        simp only [List.mem_cons, List.mem_singleton, List.not_mem_nil, or_false] at hr
        omega
      rw [utf8_fill_trace_step4 c0 c1 c2 c3 r3 pos fs0 rs0 (by omega) h5, hb]
      by_cases hc : utf8_codepoint4 c0 c1 c2 c3 < 0x10000
      · rw [if_pos hc]
        exact fill_trace_aborted fs0 rs0 _ _ 6 pos _ (by omega) (by omega) hrd
      · rw [if_neg hc]
        by_cases hd : utf8_codepoint4 c0 c1 c2 c3 ≥ 0x110000
        · rw [if_pos hd]
          exact fill_trace_aborted fs0 rs0 _ _ 5 pos _ (by omega) (by omega) hrd
        · rw [if_neg hd]
          exact fill_trace_continued _ fs0 rs0 _ ws1 4 pos _ hrd (ht (pos + 4) _ _)
  all_goals
    intro ws e
    rw [utf8_len_widths.eq_def] at e
    simp only [*, if_true, if_false, reduceCtorEq] at e

/-- The run of the materializing loop on an input the shared measuring scan
accepts, whatever amounts the scan adds to `len`. -/
theorem utf8_fill_run_accepted (w1 w2 w3 w4 : Nat) (b : List Nat) (len n : Nat)
    (h : utf8_len w1 w2 w3 w4 b len = .ok n) :
    ∃ ws, utf8_len_widths b [] = .ok ws ∧ (∀ w ∈ ws, 1 ≤ w ∧ w ≤ 4) ∧
      ws.sum = (before_terminator b).length ∧
      (utf8_fill_run b).widths <+: ws ∧
      ((utf8_fill_run b).status = 0 → (utf8_fill_run b).widths = ws) ∧
      (∀ r ∈ (utf8_fill_run b).reads, r ≤ (before_terminator b).length) ∧
      ((utf8_fill_run b).status = 0 ∨
        (4 ≤ (utf8_fill_run b).status ∧ (utf8_fill_run b).status ≤ 6)) := by
  cases e : utf8_len_widths b [] with
  | error st =>
    rw [(utf8_len_widths_error w1 w2 w3 w4 b len [] st).mp e] at h
    cases h
  | ok ws =>
    obtain ⟨ws1, e1, hsum, hw, ht⟩ := utf8_fill_trace_accepted b [] ws e
    obtain ⟨fs1, rs1, f1, f2, hp, h0, hs, hr⟩ := ht 0 [] []
    rw [List.nil_append] at e1 f1 f2
    subst e1
    refine ⟨ws, rfl, hw, hsum, ?_, ?_, ?_, hs⟩
    · rw [utf8_fill_run, f1]
      exact hp
    · intro h1
      rw [utf8_fill_run, f1]
      exact h0 h1
    · intro r hr1
      rw [utf8_fill_run, f2] at hr1
      have := hr r hr1
      omega

/-- The two runs on the bytes of "A", U+E9, U+20AC and U+1F600. -/
theorem utf8_fill_run_accepted_example :
    utf8_len_widths [0x41, 0xC3, 0xA9, 0xE2, 0x82, 0xAC, 0xF0, 0x9F, 0x98, 0x80, 0] []
      = .ok [1, 2, 3, 4] ∧
    (utf8_fill_run [0x41, 0xC3, 0xA9, 0xE2, 0x82, 0xAC, 0xF0, 0x9F, 0x98, 0x80, 0]).widths
      = [1, 2, 3, 4] ∧
    (utf8_fill_run [0x41, 0xC3, 0xA9, 0xE2, 0x82, 0xAC, 0xF0, 0x9F, 0x98, 0x80, 0]).reads
      = [0, 1, 2, 3, 4, 5, 6, 7, 8, 9, 10] ∧
    (utf8_fill_run [0x41, 0xC3, 0xA9, 0xE2, 0x82, 0xAC, 0xF0, 0x9F, 0x98, 0x80, 0]).status = 0 :=
  ⟨rfl, by decide, by decide, by decide⟩

/-- The two runs on "A", the overlong C0 80 and "B": the measuring pass passes
over three sequences, the materializing loop stops in the second with status
6, having read its two bytes. -/
theorem utf8_fill_run_aborted_example :
    utf8_len_widths [0x41, 0xC0, 0x80, 0x42, 0] [] = .ok [1, 2, 1] ∧
    (utf8_fill_run [0x41, 0xC0, 0x80, 0x42, 0]).widths = [1] ∧
    (utf8_fill_run [0x41, 0xC0, 0x80, 0x42, 0]).reads = [0, 1, 2] ∧
    (utf8_fill_run [0x41, 0xC0, 0x80, 0x42, 0]).status = 6 :=
  ⟨rfl, by decide, by decide, by decide⟩

/-- The materializing loop alone does not have the properties the measuring
pass gives it: run on E0 0, which the measuring pass rejects with status 2, it
reads index 2, after the terminator at index 1; run on F8 0, which the
measuring pass rejects with status 1, it is left through its final branch. -/
theorem utf8_fill_run_rejected_example :
    utf8_to_utf16_len [0xE0, 0] 0 = .error 2 ∧
    (utf8_fill_run [0xE0, 0]).reads = [0, 1, 2] ∧
    (before_terminator [0xE0, 0]).length = 1 ∧
    utf8_to_utf16_len [0xF8, 0] 0 = .error 1 ∧
    (utf8_fill_run [0xF8, 0]).status = 1 :=
  ⟨rfl, by decide, by decide, rfl, by decide⟩

/-! ## The claims, concluded -/

/-- Claim C21 (pass agreement on byte shape). For `utf8_to_utf16` and for
`utf8_to_utf32`, and every input `b` the measuring pass accepts: the measuring
pass moved `counter` by amounts `ws`, each 1, 2, 3 or 4, that add up to the
index of the terminator; the amounts the materializing loop moves `counter` by
are an initial part of `ws`, and all of `ws` when the loop ends at its loop
test (status 0), so every sequence it passes over has the width the measuring
pass gave it; every byte it reads has an index not greater than that of the
terminator; it is never left through its final branch (status 1): when the
materializing pass returns a status, the status is 4, 5 or 6. The run
`utf8_fill_run` has the status of each materializing pass. -/
theorem passes_agree_on_byte_shape (b : List Nat) :
    (∀ n, utf8_to_utf16_len b 0 = .ok n →
      ∃ ws, utf8_len_widths b [] = .ok ws ∧ (∀ w ∈ ws, 1 ≤ w ∧ w ≤ 4) ∧
        ws.sum = (before_terminator b).length ∧
        (utf8_fill_run b).widths <+: ws ∧
        ((utf8_fill_run b).status = 0 → (utf8_fill_run b).widths = ws) ∧
        (∀ r ∈ (utf8_fill_run b).reads, r ≤ (before_terminator b).length) ∧
        (utf8_fill_run b).status ≠ 1 ∧
        (∀ buf i out, utf8_to_utf16_fill b 0 buf i = .ok out → (utf8_fill_run b).status = 0) ∧
        (∀ buf i st, utf8_to_utf16_fill b 0 buf i = .error st →
          (utf8_fill_run b).status = st ∧ 4 ≤ st ∧ st ≤ 6)) ∧
    (∀ n, utf8_to_utf32_len b 0 = .ok n →
      ∃ ws, utf8_len_widths b [] = .ok ws ∧ (∀ w ∈ ws, 1 ≤ w ∧ w ≤ 4) ∧
        ws.sum = (before_terminator b).length ∧
        (utf8_fill_run b).widths <+: ws ∧
        ((utf8_fill_run b).status = 0 → (utf8_fill_run b).widths = ws) ∧
        (∀ r ∈ (utf8_fill_run b).reads, r ≤ (before_terminator b).length) ∧
        (utf8_fill_run b).status ≠ 1 ∧
        (∀ buf i out, utf8_to_utf32_fill b 0 buf i = .ok out → (utf8_fill_run b).status = 0) ∧
        (∀ buf i st, utf8_to_utf32_fill b 0 buf i = .error st →
          (utf8_fill_run b).status = st ∧ 4 ≤ st ∧ st ≤ 6)) := by
  constructor
  · intro n h
    obtain ⟨ws, e, hw, hsum, hp, h0, hr, hs⟩ := utf8_fill_run_accepted 2 2 2 4 b 0 n h
    refine ⟨ws, e, hw, hsum, hp, h0, hr, by omega, ?_, ?_⟩
    · intro buf i out e1
      have := utf8_to_utf16_fill_status b 0 buf i 0 [] []
      rw [e1] at this
      exact this
    · intro buf i st e1
      have h1 := utf8_to_utf16_fill_status b 0 buf i 0 [] []
      have h2 := utf8_to_utf16_fill_error b 0 buf i st e1
      rw [e1] at h1
      change (utf8_fill_run b).status = st at h1
      omega
  · intro n h
    obtain ⟨ws, e, hw, hsum, hp, h0, hr, hs⟩ := utf8_fill_run_accepted 4 4 4 4 b 0 n h
    refine ⟨ws, e, hw, hsum, hp, h0, hr, by omega, ?_, ?_⟩
    · intro buf i out e1
      have := utf8_to_utf32_fill_status b 0 buf i 0 [] []
      rw [e1] at this
      exact this
    · intro buf i st e1
      have h1 := utf8_to_utf32_fill_status b 0 buf i 0 [] []
      have h2 := utf8_to_utf32_fill_error b 0 buf i st e1
      rw [e1] at h1
      change (utf8_fill_run b).status = st at h1
      omega

/-- An instance: `utf8_to_utf16` on the bytes of U+E9 and "A", and
`utf8_to_utf32` on the overlong C0 80. -/
theorem passes_agree_on_byte_shape_witness :
    utf8_to_utf16_len [0xC3, 0xA9, 0x41, 0] 0 = .ok 4 ∧
    utf8_to_utf32_len [0xC0, 0x80, 0] 0 = .ok 4 ∧
    (∃ ws, utf8_len_widths [0xC3, 0xA9, 0x41, 0] [] = .ok ws ∧ (∀ w ∈ ws, 1 ≤ w ∧ w ≤ 4) ∧
      ws.sum = (before_terminator [0xC3, 0xA9, 0x41, 0]).length ∧
      (utf8_fill_run [0xC3, 0xA9, 0x41, 0]).widths <+: ws ∧
      ((utf8_fill_run [0xC3, 0xA9, 0x41, 0]).status = 0 → (utf8_fill_run [0xC3, 0xA9, 0x41, 0]).widths = ws) ∧
      (∀ r ∈ (utf8_fill_run [0xC3, 0xA9, 0x41, 0]).reads, r ≤ (before_terminator [0xC3, 0xA9, 0x41, 0]).length) ∧
      (utf8_fill_run [0xC3, 0xA9, 0x41, 0]).status ≠ 1 ∧
      (∀ buf i out, utf8_to_utf16_fill [0xC3, 0xA9, 0x41, 0] 0 buf i = .ok out →
        (utf8_fill_run [0xC3, 0xA9, 0x41, 0]).status = 0) ∧
      (∀ buf i st, utf8_to_utf16_fill [0xC3, 0xA9, 0x41, 0] 0 buf i = .error st →
        (utf8_fill_run [0xC3, 0xA9, 0x41, 0]).status = st ∧ 4 ≤ st ∧ st ≤ 6)) ∧
    (∃ ws, utf8_len_widths [0xC0, 0x80, 0] [] = .ok ws ∧ (∀ w ∈ ws, 1 ≤ w ∧ w ≤ 4) ∧
      ws.sum = (before_terminator [0xC0, 0x80, 0]).length ∧
      (utf8_fill_run [0xC0, 0x80, 0]).widths <+: ws ∧
      ((utf8_fill_run [0xC0, 0x80, 0]).status = 0 → (utf8_fill_run [0xC0, 0x80, 0]).widths = ws) ∧
      (∀ r ∈ (utf8_fill_run [0xC0, 0x80, 0]).reads, r ≤ (before_terminator [0xC0, 0x80, 0]).length) ∧
      (utf8_fill_run [0xC0, 0x80, 0]).status ≠ 1 ∧
      (∀ buf i out, utf8_to_utf32_fill [0xC0, 0x80, 0] 0 buf i = .ok out →
        (utf8_fill_run [0xC0, 0x80, 0]).status = 0) ∧
      (∀ buf i st, utf8_to_utf32_fill [0xC0, 0x80, 0] 0 buf i = .error st →
        (utf8_fill_run [0xC0, 0x80, 0]).status = st ∧ 4 ≤ st ∧ st ≤ 6)) :=
  ⟨rfl, rfl, (passes_agree_on_byte_shape [0xC3, 0xA9, 0x41, 0]).1 4 rfl,
    (passes_agree_on_byte_shape [0xC0, 0x80, 0]).2 4 rfl⟩

end Unishim
